import Mathlib

/-! kriscience: the certificate-chain verifier and the malloc interposer.

A shallow embedding of two programs of the repository:

* `src/cert-verify.cpp` (namespace `CertVerify`): the command-line chain
  verifier.  The OpenSSL calls it makes are external; their results in one run
  are collected in the record `OpenSSL`, and `main` is a pure function of that
  record and of the argument vector.  Exceptions are explicit (`Res.throw`),
  a null-pointer dereference is `Res.crash`, and the library calls that read
  files, initialise the context, verify and report are logged in a trace of
  `Event`s.
* `src/debugging-threaded-app/kris-malloc-mipsel.cpp` (namespace `KrisMalloc`):
  the double-free detecting allocator, over a byte-addressed 32-bit memory.
-/

namespace CertVerify

/-! ## Data model -/

/-- An `X509_NAME` as the program observes it: `oneline` is what
`X509_NAME_print_ex (bio, name, 0, XN_FLAG_ONELINE)` writes, `none` when the
library reports an error (return value `-1`). -/
structure X509_NAME where
  oneline : Option String
  deriving DecidableEq, Repr

/-- An `ASN1_TIME` as the program observes it: `text` is what `ASN1_TIME_print`
writes, `none` when the time value is invalid (return value `0`). -/
structure ASN1_TIME where
  text : Option String
  deriving DecidableEq, Repr

/-- A parsed certificate: an identity and the three fields the reporter reads. -/
structure X509 where
  id : Nat
  subject : Option X509_NAME
  notBefore : ASN1_TIME
  notAfter : ASN1_TIME
  deriving DecidableEq, Repr

/-- The trust store: the PEM files loaded into it through the file lookup. -/
structure X509_STORE where
  files : List String
  deriving DecidableEq, Repr

/-- What `X509_verify_cert` leaves behind: its return value and the error
state of the context. -/
structure VerifyOutcome where
  result : Int
  error : Int
  error_depth : Int
  current_cert : Option X509
  deriving DecidableEq, Repr

/-- The verification context after `X509_STORE_CTX_init` and
`X509_verify_cert`. -/
structure X509_STORE_CTX where
  store : X509_STORE
  cert : X509
  untrusted : List X509
  error : Int
  error_depth : Int
  current_cert : Option X509
  deriving DecidableEq, Repr

/-- The results of the OpenSSL calls of one run. -/
structure OpenSSL where
  /-- `X509_STORE_new ()` returns a store. -/
  storeNew : Bool
  /-- `X509_STORE_add_lookup (store, X509_LOOKUP_file ())` returns a lookup. -/
  addLookup : Bool
  /-- return value of `X509_LOOKUP_load_file (lookup, path, X509_FILETYPE_PEM)`. -/
  loadFile : String → Int
  /-- `X509_STORE_CTX_new ()` returns a context. -/
  ctxNew : Bool
  /-- `BIO_new_file (path, "r")` opens the file. -/
  bioNewFile : String → Bool
  /-- `PEM_read_bio_X509` on the opened file at `path`. -/
  pemRead : String → Option X509
  /-- `sk_X509_push (stack, cert)` returns non-zero. -/
  skPush : List X509 → X509 → Bool
  /-- `X509_STORE_CTX_init (ctx, store, cert, untrusted)` returns non-zero. -/
  ctxInit : X509_STORE → X509 → List X509 → Bool
  /-- `X509_verify_cert (ctx)` on the initialised context. -/
  verifyCert : X509_STORE → X509 → List X509 → VerifyOutcome
  /-- `X509_verify_cert_error_string (error)`, `none` for a null pointer. -/
  errorString : Int → Option String
  /-- `BIO_new (BIO_s_mem ())` returns a buffer. -/
  bioNewMem : Bool
  /-- `BIO_puts (bio, s)` succeeds (returns the positive number of bytes). -/
  bioPuts : String → Bool

/-- A C++ exception: every `throw` of the program is a `std::runtime_error`;
`other` stands for what only `catch (...)` would catch. -/
inductive Exn where
  | runtime_error (what : String)
  | other
  deriving DecidableEq, Repr

/-- Result of a call that may return, throw, or dereference a null pointer. -/
inductive Res (α : Type) where
  | ok (a : α)
  | throw (e : Exn)
  | crash
  deriving DecidableEq, Repr

/-- Library calls recorded in the trace of a run. -/
inductive Event where
  | loadRoot (path : String)
  | openFile (path : String)
  | readPem (path : String)
  | ctxInit (store : X509_STORE) (leaf : X509) (untrusted : List X509)
  | verify (result : Int)
  | report
  deriving DecidableEq, Repr

/-- How the process ends. -/
inductive Status where
  | exited (code : Nat)
  | segfault
  deriving DecidableEq, Repr

/-- Everything observable of one run of `main`. -/
structure Run where
  stdout : String
  stderr : String
  status : Status
  trace : List Event
  deriving DecidableEq, Repr

def EXIT_SUCCESS : Nat := 0

def EXIT_FAILURE : Nat := 1

def X509_V_ERR_CERT_NOT_YET_VALID : Int := 9

def X509_V_ERR_CERT_HAS_EXPIRED : Int := 10

/-! ## Input loader -/

/-- Source: `read_x509_raw`.  Returns the events of the call and its result. -/
def read_x509_raw (ssl : OpenSSL) (path : String) : List Event × Res X509 :=
  if !ssl.bioNewFile path then
    ([Event.openFile path], Res.throw (Exn.runtime_error ("Cannot open file: " ++ path)))
  else
    match ssl.pemRead path with
    | none =>
      ([Event.openFile path, Event.readPem path],
        Res.throw (Exn.runtime_error ("Cannot read certificate: " ++ path)))
    | some cert => ([Event.openFile path, Event.readPem path], Res.ok cert)

/-- Source: `read_x509`, the RAII wrapper around `read_x509_raw`. -/
def read_x509 (ssl : OpenSSL) (path : String) : List Event × Res X509 :=
  read_x509_raw ssl path

/-- The `std::for_each` loop of `read_untrusted`: `stack` is the stack built
so far, each path is read and pushed at the end of the stack. -/
def read_untrusted_loop (ssl : OpenSSL) :
    List String → List X509 → List Event × Res (List X509)
  | [], stack => ([], Res.ok stack)
  | path :: rest, stack =>
    match read_x509_raw ssl path with
    | (ev, Res.ok cert) =>
      if !ssl.skPush stack cert then
        (ev, Res.throw (Exn.runtime_error "Cannot add untrusted certificate into the stack"))
      else
        let r := read_untrusted_loop ssl rest (stack ++ [cert])
        (ev ++ r.1, r.2)
    | (ev, Res.throw e) => (ev, Res.throw e)
    | (ev, Res.crash) => (ev, Res.crash)

/-- Source: `read_untrusted (begin, end)`; `paths` is the range `[begin, end)`. -/
def read_untrusted (ssl : OpenSSL) (paths : List String) : List Event × Res (List X509) :=
  read_untrusted_loop ssl paths []

/-! ## Diagnostic reporter -/

/-- The library call `X509_NAME_print_ex` with `XN_FLAG_ONELINE`: the return
value and the buffer afterwards. -/
def X509_NAME_print_ex (bio : String) (name : X509_NAME) : Int × String :=
  match name.oneline with
  | none => (-1, bio)
  | some s => ((s.length : Int), bio ++ s)

/-- The library call `ASN1_TIME_print`: `1` and the text appended, or `0`. -/
def ASN1_TIME_print (bio : String) (tm : ASN1_TIME) : Int × String :=
  match tm.text with
  | none => (0, bio ++ "Bad time value")
  | some s => (1, bio ++ s)

/-- The library call `BIO_puts` on the memory buffer. -/
def BIO_puts (ssl : OpenSSL) (bio : String) (s : String) : Int × String :=
  if ssl.bioPuts s then ((s.length : Int), bio ++ s) else (-1, bio)

/-- The subject part of `print_verification_failure_msg` (the `if (cert)`
block): the buffer after it. -/
def print_subject (bio : String) : Option X509 → Res String
  | none => Res.ok bio
  | some cert =>
    match cert.subject with
    | none => Res.throw (Exn.runtime_error "Cannot get certificate subject name")
    | some subj =>
      let r := X509_NAME_print_ex bio subj
      if r.1 ≤ 0 then Res.throw (Exn.runtime_error "Cannot get certificate subject name")
      else Res.ok r.2

/-- The `switch (error)` of `print_verification_failure_msg`: for the two
validity errors the dates of `cert` are appended; `X509_get_notBefore (cert)`
reads through `cert`, a null `cert` is dereferenced there. -/
def print_dates (ssl : OpenSSL) (error : Int) (cert : Option X509) (bio : String) : Res String :=
  if error = X509_V_ERR_CERT_NOT_YET_VALID ∨ error = X509_V_ERR_CERT_HAS_EXPIRED then
    let r1 := BIO_puts ssl bio "\nnotBefore: "
    if r1.1 ≤ 0 then Res.throw (Exn.runtime_error "Cannot get certificate expiration dates")
    else
      match cert with
      | none => Res.crash
      | some c =>
        let r2 := ASN1_TIME_print r1.2 c.notBefore
        if r2.1 ≤ 0 then
          Res.throw (Exn.runtime_error "Cannot get certificate expiration dates")
        else
          let r3 := BIO_puts ssl r2.2 "\nnotAfter: "
          if r3.1 ≤ 0 then
            Res.throw (Exn.runtime_error "Cannot get certificate expiration dates")
          else
            let r4 := ASN1_TIME_print r3.2 c.notAfter
            if r4.1 ≤ 0 then
              Res.throw (Exn.runtime_error "Cannot get certificate expiration dates")
            else Res.ok r4.2
  else Res.ok bio

/-- Source: `print_verification_failure_msg (ctx, out)`.  The result is the
text written to `out`; nothing is written before a throw or a crash. -/
def print_verification_failure_msg (ssl : OpenSSL) (ctx : X509_STORE_CTX) : Res String :=
  let error := ctx.error
  match ssl.errorString error with
  | none => Res.throw (Exn.runtime_error "Cannot get verification failure message")
  | some error_msg =>
    if !ssl.bioNewMem then
      Res.throw (Exn.runtime_error "Cannot allocate buffer for the error message")
    else
      let cert := ctx.current_cert
      match print_subject "" cert with
      | Res.throw e => Res.throw e
      | Res.crash => Res.crash
      | Res.ok bio1 =>
        match print_dates ssl error cert bio1 with
        | Res.throw e => Res.throw e
        | Res.crash => Res.crash
        | Res.ok buffer =>
          let buffer_length : Int := (buffer.length : Int)
          if buffer_length < 0 then
            Res.throw (Exn.runtime_error "Cannot get error message buffer")
          else
            let head := error_msg ++ " (at level " ++ toString ctx.error_depth ++ ")"
            let body := if buffer_length > 0 then "\n" ++ buffer else ""
            Res.ok (head ++ body ++ "\n")

/-! ## Command line -/

/-- Source: `usage (arg0, out)`: the text written to `out`. -/
def usage (arg0 : String) : String :=
  "Usage:\n" ++
  "\n" ++
  "    " ++ arg0 ++ " <CA cert> [<untrusted cert>...] <leaf cert>\n" ++
  "\n" ++
  "Verifies <leaf cert> with all optional intermediate <untrusted cert>s and\n" ++
  "ultimately trusted root <CA cert>.  Please note that the order of certificates\n" ++
  "on the command line is important.\n" ++
  "\n"

/-- Source: `help_requested`. -/
def help_requested (arg : String) : Bool :=
  arg == "-h" || arg == "-help" || arg == "--help"

/-- What the `try` block of `main` has done when it is left. -/
structure TryBlock where
  stdout : String
  stderr : String
  trace : List Event
  res : Res Unit
  deriving DecidableEq, Repr

/-- The tail of the `try` block of `main`, from `X509_verify_cert` on. -/
def main_verify (ssl : OpenSSL) (trusted : X509_STORE) (cert : X509) (untrusted : List X509)
    (trace : List Event) : TryBlock :=
  let out := ssl.verifyCert trusted cert untrusted
  let ctx : X509_STORE_CTX :=
    { store := trusted, cert := cert, untrusted := untrusted, error := out.error,
      error_depth := out.error_depth, current_cert := out.current_cert }
  let result := out.result
  let trace := trace ++ [Event.verify result]
  if result < 0 then
    { stdout := "", stderr := "", trace := trace,
      res := Res.throw (Exn.runtime_error "Cannot verify certificates") }
  else
    let stdout := "Verification " ++ (if result ≠ 0 then "OK" else "failed") ++ "\n"
    if result = 0 then
      match print_verification_failure_msg ssl ctx with
      | Res.ok msg =>
        { stdout := stdout, stderr := msg, trace := trace ++ [Event.report], res := Res.ok () }
      | Res.throw e =>
        { stdout := stdout, stderr := "", trace := trace ++ [Event.report], res := Res.throw e }
      | Res.crash =>
        { stdout := stdout, stderr := "", trace := trace ++ [Event.report], res := Res.crash }
    else
      { stdout := stdout, stderr := "", trace := trace, res := Res.ok () }

/-- The `try` block of `main`; `argv` is the whole argument vector. -/
def main_try (ssl : OpenSSL) (argv : List String) : TryBlock :=
  let argc := argv.length
  let fail (trace : List Event) (what : String) : TryBlock :=
    { stdout := "", stderr := "", trace := trace, res := Res.throw (Exn.runtime_error what) }
  if !ssl.storeNew then fail [] "Cannot create a trusted store"
  else if !ssl.addLookup then fail [] "Cannot add file lookup"
  else
    let root := argv.getD 1 ""
    if 1 ≠ ssl.loadFile root then fail [Event.loadRoot root] "Cannot load root CA"
    else
      let trusted : X509_STORE := { files := [root] }
      if !ssl.ctxNew then fail [Event.loadRoot root] "Cannot create a store context"
      else
        match read_untrusted ssl ((argv.drop 2).take (argc - 1 - 2)) with
        | (ev1, Res.throw e) =>
          { stdout := "", stderr := "", trace := Event.loadRoot root :: ev1, res := Res.throw e }
        | (ev1, Res.crash) =>
          { stdout := "", stderr := "", trace := Event.loadRoot root :: ev1, res := Res.crash }
        | (ev1, Res.ok untrusted) =>
          match read_x509 ssl (argv.getD (argc - 1) "") with
          | (ev2, Res.throw e) =>
            { stdout := "", stderr := "", trace := Event.loadRoot root :: (ev1 ++ ev2),
              res := Res.throw e }
          | (ev2, Res.crash) =>
            { stdout := "", stderr := "", trace := Event.loadRoot root :: (ev1 ++ ev2),
              res := Res.crash }
          | (ev2, Res.ok cert) =>
            let trace := Event.loadRoot root :: (ev1 ++ ev2) ++
              [Event.ctxInit trusted cert untrusted]
            if !ssl.ctxInit trusted cert untrusted then
              fail trace "Cannot initialize the store context"
            else main_verify ssl trusted cert untrusted trace

/-- Source: `main (argc, argv)` with `argv = arg0 :: args`, `argc = args.length + 1`. -/
def main (ssl : OpenSSL) (arg0 : String) (args : List String) : Run :=
  let argv := arg0 :: args
  let argc := argv.length
  if argc = 2 ∧ help_requested (argv.getD 1 "") = true then
    { stdout := usage arg0, stderr := "", status := Status.exited EXIT_SUCCESS, trace := [] }
  else if argc < 3 then
    { stdout := "", stderr := usage arg0, status := Status.exited EXIT_FAILURE, trace := [] }
  else
    let t := main_try ssl argv
    match t.res with
    | Res.ok _ =>
      { stdout := t.stdout, stderr := t.stderr, status := Status.exited EXIT_SUCCESS,
        trace := t.trace }
    | Res.throw (Exn.runtime_error what) =>
      { stdout := t.stdout, stderr := t.stderr ++ "Error: " ++ what ++ "\n",
        status := Status.exited EXIT_FAILURE, trace := t.trace }
    | Res.throw Exn.other =>
      { stdout := t.stdout, stderr := t.stderr ++ "Unknown error\n",
        status := Status.exited EXIT_FAILURE, trace := t.trace }
    | Res.crash =>
      { stdout := t.stdout, stderr := t.stderr, status := Status.segfault, trace := t.trace }

/-! ## Vocabulary of the statements and example inputs -/

/-- Events of the input loader only. -/
def Event.isFile : Event → Bool
  | Event.openFile _ => true
  | Event.readPem _ => true
  | _ => false

/-- Events that precede `X509_verify_cert`: the root load, the loader events
and the context initialisation. -/
def Event.isSetup : Event → Bool
  | Event.verify _ => false
  | Event.report => false
  | _ => true

/-- An expired leaf certificate. -/
def demoLeaf : X509 :=
  { id := 1, subject := some { oneline := some "C = PL, CN = leaf" },
    notBefore := { text := some "Jan  1 00:00:00 2010 GMT" },
    notAfter := { text := some "Jan  1 00:00:00 2011 GMT" } }

/-- A certificate whose subject name does not render: `X509_NAME_print_ex`
returns `-1`. -/
def namelessCert : X509 :=
  { id := 2, subject := some { oneline := none },
    notBefore := { text := some "Jan  1 00:00:00 2010 GMT" },
    notAfter := { text := some "Jan  1 00:00:00 2030 GMT" } }

/-- A run in which every file loads and every allocation succeeds; the
verifier returns `result` and leaves `error` at depth `0` with current
certificate `cur`. -/
def demoSSL (result error : Int) (cur : Option X509) : OpenSSL :=
  { storeNew := true, addLookup := true, loadFile := fun _ => 1, ctxNew := true,
    bioNewFile := fun _ => true, pemRead := fun _ => some demoLeaf,
    skPush := fun _ _ => true, ctxInit := fun _ _ _ => true,
    verifyCert := fun _ _ _ =>
      { result := result, error := error, error_depth := 0, current_cert := cur },
    errorString := fun e =>
      if e = 10 then some "certificate has expired"
      else if e = 9 then some "certificate is not yet valid"
      else some "unable to get local issuer certificate",
    bioNewMem := true, bioPuts := fun _ => true }

/-- A context in the Invalid state with the given error, depth `0` and
current certificate. -/
def demoCtx (error : Int) (cur : Option X509) : X509_STORE_CTX :=
  { store := { files := ["root.pem"] }, cert := demoLeaf, untrusted := [],
    error := error, error_depth := 0, current_cert := cur }

/-- The loader events of paths that all load: `read_x509_raw` opens and parses
each in turn. -/
def loadedEvents : List String → List Event
  | [] => []
  | p :: ps => Event.openFile p :: Event.readPem p :: loadedEvents ps

/-- The loader events of `read_x509_raw` at a path that fails to load: the file
is opened, and parsed only when it could be opened. -/
def failedEvents (ssl : OpenSSL) (bad : String) : List Event :=
  if ssl.bioNewFile bad = true then [Event.openFile bad, Event.readPem bad]
  else [Event.openFile bad]

/-- The message `read_x509_raw` throws at a path that fails to load. -/
def failedMessage (ssl : OpenSSL) (bad : String) : String :=
  if ssl.bioNewFile bad = true then "Cannot read certificate: " ++ bad
  else "Cannot open file: " ++ bad

/-- A library over a file system where `missing.pem` cannot be opened and
`garbage.pem` holds no PEM certificate; every other file loads. -/
def demoFilesSSL : OpenSSL :=
  { storeNew := true, addLookup := true, loadFile := fun _ => 1, ctxNew := true,
    bioNewFile := fun p => p != "missing.pem",
    pemRead := fun p => if p = "garbage.pem" then none else some demoLeaf,
    skPush := fun _ _ => true, ctxInit := fun _ _ _ => true,
    verifyCert := fun _ _ _ =>
      { result := 1, error := 0, error_depth := 0, current_cert := none },
    errorString := fun _ => some "ok",
    bioNewMem := true, bioPuts := fun _ => true }

end CertVerify


namespace KrisMalloc

/-! ## Machine model

The target is 32-bit little-endian MIPS: `size_t`, `pthread_t` and pointers
are 32-bit words, arithmetic on them is modulo `WORD`.  The resolver
(`getNextFunction`) is taken to have found the next-layer `malloc` and `free`;
the next layer is an input: `fn_malloc` maps the calls made so far and the
requested size to the block it returns (`0` is the null pointer), and the
next-layer `free` is recorded in the call log.  Neither touches the modelled
memory. -/

/-- Number of values of a machine word, `2 ^ 32`. -/
def WORD : Nat := 4294967296

/-- Byte-addressed memory: the byte stored at each address below `WORD`. -/
abbrev Mem := Nat → Nat

/-- Pointer plus offset on the machine. -/
def padd (p k : Nat) : Nat := (p + k) % WORD

/-- Pointer minus offset on the machine. -/
def psub (p k : Nat) : Nat := (p + (WORD - k % WORD)) % WORD

/-- Store consecutive little-endian words at `a`: the assignment of a struct
of words, as `*reinterpret_cast<MallocInfo*>(ptr) = info`. -/
def storeWords (m : Mem) (a : Nat) (ws : List Nat) : Mem :=
  fun x =>
    let d := (x + (WORD - a % WORD)) % WORD
    if d < 4 * ws.length then (ws.getD (d / 4) 0 / 256 ^ (d % 4)) % 256 else m x

/-- Store one word. -/
def storeWord (m : Mem) (a v : Nat) : Mem := storeWords m a [v]

/-- Load the little-endian word at `a`. -/
def loadWord (m : Mem) (a : Nat) : Nat :=
  m (padd a 0) + 256 * m (padd a 1) + 65536 * m (padd a 2) + 16777216 * m (padd a 3)

/-- The library call `memset (ptr, c, n)`. -/
def memset (m : Mem) (ptr c n : Nat) : Mem :=
  fun x => if (x + (WORD - ptr % WORD)) % WORD < n then c % 256 else m x

/-- The library call `memcpy (dst, src, n)`. -/
def memcpy (m : Mem) (dst src n : Nat) : Mem :=
  fun x =>
    let d := (x + (WORD - dst % WORD)) % WORD
    if d < n then m (padd src d) else m x

/-- `sizeof (MallocInfo)`: fourteen words. -/
def sizeof_MallocInfo : Nat := 56

/-- `sizeof (MallocInfoBack)`: ten words. -/
def sizeof_MallocInfoBack : Nat := 40

/-- `offsetof (MallocInfo, raFree)`. -/
def off_raFree : Nat := 24

/-- `offsetof (MallocInfo, tidTerminator)`. -/
def off_tidTerminator : Nat := 28

/-- `offsetof (MallocInfo, size)`. -/
def off_size : Nat := 32

/-- `offsetof (MallocInfo, freeCnt)`. -/
def off_freeCnt : Nat := 36

def MAGIC1 : Nat := 0xaaaaaaaa

def MAGIC2 : Nat := 0xbbbbbbbb

def MAGIC3 : Nat := 0x55555555

def MAGIC4 : Nat := 0xdddddddd

/-- A call made to the next layer. -/
inductive NextCall where
  | malloc (size : Nat) (ret : Nat)
  | free (ptr : Nat)
  deriving DecidableEq, Repr

/-- State of the process: memory, the two post-mortem globals, the calls made
to the next layer (oldest first), and whether `ABORT_HERE` has been executed. -/
structure State where
  mem : Mem
  gRaFree : Nat
  gTidTerminator : Nat
  calls : List NextCall
  aborted : Bool

/-- The words of a `MallocInfo` as `malloc` initialises it. -/
def mallocInfo (ra tid size : Nat) : List Nat :=
  [MAGIC1, MAGIC1, MAGIC1, MAGIC1, ra, tid, 0, 0, size, 0, MAGIC2, MAGIC2, MAGIC2, MAGIC2]

/-- The words of a `MallocInfoBack` as `malloc` initialises it. -/
def mallocInfoBack (tid size : Nat) : List Nat :=
  [MAGIC3, MAGIC3, MAGIC3, MAGIC3, tid, size, MAGIC4, MAGIC4, MAGIC4, MAGIC4]

/-- Source: `malloc (size)`, called with return address `ra` by thread `tid`.
A terminated process executes nothing. -/
def malloc (fn_malloc : List NextCall → Nat → Nat) (st : State) (ra tid size : Nat) :
    State × Nat :=
  if st.aborted then (st, 0)
  else
    let n := (sizeof_MallocInfo + size + sizeof_MallocInfoBack) % WORD
    let ptr := fn_malloc st.calls n
    let st1 : State := { st with calls := st.calls ++ [NextCall.malloc n ptr] }
    if ptr = 0 then (st1, ptr)
    else
      let info := mallocInfo ra tid size
      let infoBack := mallocInfoBack tid size
      let mem1 := storeWords st1.mem ptr info
      let mem2 := storeWords mem1 (padd (padd ptr sizeof_MallocInfo) size) infoBack
      ({ st1 with mem := mem2 }, padd ptr sizeof_MallocInfo)

/-- Source: `free (ptr)`, called with return address `ra` by thread `tid`, up to
the call of the next-layer `free`, which is logged: the state is the one in
which the block is forwarded. What the next layer then does to memory is left
out here and is part of `free_fwd`. -/
def free (st : State) (ra tid ptr : Nat) : State :=
  if st.aborted then st
  else if ptr ≠ 0 then
    let mi := psub ptr sizeof_MallocInfo
    let old := loadWord st.mem (padd mi off_freeCnt)
    let mem1 := storeWord st.mem (padd mi off_freeCnt) ((old + 1) % WORD)
    if 0 ≠ old then
      { st with
        mem := mem1
        gRaFree := loadWord mem1 (padd mi off_raFree)
        gTidTerminator := loadWord mem1 (padd mi off_tidTerminator)
        aborted := true }
    else
      let mem2 := storeWord mem1 (padd mi off_raFree) ra
      let mem3 := storeWord mem2 (padd mi off_tidTerminator) tid
      { st with mem := mem3, calls := st.calls ++ [NextCall.free mi] }
  else { st with calls := st.calls ++ [NextCall.free ptr] }

/-- Source: `free (ptr)` with the forwarded call carried out: `fn_free calls m p`
is the memory that the next-layer `free` leaves when it is called with `p` on
memory `m` after the next-layer calls `calls`. A call that aborts does not
reach the next layer. -/
def free_fwd (fn_free : List NextCall → Mem → Nat → Mem) (st : State) (ra tid ptr : Nat) :
    State :=
  if st.aborted then st
  else if ptr ≠ 0 then
    let mi := psub ptr sizeof_MallocInfo
    let old := loadWord st.mem (padd mi off_freeCnt)
    let mem1 := storeWord st.mem (padd mi off_freeCnt) ((old + 1) % WORD)
    if 0 ≠ old then
      { st with
        mem := mem1
        gRaFree := loadWord mem1 (padd mi off_raFree)
        gTidTerminator := loadWord mem1 (padd mi off_tidTerminator)
        aborted := true }
    else
      let mem2 := storeWord mem1 (padd mi off_raFree) ra
      let mem3 := storeWord mem2 (padd mi off_tidTerminator) tid
      { st with mem := fn_free st.calls mem3 mi, calls := st.calls ++ [NextCall.free mi] }
  else { st with mem := fn_free st.calls st.mem ptr, calls := st.calls ++ [NextCall.free ptr] }

/-- Source: `realloc (ptr, size)`; `raNull`, `raFreeZero`, `raNew` and `raFreeOld`
are the return addresses of its calls of `malloc` and `free`, in source order. -/
def realloc (fn_malloc : List NextCall → Nat → Nat) (st : State)
    (raNull raFreeZero raNew raFreeOld tid ptr size : Nat) : State × Nat :=
  if st.aborted then (st, 0)
  else if ptr = 0 then malloc fn_malloc st raNull tid size
  else if 0 = size then (free st raFreeZero tid ptr, 0)
  else
    let minSize := min (loadWord st.mem (padd (psub ptr sizeof_MallocInfo) off_size)) size
    let r := malloc fn_malloc st raNew tid size
    if r.2 ≠ 0 then
      (free { r.1 with mem := memcpy r.1.mem r.2 ptr minSize } raFreeOld tid ptr, r.2)
    else r

/-! ## Single-threaded runs -/

/-- One step of a single-threaded client: a `malloc` of `size` called from `ra`,
or the `free`, called from `ra`, of the pointer that the `k`-th `malloc` of the
run returned (counting from zero). -/
inductive Op where
  | malloc (size ra : Nat)
  | free (k ra : Nat)
  deriving DecidableEq, Repr

/-- A single-threaded run by thread `tid`; `ptrs` are the pointers returned by
the `malloc`s so far. -/
def run (fn_malloc : List NextCall → Nat → Nat) (tid : Nat) :
    State → List Nat → List Op → State × List Nat
  | st, ptrs, [] => (st, ptrs)
  | st, ptrs, Op.malloc size ra :: ops =>
    run fn_malloc tid (malloc fn_malloc st ra tid size).1
      (ptrs ++ [(malloc fn_malloc st ra tid size).2]) ops
  | st, ptrs, Op.free k ra :: ops =>
    run fn_malloc tid (free st ra tid (ptrs.getD k 0)) ptrs ops

/-- The steps are `malloc`/`free` pairs: each `free` names a pointer already
returned and not yet freed, and in the end every returned pointer has been
freed.  `n` pointers have been returned and those in `freed` freed so far. -/
def paired : Nat → List Nat → List Op → Bool
  | n, freed, [] => freed.length == n
  | n, freed, Op.malloc _ _ :: ops => paired (n + 1) freed ops
  | n, freed, Op.free k _ :: ops => decide (k < n) && !freed.contains k && paired n (k :: freed) ops

/-- The calls the next layer is expected to see when `blocks` are the blocks it
returns: per `malloc` one allocation of header + size + trailer bytes, per
`free` one release of the block returned for that pointer; `i` allocations
precede. -/
def expectedCalls (blocks : List Nat) : Nat → List Op → List NextCall
  | _, [] => []
  | i, Op.malloc size _ :: ops =>
    NextCall.malloc (sizeof_MallocInfo + size + sizeof_MallocInfoBack) (blocks.getD i 0) ::
      expectedCalls blocks (i + 1) ops
  | i, Op.free k _ :: ops => NextCall.free (blocks.getD k 0) :: expectedCalls blocks i ops

/-- Effect of one call on the blocks (base, size) handed out by the next layer
and not released. -/
def liveStep (l : List (Nat × Nat)) : NextCall → List (Nat × Nat)
  | NextCall.malloc n b => if b = 0 then l else l ++ [(b, n)]
  | NextCall.free b => l.filter (fun e => decide (e.1 ≠ b))

/-- The blocks handed out by the next layer and not released, after `calls`. -/
def liveBlocks (calls : List NextCall) : List (Nat × Nat) := calls.foldl liveStep []

/-- The contract of the next layer: it returns null, or a block inside the
address space that overlaps no block handed out and not yet released. -/
def Sane (fn_malloc : List NextCall → Nat → Nat) : Prop :=
  ∀ calls n, fn_malloc calls n = 0 ∨
    (fn_malloc calls n + n ≤ WORD ∧
      ∀ e ∈ liveBlocks calls, fn_malloc calls n + n ≤ e.1 ∨ e.1 + e.2 ≤ fn_malloc calls n)

/-- What a run maintains: the process is alive, `ptrs` are the payload pointers
of `blocks`, every block not yet freed is handed out by the next layer and has
a zero free counter, and the blocks handed out are non-null, hold a header and
a trailer, lie in the address space and do not overlap. -/
structure RunInv (st : State) (ptrs freed blocks : List Nat) : Prop where
  live : st.aborted = false
  len : blocks.length = ptrs.length
  ptr : ∀ k, k < blocks.length →
    ptrs.getD k 0 = if blocks.getD k 0 = 0 then 0 else blocks.getD k 0 + sizeof_MallocInfo
  hdr : ∀ k, k < blocks.length → k ∉ freed → blocks.getD k 0 ≠ 0 →
    (∃ n, (blocks.getD k 0, n) ∈ liveBlocks st.calls) ∧
      loadWord st.mem (padd (blocks.getD k 0) off_freeCnt) = 0
  inj : ∀ j k, j < blocks.length → k < blocks.length → j ∉ freed → k ∉ freed → j ≠ k →
    blocks.getD j 0 ≠ 0 → blocks.getD j 0 ≠ blocks.getD k 0
  disj : (liveBlocks st.calls).Pairwise
    (fun e1 e2 => e1.1 + e1.2 ≤ e2.1 ∨ e2.1 + e2.2 ≤ e1.1)
  wf : ∀ e ∈ liveBlocks st.calls,
    e.1 ≠ 0 ∧ sizeof_MallocInfo + sizeof_MallocInfoBack ≤ e.2 ∧ e.1 + e.2 ≤ WORD

/-! ## Example inputs -/

/-- A fresh process: zeroed memory, zero globals, no call made yet. -/
def demoState : State :=
  { mem := fun _ => 0, gRaFree := 0, gTidTerminator := 0, calls := [], aborted := false }

/-- A next layer that places each block after all live ones, from `4096` on. -/
def demoHeap (calls : List NextCall) (n : Nat) : Nat :=
  let top := (liveBlocks calls).foldl (fun t e => max t (e.1 + e.2)) 4096
  if top + n ≤ WORD then top else 0

/-- A next-layer `free` that links the released block into a free list: it
overwrites the first two words of the block and nothing else. -/
def linkFree (_calls : List NextCall) (m : Mem) (p : Nat) : Mem :=
  if p = 0 then m else storeWords m p [0x00001000, 0x00001000]

/-- A next-layer `free` that fills the released block, over the size it handed
out, with the byte `c`. -/
def fillFree (c : Nat) (calls : List NextCall) (m : Mem) (p : Nat) : Mem :=
  match (liveBlocks calls).find? (fun e => e.1 == p) with
  | some e => memset m p c e.2
  | none => m

/-- A next layer that places each block right below all live ones, from
`0x100000` down to `4096`. -/
def downHeap (calls : List NextCall) (n : Nat) : Nat :=
  let bot := (liveBlocks calls).foldl (fun t e => min t e.1) 0x100000
  if n + 4096 ≤ bot then bot - n else 0

end KrisMalloc

namespace CertVerify

theorem read_x509_raw_isFile (ssl : OpenSSL) (path : String) :
    ∀ e ∈ (read_x509_raw ssl path).1, Event.isFile e = true := by
  intro e he
  unfold read_x509_raw at he
  split at he
  · simp at he; subst he; rfl
  · split at he <;> simp at he <;> rcases he with he | he <;> subst he <;> rfl

theorem read_untrusted_loop_isFile (ssl : OpenSSL) (paths : List String) :
    ∀ (stack : List X509), ∀ e ∈ (read_untrusted_loop ssl paths stack).1, Event.isFile e = true := by
  induction paths with
  | nil => intro stack e he; simp [read_untrusted_loop] at he
  | cons p rest ih =>
    intro stack e he
    have hp := read_x509_raw_isFile ssl p
    unfold read_untrusted_loop at he
    split at he
    · rename_i ev cert heq
      rw [heq] at hp
      split at he
      · exact hp e he
      · simp only [List.mem_append] at he
        rcases he with he | he
        · exact hp e he
        · exact ih _ e he
    · rename_i ev ex heq
      rw [heq] at hp
      exact hp e he
    · rename_i ev heq
      rw [heq] at hp
      exact hp e he

theorem read_x509_isFile (ssl : OpenSSL) (path : String) :
    ∀ e ∈ (read_x509 ssl path).1, Event.isFile e = true :=
  read_x509_raw_isFile ssl path

theorem read_untrusted_isFile (ssl : OpenSSL) (paths : List String) :
    ∀ e ∈ (read_untrusted ssl paths).1, Event.isFile e = true :=
  read_untrusted_loop_isFile ssl paths []

theorem main_verify_trace (ssl : OpenSSL) (trusted : X509_STORE) (cert : X509)
    (untrusted : List X509) (trace : List Event) :
    ∃ tail, (main_verify ssl trusted cert untrusted trace).trace =
      trace ++ Event.verify (ssl.verifyCert trusted cert untrusted).result :: tail
      ∧ (tail = [] ∨ tail = [Event.report]) := by
  unfold main_verify
  simp only
  split
  · exact ⟨[], by simp, Or.inl rfl⟩
  · split
    · split <;> exact ⟨[Event.report], by simp, Or.inr rfl⟩
    · exact ⟨[], by simp, Or.inl rfl⟩

/-- Either the `try` block is left before `X509_verify_cert` with a trace of
set-up events, or it runs `main_verify` on the loaded inputs. -/
theorem main_try_cases (ssl : OpenSSL) (argv : List String) :
    (∀ e ∈ (main_try ssl argv).trace, Event.isSetup e = true)
    ∨ ∃ trusted cert untrusted trace, (∀ e ∈ trace, Event.isSetup e = true) ∧
        main_try ssl argv = main_verify ssl trusted cert untrusted trace := by
  have hf : ∀ e, Event.isFile e = true → Event.isSetup e = true := by
    intro e he; cases e <;> simp_all [Event.isFile, Event.isSetup]
  have h1 := read_untrusted_isFile ssl ((argv.drop 2).take (argv.length - 1 - 2))
  have h2 := read_x509_isFile ssl (argv.getD (argv.length - 1) "")
  unfold main_try
  simp only
  split
  · left; simp
  split
  · left; simp
  split
  · left; simp [Event.isSetup]
  split
  · left; simp [Event.isSetup]
  split
  · rename_i ev1 e heq
    rw [heq] at h1
    left
    intro x hx
    simp only [List.mem_cons] at hx
    rcases hx with hx | hx
    · subst hx; rfl
    · exact hf _ (h1 _ hx)
  · rename_i ev1 heq
    rw [heq] at h1
    left
    intro x hx
    simp only [List.mem_cons] at hx
    rcases hx with hx | hx
    · subst hx; rfl
    · exact hf _ (h1 _ hx)
  · rename_i ev1 untrusted heq
    rw [heq] at h1
    have hpre : ∀ ev2, (∀ e ∈ ev2, Event.isFile e = true) →
        ∀ x ∈ Event.loadRoot (argv.getD 1 "") :: (ev1 ++ ev2), Event.isSetup x = true := by
      intro ev2 hev2 x hx
      simp only [List.mem_cons, List.mem_append] at hx
      rcases hx with hx | hx | hx
      · subst hx; rfl
      · exact hf _ (h1 _ hx)
      · exact hf _ (hev2 _ hx)
    split
    · rename_i ev2 e heq2
      rw [heq2] at h2
      left
      exact hpre ev2 h2
    · rename_i ev2 heq2
      rw [heq2] at h2
      left
      exact hpre ev2 h2
    · rename_i ev2 cert heq2
      rw [heq2] at h2
      have hpre2 : ∀ x ∈ Event.loadRoot (argv.getD 1 "") :: (ev1 ++ ev2) ++
          [Event.ctxInit { files := [argv.getD 1 ""] } cert untrusted],
          Event.isSetup x = true := by
        intro x hx
        rw [List.mem_append] at hx
        rcases hx with hx | hx
        · exact hpre ev2 h2 x hx
        · simp only [List.mem_singleton] at hx
          subst hx; rfl
      split
      · left; exact hpre2
      · right
        exact ⟨_, _, _, _, hpre2, rfl⟩

/-- A run whose trace holds a `verify` event went through `main_verify`. -/
theorem main_reaches_verify (ssl : OpenSSL) (arg0 : String) (args : List String) (r : Int)
    (h : Event.verify r ∈ (main ssl arg0 args).trace) :
    3 ≤ (arg0 :: args).length ∧
    ∃ trusted cert untrusted trace, (∀ e ∈ trace, Event.isSetup e = true) ∧
      main_try ssl (arg0 :: args) = main_verify ssl trusted cert untrusted trace ∧
      (ssl.verifyCert trusted cert untrusted).result = r := by
  have hmain : (main ssl arg0 args).trace =
      if (arg0 :: args).length = 2 ∧ help_requested ((arg0 :: args).getD 1 "") = true then []
      else if (arg0 :: args).length < 3 then []
      else (main_try ssl (arg0 :: args)).trace := by
    unfold main
    simp only
    split
    · rfl
    · split
      · rfl
      · split <;> rfl
  rw [hmain] at h
  split at h
  · simp at h
  split at h
  · simp at h
  rename_i _ hlen
  refine ⟨by omega, ?_⟩
  rcases main_try_cases ssl (arg0 :: args) with hs | ⟨trusted, cert, untrusted, trace, hs, heq⟩
  · have := hs _ h
    simp [Event.isSetup] at this
  · refine ⟨trusted, cert, untrusted, trace, hs, heq, ?_⟩
    rw [heq] at h
    obtain ⟨tail, htr, htail⟩ := main_verify_trace ssl trusted cert untrusted trace
    rw [htr] at h
    simp only [List.mem_append, List.mem_cons] at h
    rcases h with h | h | h
    · have := hs _ h
      simp [Event.isSetup] at this
    · injection h with h
      exact h.symm
    · rcases htail with ht | ht <;> subst ht <;> simp at h

theorem main_of_three (ssl : OpenSSL) (arg0 : String) (args : List String)
    (h : 3 ≤ (arg0 :: args).length) :
    main ssl arg0 args =
      match (main_try ssl (arg0 :: args)).res with
      | Res.ok _ =>
        { stdout := (main_try ssl (arg0 :: args)).stdout,
          stderr := (main_try ssl (arg0 :: args)).stderr,
          status := Status.exited EXIT_SUCCESS, trace := (main_try ssl (arg0 :: args)).trace }
      | Res.throw (Exn.runtime_error what) =>
        { stdout := (main_try ssl (arg0 :: args)).stdout,
          stderr := (main_try ssl (arg0 :: args)).stderr ++ "Error: " ++ what ++ "\n",
          status := Status.exited EXIT_FAILURE, trace := (main_try ssl (arg0 :: args)).trace }
      | Res.throw Exn.other =>
        { stdout := (main_try ssl (arg0 :: args)).stdout,
          stderr := (main_try ssl (arg0 :: args)).stderr ++ "Unknown error\n",
          status := Status.exited EXIT_FAILURE, trace := (main_try ssl (arg0 :: args)).trace }
      | Res.crash =>
        { stdout := (main_try ssl (arg0 :: args)).stdout,
          stderr := (main_try ssl (arg0 :: args)).stderr,
          status := Status.segfault, trace := (main_try ssl (arg0 :: args)).trace } := by
  unfold main
  simp only
  rw [if_neg (by omega), if_neg (by omega)]

/-- Claim C2: in every run of `main` in which `X509_verify_cert` returns a
negative result, nothing is written to stdout, the reporter is not invoked,
stderr is exactly `Error: Cannot verify certificates` and a newline, and the
exit code is `EXIT_FAILURE`, which is not zero. -/
theorem negative_result_reports_error (ssl : OpenSSL) (arg0 : String) (args : List String) (r : Int)
    (hrun : Event.verify r ∈ (main ssl arg0 args).trace) (hneg : r < 0) :
    (main ssl arg0 args).stdout = "" ∧
    Event.report ∉ (main ssl arg0 args).trace ∧
    (main ssl arg0 args).stderr = "Error: Cannot verify certificates\n" ∧
    (main ssl arg0 args).status = Status.exited EXIT_FAILURE ∧ EXIT_FAILURE ≠ 0 := by
  obtain ⟨h3, trusted, cert, untrusted, trace, hs, heq, hr⟩ :=
    main_reaches_verify ssl arg0 args r hrun
  have hv : main_verify ssl trusted cert untrusted trace =
      { stdout := "", stderr := "", trace := trace ++ [Event.verify r],
        res := Res.throw (Exn.runtime_error "Cannot verify certificates") } := by
    unfold main_verify
    simp only [hr]
    rw [if_pos hneg]
  rw [main_of_three ssl arg0 args h3, heq, hv]
  refine ⟨rfl, ?_, rfl, rfl, by decide⟩
  simp only [List.mem_append, List.mem_singleton, not_or]
  refine ⟨?_, by simp⟩
  intro hmem
  have := hs _ hmem
  simp [Event.isSetup] at this

/-- Claim C3: in every run of `main` in which `X509_verify_cert` is reached (so
all inputs loaded) and returns a positive result, stdout is exactly
`Verification OK` and one newline, stderr is empty and the exit code is `0`. -/
theorem positive_result_reports_ok (ssl : OpenSSL) (arg0 : String) (args : List String) (r : Int)
    (hrun : Event.verify r ∈ (main ssl arg0 args).trace) (hpos : 0 < r) :
    (main ssl arg0 args).stdout = "Verification OK\n" ∧
    (main ssl arg0 args).stderr = "" ∧
    (main ssl arg0 args).status = Status.exited 0 := by
  obtain ⟨h3, trusted, cert, untrusted, trace, hs, heq, hr⟩ :=
    main_reaches_verify ssl arg0 args r hrun
  have hv : main_verify ssl trusted cert untrusted trace =
      { stdout := "Verification OK\n", stderr := "", trace := trace ++ [Event.verify r],
        res := Res.ok () } := by
    unfold main_verify
    simp only [hr]
    rw [if_neg (show ¬ r < 0 by omega), if_pos (show r ≠ 0 by omega),
      if_neg (show ¬ r = 0 by omega)]
    rfl
  rw [main_of_three ssl arg0 args h3, heq, hv]
  exact ⟨rfl, rfl, rfl⟩

/-- Claim C4: with fewer than two positional arguments that are not a lone help
flag, `main` writes the usage text, spelled out here with the program name in
its place, to stderr and nothing to stdout, makes no library call (no file is
read, the verifier is not invoked) and exits with `EXIT_FAILURE`, which is not
zero; a single non-help argument is such a case. -/
theorem misuse_prints_usage_to_stderr (ssl : OpenSSL) (arg0 : String) (args : List String)
    (hfew : args.length < 2) (hnohelp : ∀ a, args = [a] → help_requested a = false) :
    main ssl arg0 args =
      { stdout := "",
        stderr :=
          "Usage:\n" ++
          "\n" ++
          "    " ++ arg0 ++ " <CA cert> [<untrusted cert>...] <leaf cert>\n" ++
          "\n" ++
          "Verifies <leaf cert> with all optional intermediate <untrusted cert>s and\n" ++
          "ultimately trusted root <CA cert>.  Please note that the order of certificates\n" ++
          "on the command line is important.\n" ++
          "\n",
        status := Status.exited EXIT_FAILURE, trace := [] }
    ∧ EXIT_FAILURE ≠ 0 := by
  refine ⟨?_, by decide⟩
  unfold main
  simp only
  match args, hfew, hnohelp with
  | [], _, _ => simp [usage]
  | [a], _, hn => simp [hn a rfl, usage]

/-- Claim C5: `help_requested` holds for exactly `-h`, `-help` and `--help`, and
with one such argument alone `main` writes the usage text, spelled out here
with the program name in its place, to stdout and nothing to stderr, makes no
library call and exits with code `0`. -/
theorem help_prints_usage_to_stdout (ssl : OpenSSL) (arg0 : String) (a : String) :
    (help_requested a = true ↔ (a = "-h" ∨ a = "-help" ∨ a = "--help")) ∧
    (help_requested a = true →
      main ssl arg0 [a] =
        { stdout :=
            "Usage:\n" ++
            "\n" ++
            "    " ++ arg0 ++ " <CA cert> [<untrusted cert>...] <leaf cert>\n" ++
            "\n" ++
            "Verifies <leaf cert> with all optional intermediate <untrusted cert>s and\n" ++
            "ultimately trusted root <CA cert>.  Please note that the order of certificates\n" ++
            "on the command line is important.\n" ++
            "\n",
          stderr := "", status := Status.exited 0, trace := [] }) := by
  constructor
  · simp [help_requested, or_assoc]
  · intro h
    unfold main
    simp [h, EXIT_SUCCESS, usage]

theorem main_trace_of_three (ssl : OpenSSL) (arg0 : String) (args : List String)
    (h : 3 ≤ (arg0 :: args).length) :
    (main ssl arg0 args).trace = (main_try ssl (arg0 :: args)).trace := by
  rw [main_of_three ssl arg0 args h]
  split <;> rfl

theorem read_x509_raw_loads (ssl : OpenSSL) (path : String) (cert : X509)
    (hopen : ssl.bioNewFile path = true) (hpem : ssl.pemRead path = some cert) :
    read_x509_raw ssl path = ([Event.openFile path, Event.readPem path], Res.ok cert) := by
  unfold read_x509_raw
  simp [hopen, hpem]

theorem read_untrusted_loop_loads (ssl : OpenSSL) (certOf : String → X509)
    (hpush : ∀ s c, ssl.skPush s c = true) (paths : List String) :
    (∀ p ∈ paths, ssl.bioNewFile p = true ∧ ssl.pemRead p = some (certOf p)) →
    ∀ stack, (read_untrusted_loop ssl paths stack).2 = Res.ok (stack ++ paths.map certOf) := by
  induction paths with
  | nil => intro _ stack; simp [read_untrusted_loop]
  | cons p rest ih =>
    intro hfiles stack
    have hp := hfiles p (List.mem_cons_self _ _)
    have hrest : ∀ q ∈ rest, ssl.bioNewFile q = true ∧ ssl.pemRead q = some (certOf q) :=
      fun q hq => hfiles q (List.mem_cons_of_mem _ hq)
    unfold read_untrusted_loop
    rw [read_x509_raw_loads ssl p (certOf p) hp.1 hp.2]
    simp only [hpush, Bool.not_true, Bool.false_eq_true, if_false]
    rw [ih hrest]
    simp

/-- Claim C6: for positional paths `p1`, `mid`, `pn` (any text) whose files all
load, `read_untrusted` returns the certificates of `mid` in command-line order,
and the one `X509_STORE_CTX_init` of the run receives the store loaded from
`p1`, the leaf of `pn` and that pool; the pool has `n - 2` elements, none when
`n = 2`. -/
theorem context_initialised_in_order (ssl : OpenSSL) (arg0 p1 : String) (mid : List String) (pn : String)
    (certOf : String → X509)
    (hstore : ssl.storeNew = true) (hlookup : ssl.addLookup = true) (hctx : ssl.ctxNew = true)
    (hroot : ssl.loadFile p1 = 1)
    (hfiles : ∀ p ∈ mid ++ [pn], ssl.bioNewFile p = true ∧ ssl.pemRead p = some (certOf p))
    (hpush : ∀ s c, ssl.skPush s c = true) :
    (read_untrusted ssl mid).2 = Res.ok (mid.map certOf) ∧
    (mid.map certOf).length = (p1 :: (mid ++ [pn])).length - 2 ∧
    Event.ctxInit { files := [p1] } (certOf pn) (mid.map certOf)
      ∈ (main ssl arg0 (p1 :: (mid ++ [pn]))).trace ∧
    ∀ s l u, Event.ctxInit s l u ∈ (main ssl arg0 (p1 :: (mid ++ [pn]))).trace →
      s = { files := [p1] } ∧ l = certOf pn ∧ u = mid.map certOf := by
  have hmid : ∀ p ∈ mid, ssl.bioNewFile p = true ∧ ssl.pemRead p = some (certOf p) :=
    fun p hp => hfiles p (List.mem_append_left _ hp)
  have hpn := hfiles pn (List.mem_append_right _ (List.mem_singleton_self _))
  have hru : (read_untrusted ssl mid).2 = Res.ok (mid.map certOf) := by
    unfold read_untrusted
    rw [read_untrusted_loop_loads ssl certOf hpush mid hmid []]
    simp
  have hev1 := read_untrusted_isFile ssl mid
  have h3 : 3 ≤ (arg0 :: p1 :: (mid ++ [pn])).length := by simp
  have hlen : (arg0 :: p1 :: (mid ++ [pn])).length = mid.length + 3 := by simp
  have hslice : ((arg0 :: p1 :: (mid ++ [pn])).drop 2).take
      ((arg0 :: p1 :: (mid ++ [pn])).length - 1 - 2) = mid := by
    rw [hlen]; simp
  have hlast : (arg0 :: p1 :: (mid ++ [pn])).getD
      ((arg0 :: p1 :: (mid ++ [pn])).length - 1) "" = pn := by
    rw [hlen]
    simp [List.getD_eq_getElem?_getD, List.getElem?_append_right]
  obtain ⟨tail, htail, hnoinit⟩ : ∃ tail,
      (main_try ssl (arg0 :: p1 :: (mid ++ [pn]))).trace =
        Event.loadRoot p1 :: ((read_untrusted ssl mid).1 ++
          [Event.openFile pn, Event.readPem pn]) ++
          [Event.ctxInit { files := [p1] } (certOf pn) (mid.map certOf)] ++ tail ∧
      ∀ s l u, Event.ctxInit s l u ∉ tail := by
    unfold main_try
    simp only [hslice, hlast]
    simp only [hstore, hlookup, hctx, Bool.not_true, Bool.false_eq_true, if_false,
      List.getD_cons_succ, List.getD_cons_zero, hroot, ne_eq, not_true_eq_false]
    obtain ⟨ev1, hev1eq⟩ : ∃ ev1, read_untrusted ssl mid = (ev1, Res.ok (mid.map certOf)) :=
      ⟨(read_untrusted ssl mid).1, by rw [← hru]⟩
    rw [hev1eq]
    simp only [read_x509, read_x509_raw_loads ssl pn (certOf pn) hpn.1 hpn.2]
    split
    · exact ⟨[], by simp, by simp⟩
    · obtain ⟨tl, htl, hcase⟩ := main_verify_trace ssl { files := [p1] } (certOf pn)
        (mid.map certOf) (Event.loadRoot p1 :: (ev1 ++ [Event.openFile pn, Event.readPem pn]) ++
          [Event.ctxInit { files := [p1] } (certOf pn) (mid.map certOf)])
      refine ⟨_, htl, ?_⟩
      intro s l u
      rcases hcase with h | h <;> subst h <;> simp
  refine ⟨hru, by simp, ?_, ?_⟩
  · rw [main_trace_of_three ssl arg0 _ h3, htail]
    simp
  · intro s l u hmem
    rw [main_trace_of_three ssl arg0 _ h3, htail] at hmem
    simp only [List.mem_append, List.mem_cons, List.mem_singleton] at hmem
    rcases hmem with ((hmem | hmem | hmem) | hmem) | hmem
    · cases hmem
    · have := hev1 _ hmem
      simp [Event.isFile] at this
    · simp at hmem
    · rcases hmem with hmem | hmem
      · injection hmem with a b c
        exact ⟨a, b, c⟩
      · simp at hmem
    · exact absurd hmem (hnoinit s l u)

theorem print_subject_ok (c : X509) (name : X509_NAME) (sname : String)
    (hsubj : c.subject = some name) (hname : name.oneline = some sname)
    (hpos : 0 < sname.length) :
    print_subject "" (some c) = Res.ok sname := by
  unfold print_subject
  simp only [hsubj, X509_NAME_print_ex, hname]
  rw [if_neg (by omega)]
  simp

theorem print_dates_other (ssl : OpenSSL) (error : Int) (cert : Option X509) (bio : String)
    (h : ¬ (error = X509_V_ERR_CERT_NOT_YET_VALID ∨ error = X509_V_ERR_CERT_HAS_EXPIRED)) :
    print_dates ssl error cert bio = Res.ok bio := by
  unfold print_dates
  rw [if_neg h]

theorem print_dates_validity (ssl : OpenSSL) (error : Int) (c : X509) (bio t1 t2 : String)
    (h : error = X509_V_ERR_CERT_NOT_YET_VALID ∨ error = X509_V_ERR_CERT_HAS_EXPIRED)
    (hputs : ∀ s, ssl.bioPuts s = true)
    (hnb : c.notBefore.text = some t1) (hna : c.notAfter.text = some t2) :
    print_dates ssl error (some c) bio =
      Res.ok (bio ++ "\nnotBefore: " ++ t1 ++ "\nnotAfter: " ++ t2) := by
  unfold print_dates
  rw [if_pos h]
  simp only [BIO_puts, hputs, if_true, ASN1_TIME_print, hnb, hna]
  rw [if_neg (by decide), if_neg (by decide), if_neg (by decide), if_neg (by decide)]

theorem report_tail (ssl : OpenSSL) (ctx : X509_STORE_CTX) (e buffer : String)
    (herr : ssl.errorString ctx.error = some e) (hbio : ssl.bioNewMem = true)
    (hsub : ∃ bio1, print_subject "" ctx.current_cert = Res.ok bio1 ∧
      print_dates ssl ctx.error ctx.current_cert bio1 = Res.ok buffer) :
    print_verification_failure_msg ssl ctx =
      Res.ok (e ++ " (at level " ++ toString ctx.error_depth ++ ")" ++
        (if 0 < buffer.length then "\n" ++ buffer else "") ++ "\n") := by
  obtain ⟨bio1, h1, h2⟩ := hsub
  unfold print_verification_failure_msg
  simp only [herr, hbio, h1, h2, Bool.not_true, Bool.false_eq_true, if_false]
  rw [if_neg (by omega)]
  congr 3
  simp

theorem report_with_cert (ssl : OpenSSL) (ctx : X509_STORE_CTX) (c : X509) (name : X509_NAME)
    (e sname : String)
    (herr : ssl.errorString ctx.error = some e) (hbio : ssl.bioNewMem = true)
    (hcert : ctx.current_cert = some c)
    (hsubj : c.subject = some name) (hname : name.oneline = some sname)
    (hpos : 0 < sname.length) (dates : String)
    (hdates : print_dates ssl ctx.error (some c) sname = Res.ok (sname ++ dates)) :
    print_verification_failure_msg ssl ctx =
      Res.ok (e ++ " (at level " ++ toString ctx.error_depth ++ ")" ++
        ("\n" ++ sname ++ dates ++ "\n")) := by
  rw [report_tail ssl ctx e (sname ++ dates) herr hbio
    ⟨sname, by rw [hcert]; exact print_subject_ok c name sname hsubj hname hpos,
      by rw [hcert]; exact hdates⟩]
  rw [if_pos (by simp only [String.length_append]; omega)]
  simp only [String.append_assoc]

/-- Claim C8: for an Invalid context with a current certificate whose name and
time renderings succeed, the report is the line `<error string> (at level N)`,
the one-line subject, and then the `notBefore:`/`notAfter:` lines with the times
of that certificate exactly when the error is not-yet-valid or expired. -/
theorem report_dates_iff_validity_error (ssl : OpenSSL) (ctx : X509_STORE_CTX) (c : X509) (name : X509_NAME)
    (e sname t1 t2 : String)
    (herr : ssl.errorString ctx.error = some e) (hbio : ssl.bioNewMem = true)
    (hputs : ∀ s, ssl.bioPuts s = true)
    (hcert : ctx.current_cert = some c)
    (hsubj : c.subject = some name) (hname : name.oneline = some sname)
    (hpos : 0 < sname.length)
    (hnb : c.notBefore.text = some t1) (hna : c.notAfter.text = some t2) :
    print_verification_failure_msg ssl ctx =
      Res.ok (e ++ " (at level " ++ toString ctx.error_depth ++ ")" ++ "\n" ++ sname ++
        (if ctx.error = X509_V_ERR_CERT_NOT_YET_VALID ∨ ctx.error = X509_V_ERR_CERT_HAS_EXPIRED
          then "\nnotBefore: " ++ t1 ++ "\nnotAfter: " ++ t2 else "") ++ "\n") := by
  by_cases hk : ctx.error = X509_V_ERR_CERT_NOT_YET_VALID ∨
      ctx.error = X509_V_ERR_CERT_HAS_EXPIRED
  · rw [report_with_cert ssl ctx c name e sname herr hbio hcert hsubj hname hpos
      ("\nnotBefore: " ++ t1 ++ "\nnotAfter: " ++ t2)
      (by rw [print_dates_validity ssl _ c sname t1 t2 hk hputs hnb hna]
          simp only [String.append_assoc])]
    rw [if_pos hk]
    simp only [String.append_assoc]
  · rw [report_with_cert ssl ctx c name e sname herr hbio hcert hsubj hname hpos ""
      (by rw [print_dates_other ssl _ _ sname hk]; simp)]
    rw [if_neg hk]
    simp only [String.append_assoc]

/-- Claim C7, amended: for an Invalid context whose error string is found,
whose current certificate (if any) renders its name, and its times when the
error is a validity error, and which has a current certificate whenever the
error is a validity error, the report begins with the error string followed by
` (at level N)`; without a current certificate it is that line and a newline. -/
theorem report_begins_with_level (ssl : OpenSSL) (ctx : X509_STORE_CTX) (e : String)
    (herr : ssl.errorString ctx.error = some e) (hbio : ssl.bioNewMem = true)
    (hputs : ∀ s, ssl.bioPuts s = true)
    (hname : ∀ c, ctx.current_cert = some c →
      ∃ name sname, c.subject = some name ∧ name.oneline = some sname ∧ 0 < sname.length)
    (htimes : ∀ c, ctx.current_cert = some c →
      (ctx.error = X509_V_ERR_CERT_NOT_YET_VALID ∨ ctx.error = X509_V_ERR_CERT_HAS_EXPIRED) →
      ∃ t1 t2, c.notBefore.text = some t1 ∧ c.notAfter.text = some t2)
    (hdate : ctx.current_cert = none →
      ¬ (ctx.error = X509_V_ERR_CERT_NOT_YET_VALID ∨ ctx.error = X509_V_ERR_CERT_HAS_EXPIRED)) :
    ∃ rest, print_verification_failure_msg ssl ctx =
        Res.ok (e ++ " (at level " ++ toString ctx.error_depth ++ ")" ++ rest) ∧
      (ctx.current_cert = none → rest = "\n") := by
  cases hc : ctx.current_cert with
  | none =>
    refine ⟨"\n", ?_, fun _ => rfl⟩
    rw [report_tail ssl ctx e "" herr hbio
      ⟨"", by rw [hc]; rfl, print_dates_other ssl _ _ "" (hdate hc)⟩]
    simp
  | some c =>
    obtain ⟨name, sname, hsubj, hn, hpos⟩ := hname c hc
    by_cases hk : ctx.error = X509_V_ERR_CERT_NOT_YET_VALID ∨
        ctx.error = X509_V_ERR_CERT_HAS_EXPIRED
    · obtain ⟨t1, t2, hnb, hna⟩ := htimes c hc hk
      exact ⟨_, report_with_cert ssl ctx c name e sname herr hbio hc hsubj hn hpos
        ("\nnotBefore: " ++ t1 ++ "\nnotAfter: " ++ t2)
        (by rw [print_dates_validity ssl _ c sname t1 t2 hk hputs hnb hna]
            simp only [String.append_assoc]), fun h => by cases h⟩
    · exact ⟨_, report_with_cert ssl ctx c name e sname herr hbio hc hsubj hn hpos ""
        (by rw [print_dates_other ssl _ _ sname hk]; simp), fun h => by cases h⟩

/-- Claim C1, evaluated on the code: with a root and a leaf that load, a context
that initialises and a verifier that returns `0` for an expired leaf, `main`
writes `Verification failed` and the report, and exits with code `0`. -/
theorem failed_verification_exits_success :
    Event.verify 0 ∈ (main (demoSSL 0 10 (some demoLeaf)) "cert-verify"
      ["root.pem", "leaf.pem"]).trace ∧
    (main (demoSSL 0 10 (some demoLeaf)) "cert-verify" ["root.pem", "leaf.pem"]).stdout
      = "Verification failed\n" ∧
    (main (demoSSL 0 10 (some demoLeaf)) "cert-verify" ["root.pem", "leaf.pem"]).stderr
      = "certificate has expired (at level 0)\nC = PL, CN = leaf\nnotBefore: Jan  1 00:00:00 2010 GMT\nnotAfter: Jan  1 00:00:00 2011 GMT\n" ∧
    (main (demoSSL 0 10 (some demoLeaf)) "cert-verify" ["root.pem", "leaf.pem"]).status
      = Status.exited 0 := by
  refine ⟨by decide, by decide, by decide, by decide⟩

theorem negative_result_reports_error_witness :
    Event.verify (-1) ∈ (main (demoSSL (-1) 0 none) "cert-verify"
      ["root.pem", "leaf.pem"]).trace ∧
    (main (demoSSL (-1) 0 none) "cert-verify" ["root.pem", "leaf.pem"]).stdout = "" ∧
    Event.report ∉ (main (demoSSL (-1) 0 none) "cert-verify" ["root.pem", "leaf.pem"]).trace ∧
    (main (demoSSL (-1) 0 none) "cert-verify" ["root.pem", "leaf.pem"]).stderr
      = "Error: Cannot verify certificates\n" ∧
    (main (demoSSL (-1) 0 none) "cert-verify" ["root.pem", "leaf.pem"]).status
      = Status.exited EXIT_FAILURE ∧ EXIT_FAILURE ≠ 0 :=
  ⟨by decide, negative_result_reports_error (demoSSL (-1) 0 none) "cert-verify"
    ["root.pem", "leaf.pem"] (-1) (by decide) (by decide)⟩

theorem positive_result_reports_ok_witness :
    Event.verify 1 ∈ (main (demoSSL 1 0 none) "cert-verify"
      ["root.pem", "inter.pem", "leaf.pem"]).trace ∧
    (main (demoSSL 1 0 none) "cert-verify" ["root.pem", "inter.pem", "leaf.pem"]).stdout
      = "Verification OK\n" ∧
    (main (demoSSL 1 0 none) "cert-verify" ["root.pem", "inter.pem", "leaf.pem"]).stderr = "" ∧
    (main (demoSSL 1 0 none) "cert-verify" ["root.pem", "inter.pem", "leaf.pem"]).status
      = Status.exited 0 :=
  ⟨by decide, positive_result_reports_ok (demoSSL 1 0 none) "cert-verify"
    ["root.pem", "inter.pem", "leaf.pem"] 1 (by decide) (by decide)⟩

theorem misuse_prints_usage_to_stderr_witness :
    ["root.pem"].length < 2 ∧ help_requested "root.pem" = false ∧
    main (demoSSL 1 0 none) "cert-verify" ["root.pem"] =
      { stdout := "",
        stderr :=
          "Usage:\n" ++
          "\n" ++
          "    " ++ "cert-verify" ++ " <CA cert> [<untrusted cert>...] <leaf cert>\n" ++
          "\n" ++
          "Verifies <leaf cert> with all optional intermediate <untrusted cert>s and\n" ++
          "ultimately trusted root <CA cert>.  Please note that the order of certificates\n" ++
          "on the command line is important.\n" ++
          "\n",
        status := Status.exited 1, trace := [] } ∧ EXIT_FAILURE ≠ 0 :=
  ⟨by decide, by decide, misuse_prints_usage_to_stderr (demoSSL 1 0 none) "cert-verify"
    ["root.pem"] (by decide) (fun a h => by
      have ha : a = "root.pem" := by simpa using h.symm
      subst ha
      decide)⟩

theorem help_prints_usage_to_stdout_witness :
    help_requested "--help" = true ∧
    main (demoSSL 1 0 none) "cert-verify" ["--help"] =
      { stdout :=
          "Usage:\n" ++
          "\n" ++
          "    " ++ "cert-verify" ++ " <CA cert> [<untrusted cert>...] <leaf cert>\n" ++
          "\n" ++
          "Verifies <leaf cert> with all optional intermediate <untrusted cert>s and\n" ++
          "ultimately trusted root <CA cert>.  Please note that the order of certificates\n" ++
          "on the command line is important.\n" ++
          "\n",
        stderr := "", status := Status.exited 0, trace := [] } :=
  ⟨by decide, (help_prints_usage_to_stdout (demoSSL 1 0 none) "cert-verify" "--help").2
    (by decide)⟩

theorem context_initialised_in_order_witness :
    (read_untrusted (demoSSL 1 0 none) ["inter1.pem", "inter2.pem"]).2
      = Res.ok [demoLeaf, demoLeaf] ∧
    Event.ctxInit { files := ["--help"] } demoLeaf [demoLeaf, demoLeaf]
      ∈ (main (demoSSL 1 0 none) "cert-verify"
          ["--help", "inter1.pem", "inter2.pem", "leaf.pem"]).trace := by
  have h := context_initialised_in_order (demoSSL 1 0 none) "cert-verify" "--help"
    ["inter1.pem", "inter2.pem"] "leaf.pem" (fun _ => demoLeaf) rfl rfl rfl rfl
    (fun _ _ => ⟨rfl, rfl⟩) (fun _ _ => rfl)
  exact ⟨h.1, h.2.2.1⟩

/-- Claim C7 as stated fails: an expired error without a current certificate
makes the reporter dereference the null certificate, and a current certificate
whose subject does not render makes it throw; no report is written in either
case. -/
theorem report_missing_without_certificate_or_name :
    print_verification_failure_msg (demoSSL 0 10 none) (demoCtx 10 none) = Res.crash ∧
    print_verification_failure_msg (demoSSL 0 20 (some namelessCert))
        (demoCtx 20 (some namelessCert))
      = Res.throw (Exn.runtime_error "Cannot get certificate subject name") := by
  constructor <;> decide

theorem report_begins_with_level_witness :
    (demoCtx 20 none).current_cert = none ∧
    ∃ rest, print_verification_failure_msg (demoSSL 0 20 none) (demoCtx 20 none) =
        Res.ok ("unable to get local issuer certificate" ++ " (at level " ++
          toString (demoCtx 20 none).error_depth ++ ")" ++ rest) ∧
      ((demoCtx 20 none).current_cert = none → rest = "\n") :=
  ⟨rfl, report_begins_with_level (demoSSL 0 20 none) (demoCtx 20 none)
    "unable to get local issuer certificate" (by decide) rfl (fun _ => rfl)
    (fun _ h => by cases h) (fun _ h => by cases h) (fun _ => by decide)⟩

theorem report_dates_iff_validity_error_witness :
    print_verification_failure_msg (demoSSL 0 10 (some demoLeaf)) (demoCtx 10 (some demoLeaf)) =
      Res.ok ("certificate has expired" ++ " (at level " ++
        toString (demoCtx 10 (some demoLeaf)).error_depth ++ ")" ++ "\n" ++ "C = PL, CN = leaf" ++
        (if (demoCtx 10 (some demoLeaf)).error = X509_V_ERR_CERT_NOT_YET_VALID ∨
            (demoCtx 10 (some demoLeaf)).error = X509_V_ERR_CERT_HAS_EXPIRED
          then "\nnotBefore: " ++ "Jan  1 00:00:00 2010 GMT" ++ "\nnotAfter: " ++
            "Jan  1 00:00:00 2011 GMT" else "") ++ "\n") :=
  report_dates_iff_validity_error (demoSSL 0 10 (some demoLeaf)) (demoCtx 10 (some demoLeaf))
    demoLeaf { oneline := some "C = PL, CN = leaf" } "certificate has expired"
    "C = PL, CN = leaf" "Jan  1 00:00:00 2010 GMT" "Jan  1 00:00:00 2011 GMT"
    (by decide) rfl (fun _ => rfl) rfl rfl rfl (by decide) rfl rfl

theorem read_x509_raw_fails (ssl : OpenSSL) (bad : String)
    (hbad : ssl.bioNewFile bad = false ∨ ssl.pemRead bad = none) :
    read_x509_raw ssl bad =
      (failedEvents ssl bad, Res.throw (Exn.runtime_error (failedMessage ssl bad))) := by
  unfold read_x509_raw failedEvents failedMessage
  by_cases ho : ssl.bioNewFile bad = true
  · have hpem : ssl.pemRead bad = none := by
      rcases hbad with h | h
      · rw [ho] at h; cases h
      · exact h
    simp [ho, hpem]
  · simp [ho]

theorem read_untrusted_loop_fails (ssl : OpenSSL) (hpush : ∀ s c, ssl.skPush s c = true)
    (pre : List String) (bad : String) (post : List String)
    (hbad : ssl.bioNewFile bad = false ∨ ssl.pemRead bad = none) :
    (∀ p ∈ pre, ssl.bioNewFile p = true ∧ ∃ c, ssl.pemRead p = some c) →
    ∀ stack, read_untrusted_loop ssl (pre ++ bad :: post) stack =
      (loadedEvents pre ++ failedEvents ssl bad,
        Res.throw (Exn.runtime_error (failedMessage ssl bad))) := by
  induction pre with
  | nil =>
    intro _ stack
    simp only [List.nil_append, loadedEvents]
    unfold read_untrusted_loop
    rw [read_x509_raw_fails ssl bad hbad]
  | cons p rest ih =>
    intro hpre stack
    obtain ⟨hopen, c, hc⟩ := hpre p (List.mem_cons_self _ _)
    have hrest : ∀ q ∈ rest, ssl.bioNewFile q = true ∧ ∃ c, ssl.pemRead q = some c :=
      fun q hq => hpre q (List.mem_cons_of_mem _ hq)
    simp only [List.cons_append, loadedEvents]
    unfold read_untrusted_loop
    rw [read_x509_raw_loads ssl p c hopen hc]
    simp only [hpush, Bool.not_true, Bool.false_eq_true, if_false]
    rw [ih hrest]
    simp

theorem first_failure_split (ssl : OpenSSL) (paths : List String) :
    (∃ p ∈ paths, ssl.bioNewFile p = false ∨ ssl.pemRead p = none) →
    ∃ pre bad post, paths = pre ++ bad :: post ∧
      (∀ p ∈ pre, ssl.bioNewFile p = true ∧ ∃ c, ssl.pemRead p = some c) ∧
      (ssl.bioNewFile bad = false ∨ ssl.pemRead bad = none) := by
  induction paths with
  | nil => intro ⟨p, hp, _⟩; cases hp
  | cons q rest ih =>
    intro ⟨p, hp, hfail⟩
    by_cases hq : ssl.bioNewFile q = false ∨ ssl.pemRead q = none
    · exact ⟨[], q, rest, rfl, fun x hx => absurd hx (List.not_mem_nil x), hq⟩
    · have hq2 : ssl.bioNewFile q = true ∧ ∃ c, ssl.pemRead q = some c := by
        rw [not_or] at hq
        refine ⟨by simpa using hq.1, ?_⟩
        cases hc : ssl.pemRead q with
        | none => exact absurd hc hq.2
        | some c => exact ⟨c, rfl⟩
      have hin : p ∈ rest := by
        rcases List.mem_cons.mp hp with h | h
        · subst h; exact absurd hfail hq
        · exact h
      obtain ⟨pre, bad, post, he, hpre, hbad⟩ := ih ⟨p, hin, hfail⟩
      refine ⟨q :: pre, bad, post, by rw [he]; rfl, ?_, hbad⟩
      intro x hx
      rcases List.mem_cons.mp hx with h | h
      · subst h; exact hq2
      · exact hpre x h

/-- Claim C19: when some intermediate path fails to load, with `bad` the first
such path in input order, `read_untrusted` returns no pool and throws
"Cannot open file: <bad>" when the file cannot be opened and
"Cannot read certificate: <bad>" when it holds no PEM certificate, having
touched only the paths before `bad` and `bad`; `main` then writes
"Error: <message>" to stderr, nothing to stdout, and exits non-zero, its trace
being the root load and those loader events: no later path, no leaf, no
context initialisation and no verifier call. -/
theorem untrusted_failure_reported (ssl : OpenSSL) (arg0 p1 : String) (paths : List String)
    (pn : String)
    (hstore : ssl.storeNew = true) (hlookup : ssl.addLookup = true) (hctx : ssl.ctxNew = true)
    (hroot : ssl.loadFile p1 = 1) (hpush : ∀ s c, ssl.skPush s c = true)
    (hfail : ∃ p ∈ paths, ssl.bioNewFile p = false ∨ ssl.pemRead p = none) :
    ∃ pre bad post, paths = pre ++ bad :: post ∧
      (∀ p ∈ pre, ssl.bioNewFile p = true ∧ ∃ c, ssl.pemRead p = some c) ∧
      (ssl.bioNewFile bad = false ∨ ssl.pemRead bad = none) ∧
      read_untrusted ssl paths =
        (loadedEvents pre ++
          (if ssl.bioNewFile bad = true then [Event.openFile bad, Event.readPem bad]
           else [Event.openFile bad]),
          Res.throw (Exn.runtime_error
            (if ssl.bioNewFile bad = true then "Cannot read certificate: " ++ bad
             else "Cannot open file: " ++ bad))) ∧
      main ssl arg0 (p1 :: (paths ++ [pn])) =
        { stdout := "",
          stderr := "Error: " ++
            (if ssl.bioNewFile bad = true then "Cannot read certificate: " ++ bad
             else "Cannot open file: " ++ bad) ++ "\n",
          status := Status.exited EXIT_FAILURE,
          trace := Event.loadRoot p1 :: (loadedEvents pre ++
            (if ssl.bioNewFile bad = true then [Event.openFile bad, Event.readPem bad]
             else [Event.openFile bad])) } ∧
      EXIT_FAILURE ≠ 0 := by
  obtain ⟨pre, bad, post, he, hpre, hbad⟩ := first_failure_split ssl paths hfail
  have hru : read_untrusted ssl paths =
      (loadedEvents pre ++ failedEvents ssl bad,
        Res.throw (Exn.runtime_error (failedMessage ssl bad))) := by
    unfold read_untrusted
    rw [he]
    exact read_untrusted_loop_fails ssl hpush pre bad post hbad hpre []
  refine ⟨pre, bad, post, he, hpre, hbad, hru, ?_, by decide⟩
  have h3 : 3 ≤ (arg0 :: p1 :: (paths ++ [pn])).length := by simp
  have hlen : (arg0 :: p1 :: (paths ++ [pn])).length = paths.length + 3 := by simp
  have hslice : ((arg0 :: p1 :: (paths ++ [pn])).drop 2).take
      ((arg0 :: p1 :: (paths ++ [pn])).length - 1 - 2) = paths := by
    rw [hlen]; simp
  have htry : main_try ssl (arg0 :: p1 :: (paths ++ [pn])) =
      { stdout := "", stderr := "",
        trace := Event.loadRoot p1 :: (loadedEvents pre ++ failedEvents ssl bad),
        res := Res.throw (Exn.runtime_error (failedMessage ssl bad)) } := by
    unfold main_try
    simp only [hslice]
    simp only [hstore, hlookup, hctx, Bool.not_true, Bool.false_eq_true, if_false,
      List.getD_cons_succ, List.getD_cons_zero, hroot, ne_eq, not_true_eq_false]
    rw [hru]
  rw [main_of_three ssl arg0 _ h3, htry]
  simp only [failedEvents, failedMessage]
  rfl

theorem untrusted_failure_reported_witness :
    ∃ pre bad post, ["inter1.pem", "garbage.pem", "missing.pem"] = pre ++ bad :: post ∧
      (∀ p ∈ pre, demoFilesSSL.bioNewFile p = true ∧ ∃ c, demoFilesSSL.pemRead p = some c) ∧
      (demoFilesSSL.bioNewFile bad = false ∨ demoFilesSSL.pemRead bad = none) ∧
      read_untrusted demoFilesSSL ["inter1.pem", "garbage.pem", "missing.pem"] =
        (loadedEvents pre ++
          (if demoFilesSSL.bioNewFile bad = true then [Event.openFile bad, Event.readPem bad]
           else [Event.openFile bad]),
          Res.throw (Exn.runtime_error
            (if demoFilesSSL.bioNewFile bad = true then "Cannot read certificate: " ++ bad
             else "Cannot open file: " ++ bad))) ∧
      main demoFilesSSL "cert-verify"
          ("root.pem" :: (["inter1.pem", "garbage.pem", "missing.pem"] ++ ["leaf.pem"])) =
        { stdout := "",
          stderr := "Error: " ++
            (if demoFilesSSL.bioNewFile bad = true then "Cannot read certificate: " ++ bad
             else "Cannot open file: " ++ bad) ++ "\n",
          status := Status.exited EXIT_FAILURE,
          trace := Event.loadRoot "root.pem" :: (loadedEvents pre ++
            (if demoFilesSSL.bioNewFile bad = true then [Event.openFile bad, Event.readPem bad]
             else [Event.openFile bad])) } ∧
      EXIT_FAILURE ≠ 0 :=
  untrusted_failure_reported demoFilesSSL "cert-verify" "root.pem"
    ["inter1.pem", "garbage.pem", "missing.pem"] "leaf.pem" rfl rfl rfl rfl (fun _ _ => rfl)
    ⟨"garbage.pem", by decide, Or.inr rfl⟩

end CertVerify

namespace KrisMalloc

theorem word_bytes (v : Nat) :
    v / 256 ^ 0 % 256 + 256 * (v / 256 ^ 1 % 256) + 65536 * (v / 256 ^ 2 % 256)
      + 16777216 * (v / 256 ^ 3 % 256) = v % WORD := by
  simp only [WORD]
  norm_num
  omega

/-- Bytes outside the stored struct keep their value. -/
theorem storeWords_outside (m : Mem) (a : Nat) (ws : List Nat) (x : Nat)
    (h : 4 * ws.length ≤ (x + (WORD - a % WORD)) % WORD) :
    storeWords m a ws x = m x := by
  unfold storeWords
  simp only
  rw [if_neg (by omega)]

/-- Bytes inside the stored struct hold the bytes of its words. -/
theorem storeWords_inside (m : Mem) (a : Nat) (ws : List Nat) (i j : Nat)
    (ha : a < WORD) (hi : i < ws.length) (hj : j < 4) (hlen : 4 * ws.length ≤ WORD) :
    storeWords m a ws (padd a (4 * i + j)) = ws.getD i 0 / 256 ^ j % 256 := by
  unfold storeWords padd
  have hd : ((a + (4 * i + j)) % WORD + (WORD - a % WORD)) % WORD = 4 * i + j := by
    simp only [WORD] at *
    omega
  simp only [hd]
  rw [if_pos (by omega)]
  have h1 : (4 * i + j) / 4 = i := by omega
  have h2 : (4 * i + j) % 4 = j := by omega
  rw [h1, h2]

theorem padd_padd (a k j : Nat) : padd (padd a k) j = padd a (k + j) := by
  unfold padd
  simp only [WORD]
  omega

/-- Loading word `i` of a stored struct gives that word. -/
theorem loadWord_storeWords_field (m : Mem) (a : Nat) (ws : List Nat) (i : Nat)
    (ha : a < WORD) (hi : i < ws.length) (hlen : 4 * ws.length ≤ WORD) :
    loadWord (storeWords m a ws) (padd a (4 * i)) = ws.getD i 0 % WORD := by
  unfold loadWord
  simp only [padd_padd]
  have e0 := storeWords_inside m a ws i 0 ha hi (by omega) hlen
  have e1 := storeWords_inside m a ws i 1 ha hi (by omega) hlen
  have e2 := storeWords_inside m a ws i 2 ha hi (by omega) hlen
  have e3 := storeWords_inside m a ws i 3 ha hi (by omega) hlen
  rw [e0, e1, e2, e3]
  exact word_bytes _

/-- A word none of whose bytes lies in the stored struct is unchanged. -/
theorem loadWord_storeWords_outside (m : Mem) (a b : Nat) (ws : List Nat)
    (h : ∀ j, j < 4 → 4 * ws.length ≤ (padd b j + (WORD - a % WORD)) % WORD) :
    loadWord (storeWords m a ws) b = loadWord m b := by
  unfold loadWord
  rw [storeWords_outside m a ws _ (h 0 (by omega)), storeWords_outside m a ws _ (h 1 (by omega)),
    storeWords_outside m a ws _ (h 2 (by omega)), storeWords_outside m a ws _ (h 3 (by omega))]

/-- Two header fields at distinct word offsets of the same block do not overlap. -/
theorem loadWord_storeWord_field (m : Mem) (base i j v : Nat)
    (hi : i + 4 ≤ WORD) (hj : j + 4 ≤ WORD) (hij : i + 4 ≤ j ∨ j + 4 ≤ i) :
    loadWord (storeWord m (padd base i) v) (padd base j) = loadWord m (padd base j) := by
  unfold storeWord
  apply loadWord_storeWords_outside
  intro k hk
  simp only [padd, WORD, List.length_singleton] at *
  omega

theorem loadWord_storeWord_same (m : Mem) (base i v : Nat) :
    loadWord (storeWord m (padd base i) v) (padd base i) = v % WORD := by
  unfold storeWord
  have h := loadWord_storeWords_field m (padd base i) [v] 0 (by unfold padd; exact Nat.mod_lt _ (by decide))
    (by simp) (by simp [WORD])
  simp only [Nat.mul_zero, List.getD_cons_zero] at h
  rw [← h]
  congr 1
  unfold padd
  simp only [WORD]
  omega

/-- The result of `malloc` when the next layer returns a block. -/
theorem malloc_block (fn_malloc : List NextCall → Nat → Nat) (st : State) (ra tid size : Nat)
    (hlive : st.aborted = false)
    (hb : fn_malloc st.calls ((sizeof_MallocInfo + size + sizeof_MallocInfoBack) % WORD) ≠ 0) :
    malloc fn_malloc st ra tid size =
      ({ st with
          calls := st.calls ++ [NextCall.malloc
            ((sizeof_MallocInfo + size + sizeof_MallocInfoBack) % WORD)
            (fn_malloc st.calls ((sizeof_MallocInfo + size + sizeof_MallocInfoBack) % WORD))]
          mem := storeWords
            (storeWords st.mem
              (fn_malloc st.calls ((sizeof_MallocInfo + size + sizeof_MallocInfoBack) % WORD))
              (mallocInfo ra tid size))
            (padd (padd (fn_malloc st.calls
              ((sizeof_MallocInfo + size + sizeof_MallocInfoBack) % WORD)) sizeof_MallocInfo) size)
            (mallocInfoBack tid size) },
        padd (fn_malloc st.calls ((sizeof_MallocInfo + size + sizeof_MallocInfoBack) % WORD))
          sizeof_MallocInfo) := by
  unfold malloc
  simp only [hlive, Bool.false_eq_true, if_false]
  rw [if_neg hb]

/-- The result of `malloc` when the next layer returns null. -/
theorem malloc_null (fn_malloc : List NextCall → Nat → Nat) (st : State) (ra tid size : Nat)
    (hlive : st.aborted = false)
    (hb : fn_malloc st.calls ((sizeof_MallocInfo + size + sizeof_MallocInfoBack) % WORD) = 0) :
    malloc fn_malloc st ra tid size =
      ({ st with
          calls := st.calls ++ [NextCall.malloc
            ((sizeof_MallocInfo + size + sizeof_MallocInfoBack) % WORD) 0] }, 0) := by
  unfold malloc
  simp only [hlive, Bool.false_eq_true, if_false]
  rw [if_pos hb, hb]

/-- After `malloc` of a size whose block request does not wrap, in a block that
lies in the address space, the header word at offset `4 * i` is word `i` of
the initial `MallocInfo`. -/
theorem malloc_header_word (m : Mem) (b ra tid size i : Nat)
    (hsize : sizeof_MallocInfo + size + sizeof_MallocInfoBack < WORD)
    (hfit : b + (sizeof_MallocInfo + size + sizeof_MallocInfoBack) ≤ WORD) (hi : i < 14) :
    loadWord (storeWords (storeWords m b (mallocInfo ra tid size))
        (padd (padd b sizeof_MallocInfo) size) (mallocInfoBack tid size)) (padd b (4 * i))
      = (mallocInfo ra tid size).getD i 0 % WORD := by
  have hbW : b < WORD := by simp only [sizeof_MallocInfo, sizeof_MallocInfoBack] at hfit; omega
  rw [loadWord_storeWords_outside]
  · exact loadWord_storeWords_field m b _ i hbW (by simp [mallocInfo]; omega)
      (by simp [mallocInfo, WORD])
  · intro j hj
    simp only [padd, WORD, sizeof_MallocInfo, sizeof_MallocInfoBack, mallocInfoBack,
      List.length_cons, List.length_nil] at *
    omega

theorem psub_padd (b k : Nat) (hb : b < WORD) : psub (padd b k) k = b := by
  unfold psub padd
  simp only [WORD] at *
  omega

/-- The first `free`: the counter was zero, the free fields are recorded and
the block is forwarded. -/
theorem free_first (st : State) (ra tid ptr : Nat) (hlive : st.aborted = false) (hp : ptr ≠ 0)
    (hcnt : loadWord st.mem (padd (psub ptr sizeof_MallocInfo) off_freeCnt) = 0) :
    free st ra tid ptr =
      { st with
        mem := storeWord (storeWord (storeWord st.mem
            (padd (psub ptr sizeof_MallocInfo) off_freeCnt) 1)
            (padd (psub ptr sizeof_MallocInfo) off_raFree) ra)
            (padd (psub ptr sizeof_MallocInfo) off_tidTerminator) tid
        calls := st.calls ++ [NextCall.free (psub ptr sizeof_MallocInfo)] } := by
  unfold free
  simp only [hlive, Bool.false_eq_true, if_false]
  rw [if_pos hp]
  simp only [hcnt]
  rw [if_neg (by simp)]
  rfl

/-- A further `free`: the counter was non-zero, the free fields of the header
are copied to the globals and the process aborts. -/
theorem free_again (st : State) (ra tid ptr : Nat) (hlive : st.aborted = false) (hp : ptr ≠ 0)
    (hcnt : loadWord st.mem (padd (psub ptr sizeof_MallocInfo) off_freeCnt) ≠ 0) :
    free st ra tid ptr =
      { st with
        mem := storeWord st.mem (padd (psub ptr sizeof_MallocInfo) off_freeCnt)
          ((loadWord st.mem (padd (psub ptr sizeof_MallocInfo) off_freeCnt) + 1) % WORD)
        gRaFree := loadWord (storeWord st.mem (padd (psub ptr sizeof_MallocInfo) off_freeCnt)
          ((loadWord st.mem (padd (psub ptr sizeof_MallocInfo) off_freeCnt) + 1) % WORD))
          (padd (psub ptr sizeof_MallocInfo) off_raFree)
        gTidTerminator := loadWord (storeWord st.mem
          (padd (psub ptr sizeof_MallocInfo) off_freeCnt)
          ((loadWord st.mem (padd (psub ptr sizeof_MallocInfo) off_freeCnt) + 1) % WORD))
          (padd (psub ptr sizeof_MallocInfo) off_tidTerminator)
        aborted := true } := by
  unfold free
  simp only [hlive, Bool.false_eq_true, if_false]
  rw [if_pos hp, if_pos (fun h => hcnt h.symm)]

/-- The first `free` of the payload of a block at `b` whose counter is zero. -/
theorem free_live (st : State) (b ra tid : Nat)
    (hlive : st.aborted = false) (hb : b + sizeof_MallocInfo < WORD)
    (hcnt : loadWord st.mem (padd b off_freeCnt) = 0) :
    (free st ra tid (padd b sizeof_MallocInfo)).aborted = false ∧
    (free st ra tid (padd b sizeof_MallocInfo)).calls = st.calls ++ [NextCall.free b] ∧
    loadWord (free st ra tid (padd b sizeof_MallocInfo)).mem (padd b off_freeCnt) = 1 ∧
    loadWord (free st ra tid (padd b sizeof_MallocInfo)).mem (padd b off_raFree) = ra % WORD ∧
    loadWord (free st ra tid (padd b sizeof_MallocInfo)).mem (padd b off_tidTerminator)
      = tid % WORD := by
  have hbW : b < WORD := by omega
  have hp : padd b sizeof_MallocInfo ≠ 0 := by
    unfold padd; simp only [sizeof_MallocInfo, WORD] at *; omega
  have hmi : psub (padd b sizeof_MallocInfo) sizeof_MallocInfo = b :=
    psub_padd b _ hbW
  have h1 := free_first st ra tid _ hlive hp (by rw [hmi]; exact hcnt)
  rw [hmi] at h1
  rw [h1]
  refine ⟨hlive, rfl, ?_, ?_, ?_⟩
  · simp only
    rw [loadWord_storeWord_field _ b _ _ _ (by simp [off_tidTerminator, WORD])
        (by simp [off_freeCnt, WORD]) (by simp [off_tidTerminator, off_freeCnt]),
      loadWord_storeWord_field _ b _ _ _ (by simp [off_raFree, WORD])
        (by simp [off_freeCnt, WORD]) (by simp [off_raFree, off_freeCnt]),
      loadWord_storeWord_same _ b _ _]
    simp [WORD]
  · simp only
    rw [loadWord_storeWord_field _ b _ _ _ (by simp [off_tidTerminator, WORD])
        (by simp [off_raFree, WORD]) (by simp [off_tidTerminator, off_raFree]),
      loadWord_storeWord_same _ b _ _]
  · simp only
    rw [loadWord_storeWord_same _ b _ _]

/-- A `free` of the payload of a block at `b` whose counter is not zero. -/
theorem free_dead (st : State) (b ra tid : Nat)
    (hlive : st.aborted = false) (hb : b + sizeof_MallocInfo < WORD)
    (hcnt : loadWord st.mem (padd b off_freeCnt) ≠ 0) :
    (free st ra tid (padd b sizeof_MallocInfo)).aborted = true ∧
    (free st ra tid (padd b sizeof_MallocInfo)).calls = st.calls ∧
    (free st ra tid (padd b sizeof_MallocInfo)).gRaFree = loadWord st.mem (padd b off_raFree) ∧
    (free st ra tid (padd b sizeof_MallocInfo)).gTidTerminator
      = loadWord st.mem (padd b off_tidTerminator) := by
  have hbW : b < WORD := by omega
  have hp : padd b sizeof_MallocInfo ≠ 0 := by
    unfold padd; simp only [sizeof_MallocInfo, WORD] at *; omega
  have hmi : psub (padd b sizeof_MallocInfo) sizeof_MallocInfo = b :=
    psub_padd b _ hbW
  have h2 := free_again st ra tid _ hlive hp (by rw [hmi]; exact hcnt)
  rw [hmi] at h2
  rw [h2]
  refine ⟨rfl, rfl, ?_, ?_⟩
  · simp only
    rw [loadWord_storeWord_field _ b _ _ _ (by simp [off_freeCnt, WORD])
        (by simp [off_raFree, WORD]) (by simp [off_raFree, off_freeCnt])]
  · simp only
    rw [loadWord_storeWord_field _ b _ _ _ (by simp [off_freeCnt, WORD])
        (by simp [off_tidTerminator, WORD]) (by simp [off_tidTerminator, off_freeCnt])]

/-- After a successful `malloc` whose request does not wrap, the free counter
of the new header is zero. -/
theorem malloc_counter_zero (fn_malloc : List NextCall → Nat → Nat) (st : State)
    (ra tid size : Nat) (hlive : st.aborted = false)
    (hsize : sizeof_MallocInfo + size + sizeof_MallocInfoBack < WORD)
    (hb : fn_malloc st.calls (sizeof_MallocInfo + size + sizeof_MallocInfoBack) ≠ 0)
    (hfit : fn_malloc st.calls (sizeof_MallocInfo + size + sizeof_MallocInfoBack)
        + (sizeof_MallocInfo + size + sizeof_MallocInfoBack) ≤ WORD) :
    (malloc fn_malloc st ra tid size).1.aborted = false ∧
    (malloc fn_malloc st ra tid size).1.calls = st.calls ++
      [NextCall.malloc (sizeof_MallocInfo + size + sizeof_MallocInfoBack)
        (fn_malloc st.calls (sizeof_MallocInfo + size + sizeof_MallocInfoBack))] ∧
    (malloc fn_malloc st ra tid size).2 =
      padd (fn_malloc st.calls (sizeof_MallocInfo + size + sizeof_MallocInfoBack))
        sizeof_MallocInfo ∧
    loadWord (malloc fn_malloc st ra tid size).1.mem
      (padd (fn_malloc st.calls (sizeof_MallocInfo + size + sizeof_MallocInfoBack)) off_freeCnt)
      = 0 := by
  have hn : (sizeof_MallocInfo + size + sizeof_MallocInfoBack) % WORD =
      sizeof_MallocInfo + size + sizeof_MallocInfoBack := Nat.mod_eq_of_lt hsize
  rw [malloc_block fn_malloc st ra tid size hlive (by rw [hn]; exact hb), hn]
  refine ⟨hlive, rfl, rfl, ?_⟩
  have hw := malloc_header_word st.mem _ ra tid size 9 hsize hfit (by omega)
  simpa [mallocInfo, off_freeCnt] using hw

/-- A word that does not overlap the stored struct is unchanged (no wrap). -/
theorem loadWord_storeWords_disjoint (m : Mem) (a : Nat) (ws : List Nat) (x : Nat)
    (ha : a + 4 * ws.length ≤ WORD) (hx : x + 4 ≤ WORD)
    (h : a + 4 * ws.length ≤ x ∨ x + 4 ≤ a) :
    loadWord (storeWords m a ws) x = loadWord m x := by
  apply loadWord_storeWords_outside
  intro j hj
  simp only [padd, WORD] at *
  omega

theorem loadWord_storeWord_disjoint (m : Mem) (a v x : Nat)
    (ha : a + 4 ≤ WORD) (hx : x + 4 ≤ WORD) (h : a + 4 ≤ x ∨ x + 4 ≤ a) :
    loadWord (storeWord m a v) x = loadWord m x := by
  unfold storeWord
  exact loadWord_storeWords_disjoint m a [v] x (by simpa using ha) hx (by simpa using h)

/-- A successful `malloc` whose request does not wrap changes no word outside
the block it got. -/
theorem malloc_frame (fn_malloc : List NextCall → Nat → Nat) (st : State)
    (ra tid size : Nat) (hlive : st.aborted = false)
    (hsize : sizeof_MallocInfo + size + sizeof_MallocInfoBack < WORD)
    (hb : fn_malloc st.calls (sizeof_MallocInfo + size + sizeof_MallocInfoBack) ≠ 0)
    (hfit : fn_malloc st.calls (sizeof_MallocInfo + size + sizeof_MallocInfoBack)
        + (sizeof_MallocInfo + size + sizeof_MallocInfoBack) ≤ WORD)
    (x : Nat) (hx : x + 4 ≤ WORD)
    (hout : fn_malloc st.calls (sizeof_MallocInfo + size + sizeof_MallocInfoBack)
        + (sizeof_MallocInfo + size + sizeof_MallocInfoBack) ≤ x ∨
      x + 4 ≤ fn_malloc st.calls (sizeof_MallocInfo + size + sizeof_MallocInfoBack)) :
    loadWord (malloc fn_malloc st ra tid size).1.mem x = loadWord st.mem x := by
  have hn : (sizeof_MallocInfo + size + sizeof_MallocInfoBack) % WORD =
      sizeof_MallocInfo + size + sizeof_MallocInfoBack := Nat.mod_eq_of_lt hsize
  rw [malloc_block fn_malloc st ra tid size hlive (by rw [hn]; exact hb), hn]
  simp only
  have ht : padd (padd (fn_malloc st.calls (sizeof_MallocInfo + size + sizeof_MallocInfoBack))
      sizeof_MallocInfo) size
      = fn_malloc st.calls (sizeof_MallocInfo + size + sizeof_MallocInfoBack)
        + sizeof_MallocInfo + size := by
    simp only [padd, WORD, sizeof_MallocInfo, sizeof_MallocInfoBack] at *
    omega
  rw [ht, loadWord_storeWords_disjoint, loadWord_storeWords_disjoint]
  · simp only [mallocInfo, List.length_cons, List.length_nil, sizeof_MallocInfo,
      sizeof_MallocInfoBack] at *
    omega
  · exact hx
  · simp only [mallocInfo, List.length_cons, List.length_nil, sizeof_MallocInfo,
      sizeof_MallocInfoBack] at *
    omega
  · simp only [mallocInfoBack, List.length_cons, List.length_nil, sizeof_MallocInfo,
      sizeof_MallocInfoBack] at *
    omega
  · exact hx
  · simp only [mallocInfoBack, List.length_cons, List.length_nil, sizeof_MallocInfo,
      sizeof_MallocInfoBack] at *
    omega

/-- The first `free` of a block at `b` changes no word outside its header. -/
theorem free_frame (st : State) (b ra tid : Nat)
    (hlive : st.aborted = false) (hb : b + sizeof_MallocInfo < WORD)
    (hcnt : loadWord st.mem (padd b off_freeCnt) = 0)
    (x : Nat) (hx : x + 4 ≤ WORD) (hout : b + sizeof_MallocInfo ≤ x ∨ x + 4 ≤ b) :
    loadWord (free st ra tid (padd b sizeof_MallocInfo)).mem x = loadWord st.mem x := by
  have hbW : b < WORD := by omega
  have hp : padd b sizeof_MallocInfo ≠ 0 := by
    unfold padd; simp only [sizeof_MallocInfo, WORD] at *; omega
  have hmi : psub (padd b sizeof_MallocInfo) sizeof_MallocInfo = b :=
    psub_padd b _ hbW
  have h1 := free_first st ra tid _ hlive hp (by rw [hmi]; exact hcnt)
  rw [hmi] at h1
  rw [h1]
  simp only
  have e1 : padd b off_tidTerminator = b + 28 := by
    simp only [padd, WORD, off_tidTerminator, sizeof_MallocInfo] at *; omega
  have e2 : padd b off_raFree = b + 24 := by
    simp only [padd, WORD, off_raFree, sizeof_MallocInfo] at *; omega
  have e3 : padd b off_freeCnt = b + 36 := by
    simp only [padd, WORD, off_freeCnt, sizeof_MallocInfo] at *; omega
  rw [e1, e2, e3]
  simp only [sizeof_MallocInfo] at *
  rw [loadWord_storeWord_disjoint _ _ _ _ (by omega) hx (by omega),
    loadWord_storeWord_disjoint _ _ _ _ (by omega) hx (by omega),
    loadWord_storeWord_disjoint _ _ _ _ (by omega) hx (by omega)]

theorem liveBlocks_malloc (calls : List NextCall) (n b : Nat) :
    liveBlocks (calls ++ [NextCall.malloc n b]) =
      if b = 0 then liveBlocks calls else liveBlocks calls ++ [(b, n)] := by
  simp [liveBlocks, List.foldl_append, liveStep]

theorem liveBlocks_free (calls : List NextCall) (b : Nat) :
    liveBlocks (calls ++ [NextCall.free b]) =
      (liveBlocks calls).filter (fun e => decide (e.1 ≠ b)) := by
  simp [liveBlocks, List.foldl_append, liveStep]

theorem RunInv.malloc_step (fn_malloc : List NextCall → Nat → Nat) (hsane : Sane fn_malloc)
    (st : State) (ptrs freed blocks : List Nat) (h : RunInv st ptrs freed blocks)
    (ra tid size : Nat) (hsize : sizeof_MallocInfo + size + sizeof_MallocInfoBack < WORD) :
    RunInv (malloc fn_malloc st ra tid size).1 (ptrs ++ [(malloc fn_malloc st ra tid size).2]) freed
      (blocks ++ [fn_malloc st.calls (sizeof_MallocInfo + size + sizeof_MallocInfoBack)]) ∧
    (malloc fn_malloc st ra tid size).1.calls = st.calls ++
      [NextCall.malloc (sizeof_MallocInfo + size + sizeof_MallocInfoBack)
        (fn_malloc st.calls (sizeof_MallocInfo + size + sizeof_MallocInfoBack))] := by
  have hn : (sizeof_MallocInfo + size + sizeof_MallocInfoBack) % WORD =
      sizeof_MallocInfo + size + sizeof_MallocInfoBack := Nat.mod_eq_of_lt hsize
  -- access to the old and the new index of the extended lists
  have hold : ∀ (l : List Nat) (x k : Nat), k < l.length → (l ++ [x]).getD k 0 = l.getD k 0 :=
    fun l x k hk => List.getD_append l [x] 0 k hk
  have hnew : ∀ (l : List Nat) (x : Nat), (l ++ [x]).getD l.length 0 = x := by
    intro l x
    rw [List.getD_append_right l [x] 0 l.length (Nat.le_refl _)]
    simp
  by_cases hb : fn_malloc st.calls (sizeof_MallocInfo + size + sizeof_MallocInfoBack) = 0
  · -- the next layer fails: nothing but the call log changes
    rw [malloc_null fn_malloc st ra tid size h.live (by rw [hn]; exact hb), hn, hb]
    refine ⟨?_, rfl⟩
    have hlb : liveBlocks (st.calls ++ [NextCall.malloc
        (sizeof_MallocInfo + size + sizeof_MallocInfoBack) 0]) = liveBlocks st.calls := by
      rw [liveBlocks_malloc]; simp
    constructor
    · exact h.live
    · simp [h.len]
    · intro k hk
      simp only [List.length_append, List.length_singleton] at hk
      by_cases hk2 : k < blocks.length
      · rw [hold blocks 0 k hk2, hold ptrs _ k (by rw [← h.len]; exact hk2)]
        exact h.ptr k hk2
      · have hk3 : k = blocks.length := by omega
        subst hk3
        rw [hnew blocks 0]
        rw [h.len, hnew ptrs 0]
        simp
    · intro k hk hkf hkb
      simp only [List.length_append, List.length_singleton] at hk
      by_cases hk2 : k < blocks.length
      · rw [hold blocks 0 k hk2] at hkb ⊢
        simp only [hlb]
        exact h.hdr k hk2 hkf hkb
      · have hk3 : k = blocks.length := by omega
        subst hk3
        rw [hnew blocks 0] at hkb
        exact absurd rfl hkb
    · intro j k hj hk hjf hkf hjk hjb
      simp only [List.length_append, List.length_singleton] at hj hk
      by_cases hj2 : j < blocks.length
      · rw [hold blocks 0 j hj2] at hjb ⊢
        by_cases hk2 : k < blocks.length
        · rw [hold blocks 0 k hk2]
          exact h.inj j k hj2 hk2 hjf hkf hjk hjb
        · have hk3 : k = blocks.length := by omega
          subst hk3
          rw [hnew blocks 0]
          exact hjb
      · have hj3 : j = blocks.length := by omega
        subst hj3
        rw [hnew blocks 0] at hjb
        exact absurd rfl hjb
    · simp only [hlb]; exact h.disj
    · simp only [hlb]; exact h.wf
  · -- the next layer returns a block
    obtain ⟨hfit, hfree⟩ := (hsane st.calls _).resolve_left hb
    obtain ⟨ha, hc, hp, hz⟩ := malloc_counter_zero fn_malloc st ra tid size h.live hsize hb hfit
    have hframe := malloc_frame fn_malloc st ra tid size h.live hsize hb hfit
    refine ⟨?_, hc⟩
    have hlb : liveBlocks (malloc fn_malloc st ra tid size).1.calls = liveBlocks st.calls ++
        [(fn_malloc st.calls (sizeof_MallocInfo + size + sizeof_MallocInfoBack),
          sizeof_MallocInfo + size + sizeof_MallocInfoBack)] := by
      rw [hc, liveBlocks_malloc, if_neg hb]
    have hpadd : padd (fn_malloc st.calls (sizeof_MallocInfo + size + sizeof_MallocInfoBack))
        sizeof_MallocInfo
        = fn_malloc st.calls (sizeof_MallocInfo + size + sizeof_MallocInfoBack)
          + sizeof_MallocInfo := by
      simp only [padd, WORD, sizeof_MallocInfo, sizeof_MallocInfoBack] at *
      omega
    constructor
    · exact ha
    · simp [h.len]
    · intro k hk
      simp only [List.length_append, List.length_singleton] at hk
      by_cases hk2 : k < blocks.length
      · rw [hold blocks _ k hk2, hold ptrs _ k (by rw [← h.len]; exact hk2)]
        exact h.ptr k hk2
      · have hk3 : k = blocks.length := by omega
        subst hk3
        rw [hnew blocks _]
        rw [h.len, hnew ptrs _, hp, hpadd, if_neg hb]
    · intro k hk hkf hkb
      simp only [List.length_append, List.length_singleton] at hk
      by_cases hk2 : k < blocks.length
      · rw [hold blocks _ k hk2] at hkb ⊢
        obtain ⟨⟨n, hmem⟩, hcnt⟩ := h.hdr k hk2 hkf hkb
        refine ⟨⟨n, by rw [hlb]; exact List.mem_append_left _ hmem⟩, ?_⟩
        have hw := h.wf _ hmem
        have hd := hfree _ hmem
        have hoff : padd (blocks.getD k 0) off_freeCnt = blocks.getD k 0 + 36 := by
          simp only [padd, WORD, off_freeCnt, sizeof_MallocInfo, sizeof_MallocInfoBack] at *
          omega
        rw [hoff] at hcnt ⊢
        rw [hframe _ (by simp only [WORD, sizeof_MallocInfo, sizeof_MallocInfoBack] at *; omega)
          (by simp only [WORD, sizeof_MallocInfo, sizeof_MallocInfoBack] at *; omega)]
        exact hcnt
      · have hk3 : k = blocks.length := by omega
        subst hk3
        rw [hnew blocks _]
        exact ⟨⟨_, by rw [hlb]; exact List.mem_append_right _ (List.mem_singleton_self _)⟩, hz⟩
    · intro j k hj hk hjf hkf hjk hjb
      simp only [List.length_append, List.length_singleton] at hj hk
      have hsep : ∀ i, i < blocks.length → i ∉ freed → blocks.getD i 0 ≠ 0 →
          blocks.getD i 0 ≠
            fn_malloc st.calls (sizeof_MallocInfo + size + sizeof_MallocInfoBack) := by
        intro i hi hif hib
        obtain ⟨⟨n, hmem⟩, _⟩ := h.hdr i hi hif hib
        have hw := h.wf _ hmem
        have hd := hfree _ hmem
        simp only [WORD, sizeof_MallocInfo, sizeof_MallocInfoBack] at *
        omega
      by_cases hj2 : j < blocks.length
      · rw [hold blocks _ j hj2] at hjb ⊢
        by_cases hk2 : k < blocks.length
        · rw [hold blocks _ k hk2]
          exact h.inj j k hj2 hk2 hjf hkf hjk hjb
        · have hk3 : k = blocks.length := by omega
          subst hk3
          rw [hnew blocks _]
          exact hsep j hj2 hjf hjb
      · have hj3 : j = blocks.length := by omega
        subst hj3
        rw [hnew blocks _]
        have hk2 : k < blocks.length := by omega
        rw [hold blocks _ k hk2]
        by_cases hkb : blocks.getD k 0 = 0
        · rw [hkb]; exact hb
        · exact fun heq => hsep k hk2 hkf hkb heq.symm
    · rw [hlb, List.pairwise_append]
      refine ⟨h.disj, List.pairwise_singleton _ _, ?_⟩
      intro e he e2 he2
      rw [List.mem_singleton] at he2
      subst he2
      have hd := hfree e he
      simp only
      omega
    · intro e he
      rw [hlb, List.mem_append, List.mem_singleton] at he
      rcases he with he | he
      · exact h.wf e he
      · subst he
        refine ⟨hb, ?_, hfit⟩
        simp only [sizeof_MallocInfo, sizeof_MallocInfoBack]
        omega

theorem RunInv.free_step (st : State) (ptrs freed blocks : List Nat)
    (h : RunInv st ptrs freed blocks) (k ra tid : Nat) (hk : k < ptrs.length) (hkf : k ∉ freed) :
    RunInv (free st ra tid (ptrs.getD k 0)) ptrs (k :: freed) blocks ∧
    (free st ra tid (ptrs.getD k 0)).calls = st.calls ++ [NextCall.free (blocks.getD k 0)] := by
  have hkb : k < blocks.length := by rw [h.len]; exact hk
  have hptr := h.ptr k hkb
  by_cases hb : blocks.getD k 0 = 0
  · -- the pointer is null: it is forwarded as it is
    rw [if_pos hb] at hptr
    rw [hptr, hb]
    have hfree : free st ra tid 0 = { st with calls := st.calls ++ [NextCall.free 0] } := by
      unfold free
      simp [h.live]
    rw [hfree]
    refine ⟨?_, rfl⟩
    have hlb : liveBlocks (st.calls ++ [NextCall.free 0]) = liveBlocks st.calls := by
      rw [liveBlocks_free, List.filter_eq_self]
      intro e he
      simpa using (h.wf e he).1
    constructor
    · exact h.live
    · exact h.len
    · exact h.ptr
    · intro j hj hjf hjb
      simp only [hlb]
      exact h.hdr j hj (fun hmem => hjf (List.mem_cons_of_mem _ hmem)) hjb
    · intro i j hi hj hif hjf hij hib
      exact h.inj i j hi hj (fun hmem => hif (List.mem_cons_of_mem _ hmem))
        (fun hmem => hjf (List.mem_cons_of_mem _ hmem)) hij hib
    · simp only [hlb]; exact h.disj
    · simp only [hlb]; exact h.wf
  · -- the pointer is the payload of a live block
    rw [if_neg hb] at hptr
    obtain ⟨⟨n, hmem⟩, hcnt⟩ := h.hdr k hkb hkf hb
    obtain ⟨_, hn96, hnW⟩ := h.wf _ hmem
    simp only at hn96 hnW
    have hb56 : blocks.getD k 0 + sizeof_MallocInfo < WORD := by
      simp only [sizeof_MallocInfo, sizeof_MallocInfoBack] at *; omega
    have hpadd : padd (blocks.getD k 0) sizeof_MallocInfo
        = blocks.getD k 0 + sizeof_MallocInfo := by
      simp only [padd, WORD] at *
      omega
    rw [hptr, ← hpadd]
    obtain ⟨h1, h2, _⟩ := free_live st _ ra tid h.live hb56 hcnt
    have hframe := free_frame st _ ra tid h.live hb56 hcnt
    refine ⟨?_, h2⟩
    have hlb : liveBlocks (free st ra tid (padd (blocks.getD k 0) sizeof_MallocInfo)).calls =
        (liveBlocks st.calls).filter (fun e => decide (e.1 ≠ blocks.getD k 0)) := by
      rw [h2, liveBlocks_free]
    have hsym : Symmetric (fun e1 e2 : Nat × Nat => e1.1 + e1.2 ≤ e2.1 ∨ e2.1 + e2.2 ≤ e1.1) :=
      fun _ _ hxy => hxy.symm
    constructor
    · exact h1
    · exact h.len
    · exact h.ptr
    · intro j hj hjf hjb
      have hjk : j ≠ k := fun heq => hjf (by rw [heq]; exact List.mem_cons_self _ _)
      have hjf2 : j ∉ freed := fun hm => hjf (List.mem_cons_of_mem _ hm)
      obtain ⟨⟨nj, hmemj⟩, hcntj⟩ := h.hdr j hj hjf2 hjb
      have hne := h.inj j k hj hkb hjf2 hkf hjk hjb
      refine ⟨⟨nj, ?_⟩, ?_⟩
      · rw [hlb, List.mem_filter]
        exact ⟨hmemj, by simpa using hne⟩
      · obtain ⟨_, hnj96, hnjW⟩ := h.wf _ hmemj
        simp only at hnj96 hnjW
        have hd := h.disj.forall hsym hmemj hmem
          (fun heq => hne (congrArg Prod.fst heq))
        simp only at hd
        have hoff : padd (blocks.getD j 0) off_freeCnt = blocks.getD j 0 + 36 := by
          simp only [padd, WORD, off_freeCnt, sizeof_MallocInfo, sizeof_MallocInfoBack] at *
          omega
        rw [hoff] at hcntj ⊢
        rw [hframe _ (by simp only [WORD, sizeof_MallocInfo, sizeof_MallocInfoBack] at *; omega)
          (by simp only [WORD, sizeof_MallocInfo, sizeof_MallocInfoBack] at *; omega)]
        exact hcntj
    · intro i j hi hj hif hjf hij hib
      exact h.inj i j hi hj (fun hm => hif (List.mem_cons_of_mem _ hm))
        (fun hm => hjf (List.mem_cons_of_mem _ hm)) hij hib
    · rw [hlb]; exact h.disj.filter _
    · intro e he
      rw [hlb, List.mem_filter] at he
      exact h.wf e he.1

/-- The run never aborts and the next layer sees the expected calls. -/
theorem run_calls (fn_malloc : List NextCall → Nat → Nat) (tid : Nat) (hsane : Sane fn_malloc)
    (ops : List Op) :
    ∀ (st : State) (ptrs freed blocks : List Nat), RunInv st ptrs freed blocks →
    paired ptrs.length freed ops = true →
    (∀ size ra, Op.malloc size ra ∈ ops →
      sizeof_MallocInfo + size + sizeof_MallocInfoBack < WORD) →
    (run fn_malloc tid st ptrs ops).1.aborted = false ∧
    ∃ ext : List Nat,
      (blocks ++ ext).length = (run fn_malloc tid st ptrs ops).2.length ∧
      (run fn_malloc tid st ptrs ops).1.calls =
        st.calls ++ expectedCalls (blocks ++ ext) blocks.length ops := by
  induction ops with
  | nil =>
    intro st ptrs freed blocks h _ _
    exact ⟨h.live, [], by simp [run, h.len], by simp [run, expectedCalls]⟩
  | cons op rest ih =>
    intro st ptrs freed blocks h hp hsizes
    have hrest : ∀ size ra, Op.malloc size ra ∈ rest →
        sizeof_MallocInfo + size + sizeof_MallocInfoBack < WORD :=
      fun size ra hm => hsizes size ra (List.mem_cons_of_mem _ hm)
    cases op with
    | malloc size ra =>
      obtain ⟨hinv, hcalls⟩ := RunInv.malloc_step fn_malloc hsane st ptrs freed blocks h ra tid size
        (hsizes size ra (List.mem_cons_self _ _))
      have hp2 : paired (ptrs ++ [(malloc fn_malloc st ra tid size).2]).length freed rest
          = true := by
        simpa [paired] using hp
      obtain ⟨hlive, ext, hlen, hc⟩ := ih _ _ _ _ hinv hp2 hrest
      refine ⟨by simpa [run] using hlive,
        fn_malloc st.calls (sizeof_MallocInfo + size + sizeof_MallocInfoBack) :: ext, ?_, ?_⟩
      · simpa [run] using hlen
      · simp only [run, expectedCalls]
        rw [hc, hcalls]
        simp only [List.append_assoc, List.singleton_append, List.length_append,
          List.length_singleton]
        congr 2
        rw [List.getD_append_right _ _ _ _ (Nat.le_refl _)]
        simp
    | free k ra =>
      simp only [paired, Bool.and_eq_true, decide_eq_true_eq, Bool.not_eq_true'] at hp
      obtain ⟨⟨hk, hkf⟩, hp2⟩ := hp
      have hkf2 : k ∉ freed := by
        intro hm
        have hc : freed.contains k = true := List.elem_iff.mpr hm
        rw [hc] at hkf
        exact Bool.noConfusion hkf
      obtain ⟨hinv, hcalls⟩ := RunInv.free_step st ptrs freed blocks h k ra tid hk hkf2
      obtain ⟨hlive, ext, hlen, hc⟩ := ih _ _ _ _ hinv hp2 hrest
      refine ⟨by simpa [run] using hlive, ext, by simpa [run] using hlen, ?_⟩
      simp only [run, expectedCalls]
      rw [hc, hcalls]
      simp only [List.append_assoc, List.singleton_append]
      congr 2
      rw [List.getD_append _ _ _ _ (by rw [h.len]; exact hk)]

/-- A first `free` carried through: the state at the forward, with the memory
the next layer leaves. -/
theorem free_fwd_first (fn_free : List NextCall → Mem → Nat → Mem) (st : State)
    (ra tid ptr : Nat) (hlive : st.aborted = false) (hp : ptr ≠ 0)
    (hcnt : loadWord st.mem (padd (psub ptr sizeof_MallocInfo) off_freeCnt) = 0) :
    free_fwd fn_free st ra tid ptr =
      { free st ra tid ptr with
        mem := fn_free st.calls (free st ra tid ptr).mem (psub ptr sizeof_MallocInfo) } := by
  rw [free_first st ra tid ptr hlive hp hcnt]
  unfold free_fwd
  simp only [hlive, Bool.false_eq_true, if_false, hcnt]
  rw [if_pos hp]
  simp only [zero_add, ne_eq, not_true_eq_false, if_false]
  rfl

/-- A `free` that aborts never reaches the next layer. -/
theorem free_fwd_again (fn_free : List NextCall → Mem → Nat → Mem) (st : State)
    (ra tid ptr : Nat) (hp : ptr ≠ 0)
    (hcnt : loadWord st.mem (padd (psub ptr sizeof_MallocInfo) off_freeCnt) ≠ 0) :
    free_fwd fn_free st ra tid ptr = free st ra tid ptr := by
  unfold free_fwd free
  by_cases ha : st.aborted = true
  · simp [ha]
  · simp only [ha, if_false]
    rw [if_pos hp, if_pos hp, if_pos (fun h => hcnt h.symm), if_pos (fun h => hcnt h.symm)]

/-- Over a next-layer `free` that writes nothing, the state after the call is
the state at the forward. -/
theorem free_fwd_identity (st : State) (ra tid ptr : Nat) :
    free_fwd (fun _ m _ => m) st ra tid ptr = free st ra tid ptr := by
  unfold free_fwd free
  rfl

/-- Claim C9, amended: for every non-null pointer `p` returned by `malloc` for a
size whose block request does not wrap, in a block `b` that lies in the address
space, `p = b + sizeof (MallocInfo)` and the free counter of its header is 0
when `malloc` returns; and from every state of a running process in which that
counter is still 0, over a next-layer `free` that leaves the free return
address, free thread id and free counter of the released header as they are,
`free (p); free (p)` aborts in the second `free`: the first forwards `b` and
leaves the counter 1 and its return address and thread id in the header; the
second copies these into `gRaFree` and `gTidTerminator`, aborts and forwards
nothing, so the next-layer `free` is called once, with the block. -/
theorem double_free_aborts (fn_malloc : List NextCall → Nat → Nat)
    (fn_free : List NextCall → Mem → Nat → Mem) (st : State)
    (ra tid size ra1 tid1 ra2 tid2 : Nat)
    (hlive : st.aborted = false)
    (hsize : sizeof_MallocInfo + size + sizeof_MallocInfoBack < WORD)
    (hp : (malloc fn_malloc st ra tid size).2 ≠ 0)
    (hfit : fn_malloc st.calls (sizeof_MallocInfo + size + sizeof_MallocInfoBack)
        + (sizeof_MallocInfo + size + sizeof_MallocInfoBack) ≤ WORD)
    (hra : ra1 < WORD) (htid : tid1 < WORD)
    (hkeep : ∀ calls m, ∀ off, off = off_raFree ∨ off = off_tidTerminator ∨ off = off_freeCnt →
      loadWord (fn_free calls m
          (fn_malloc st.calls (sizeof_MallocInfo + size + sizeof_MallocInfoBack)))
        (padd (fn_malloc st.calls (sizeof_MallocInfo + size + sizeof_MallocInfoBack)) off)
      = loadWord m
        (padd (fn_malloc st.calls (sizeof_MallocInfo + size + sizeof_MallocInfoBack)) off)) :
    (malloc fn_malloc st ra tid size).2 =
      fn_malloc st.calls (sizeof_MallocInfo + size + sizeof_MallocInfoBack)
        + sizeof_MallocInfo ∧
    (malloc fn_malloc st ra tid size).1.aborted = false ∧
    (malloc fn_malloc st ra tid size).1.calls = st.calls ++
      [NextCall.malloc (sizeof_MallocInfo + size + sizeof_MallocInfoBack)
        (fn_malloc st.calls (sizeof_MallocInfo + size + sizeof_MallocInfoBack))] ∧
    loadWord (malloc fn_malloc st ra tid size).1.mem
      (padd (fn_malloc st.calls (sizeof_MallocInfo + size + sizeof_MallocInfoBack))
        off_freeCnt) = 0 ∧
    ∀ st1 : State, st1.aborted = false →
      loadWord st1.mem
        (padd (fn_malloc st.calls (sizeof_MallocInfo + size + sizeof_MallocInfoBack))
          off_freeCnt) = 0 →
      (free_fwd fn_free st1 ra1 tid1 (malloc fn_malloc st ra tid size).2).aborted = false ∧
      (free_fwd fn_free st1 ra1 tid1 (malloc fn_malloc st ra tid size).2).calls = st1.calls ++
        [NextCall.free (fn_malloc st.calls (sizeof_MallocInfo + size + sizeof_MallocInfoBack))] ∧
      loadWord (free_fwd fn_free st1 ra1 tid1 (malloc fn_malloc st ra tid size).2).mem
        (padd (fn_malloc st.calls (sizeof_MallocInfo + size + sizeof_MallocInfoBack))
          off_freeCnt) = 1 ∧
      loadWord (free_fwd fn_free st1 ra1 tid1 (malloc fn_malloc st ra tid size).2).mem
        (padd (fn_malloc st.calls (sizeof_MallocInfo + size + sizeof_MallocInfoBack))
          off_raFree) = ra1 ∧
      loadWord (free_fwd fn_free st1 ra1 tid1 (malloc fn_malloc st ra tid size).2).mem
        (padd (fn_malloc st.calls (sizeof_MallocInfo + size + sizeof_MallocInfoBack))
          off_tidTerminator) = tid1 ∧
      (free_fwd fn_free (free_fwd fn_free st1 ra1 tid1 (malloc fn_malloc st ra tid size).2)
        ra2 tid2 (malloc fn_malloc st ra tid size).2).aborted = true ∧
      (free_fwd fn_free (free_fwd fn_free st1 ra1 tid1 (malloc fn_malloc st ra tid size).2)
        ra2 tid2 (malloc fn_malloc st ra tid size).2).gRaFree = ra1 ∧
      (free_fwd fn_free (free_fwd fn_free st1 ra1 tid1 (malloc fn_malloc st ra tid size).2)
        ra2 tid2 (malloc fn_malloc st ra tid size).2).gTidTerminator = tid1 ∧
      (free_fwd fn_free (free_fwd fn_free st1 ra1 tid1 (malloc fn_malloc st ra tid size).2)
        ra2 tid2 (malloc fn_malloc st ra tid size).2).calls =
        st1.calls ++
          [NextCall.free
            (fn_malloc st.calls (sizeof_MallocInfo + size + sizeof_MallocInfoBack))] := by
  have hn : (sizeof_MallocInfo + size + sizeof_MallocInfoBack) % WORD =
      sizeof_MallocInfo + size + sizeof_MallocInfoBack := Nat.mod_eq_of_lt hsize
  have hb : fn_malloc st.calls (sizeof_MallocInfo + size + sizeof_MallocInfoBack) ≠ 0 := by
    intro h0
    rw [malloc_null fn_malloc st ra tid size hlive (by rw [hn]; exact h0)] at hp
    exact hp rfl
  obtain ⟨ha, hc, hq, hz⟩ := malloc_counter_zero fn_malloc st ra tid size hlive hsize hb hfit
  rw [hq]
  generalize fn_malloc st.calls (sizeof_MallocInfo + size + sizeof_MallocInfoBack) = b at *
  have hb56 : b + sizeof_MallocInfo < WORD := by
    simp only [sizeof_MallocInfo, sizeof_MallocInfoBack] at *; omega
  have hpadd : padd b sizeof_MallocInfo = b + sizeof_MallocInfo := by
    simp only [padd, WORD] at *
    omega
  have hps : psub (padd b sizeof_MallocInfo) sizeof_MallocInfo = b :=
    psub_padd b sizeof_MallocInfo (by omega)
  have hpne : padd b sizeof_MallocInfo ≠ 0 := by
    rw [hpadd]; simp only [sizeof_MallocInfo]; omega
  refine ⟨hpadd, ha, hc, hz, ?_⟩
  intro st1 hlive1 hcnt1
  obtain ⟨h1, h2, h3, h4, h5⟩ := free_live st1 b ra1 tid1 hlive1 hb56 hcnt1
  rw [Nat.mod_eq_of_lt hra] at h4
  rw [Nat.mod_eq_of_lt htid] at h5
  have hfirst := free_fwd_first fn_free st1 ra1 tid1 (padd b sizeof_MallocInfo) hlive1 hpne
    (by rw [hps]; exact hcnt1)
  rw [hps] at hfirst
  have e1 : (free_fwd fn_free st1 ra1 tid1 (padd b sizeof_MallocInfo)).aborted = false := by
    rw [hfirst]; exact h1
  have e2 : (free_fwd fn_free st1 ra1 tid1 (padd b sizeof_MallocInfo)).calls
      = st1.calls ++ [NextCall.free b] := by
    rw [hfirst]; exact h2
  have e3 : loadWord (free_fwd fn_free st1 ra1 tid1 (padd b sizeof_MallocInfo)).mem
      (padd b off_freeCnt) = 1 := by
    rw [hfirst]
    simp only
    rw [hkeep _ _ off_freeCnt (Or.inr (Or.inr rfl))]
    exact h3
  have e4 : loadWord (free_fwd fn_free st1 ra1 tid1 (padd b sizeof_MallocInfo)).mem
      (padd b off_raFree) = ra1 := by
    rw [hfirst]
    simp only
    rw [hkeep _ _ off_raFree (Or.inl rfl)]
    exact h4
  have e5 : loadWord (free_fwd fn_free st1 ra1 tid1 (padd b sizeof_MallocInfo)).mem
      (padd b off_tidTerminator) = tid1 := by
    rw [hfirst]
    simp only
    rw [hkeep _ _ off_tidTerminator (Or.inr (Or.inl rfl))]
    exact h5
  have hdead : loadWord (free_fwd fn_free st1 ra1 tid1 (padd b sizeof_MallocInfo)).mem
      (padd b off_freeCnt) ≠ 0 := by rw [e3]; decide
  obtain ⟨k1, k2, k3, k4⟩ := free_dead _ b ra2 tid2 e1 hb56 hdead
  have hsecond := free_fwd_again fn_free
    (free_fwd fn_free st1 ra1 tid1 (padd b sizeof_MallocInfo)) ra2 tid2
    (padd b sizeof_MallocInfo) hpne (by rw [hps]; exact hdead)
  rw [hsecond]
  exact ⟨e1, e2, e3, e4, e5, k1, by rw [k3, e4], by rw [k4, e5], by rw [k2, e2]⟩

/-- Blocks placed by `demoHeap` lie above every live block. -/
theorem demoHeap_top (l : List (Nat × Nat)) :
    ∀ t, t ≤ l.foldl (fun t e => max t (e.1 + e.2)) t ∧
      ∀ e ∈ l, e.1 + e.2 ≤ l.foldl (fun t e => max t (e.1 + e.2)) t := by
  induction l with
  | nil => intro t; simp
  | cons x rest ih =>
    intro t
    obtain ⟨h1, h2⟩ := ih (max t (x.1 + x.2))
    simp only [List.foldl_cons, List.mem_cons]
    refine ⟨by omega, ?_⟩
    intro e he
    rcases he with he | he
    · subst he; omega
    · exact h2 e he

theorem demoHeap_sane : Sane demoHeap := by
  intro calls n
  unfold demoHeap
  simp only
  by_cases h : (liveBlocks calls).foldl (fun t e => max t (e.1 + e.2)) 4096 + n ≤ WORD
  · right
    rw [if_pos h]
    exact ⟨h, fun e he => Or.inr ((demoHeap_top (liveBlocks calls) 4096).2 e he)⟩
  · left
    rw [if_neg h]

/-- Claim C10, amended: in a single-threaded run of `malloc`/`free` pairs, in any
order, whose sizes do not wrap the block request, over a next layer that keeps
its contract (`Sane`), the process never aborts and the next layer sees, per
`malloc`, one allocation of header + size + trailer bytes and, per `free`, one
release of the block that the allocation of that pointer returned. -/
theorem paired_run_forwards_once (fn_malloc : List NextCall → Nat → Nat) (tid : Nat)
    (hsane : Sane fn_malloc) (ops : List Op) (hpaired : paired 0 [] ops = true)
    (hsizes : ∀ size ra, Op.malloc size ra ∈ ops →
      sizeof_MallocInfo + size + sizeof_MallocInfoBack < WORD)
    (st : State) (hlive : st.aborted = false) (hstart : st.calls = []) :
    (run fn_malloc tid st [] ops).1.aborted = false ∧
    ∃ blocks : List Nat,
      blocks.length = (run fn_malloc tid st [] ops).2.length ∧
      (run fn_malloc tid st [] ops).1.calls = expectedCalls blocks 0 ops := by
  have hinv : RunInv st [] [] [] := by
    constructor
    · exact hlive
    · rfl
    · intro k hk; simp at hk
    · intro k hk; simp at hk
    · intro j k hj; simp at hj
    · rw [hstart]; simp [liveBlocks]
    · rw [hstart]; simp [liveBlocks]
  obtain ⟨h1, ext, h2, h3⟩ := run_calls fn_malloc tid hsane ops st [] [] [] hinv hpaired hsizes
  refine ⟨h1, ext, by simpa using h2, ?_⟩
  rw [h3, hstart]
  simp

theorem linkFree_keeps (calls : List NextCall) (m : Mem) (b off : Nat)
    (hb : b ≠ 0) (hfit : b + sizeof_MallocInfo ≤ WORD)
    (hoff : off = off_raFree ∨ off = off_tidTerminator ∨ off = off_freeCnt) :
    loadWord (linkFree calls m b) (padd b off) = loadWord m (padd b off) := by
  unfold linkFree
  rw [if_neg hb]
  apply loadWord_storeWords_disjoint
  · simp only [List.length_cons, List.length_nil, sizeof_MallocInfo, WORD] at *; omega
  · rcases hoff with h | h | h <;> subst h <;>
      simp only [padd, off_raFree, off_tidTerminator, off_freeCnt, sizeof_MallocInfo, WORD] at * <;>
      omega
  · rcases hoff with h | h | h <;> subst h <;>
      simp only [padd, off_raFree, off_tidTerminator, off_freeCnt, sizeof_MallocInfo, WORD,
        List.length_cons, List.length_nil] at * <;>
      omega

/-- Claim C9 as stated fails. For the size `0xFFFFFFEC` the block request wraps
to 76 bytes, the trailer is written over the free counter and the first `free`
already aborts, forwarding nothing. For the null pointer of a failed `malloc`
no `free` aborts. Over a next-layer `free` that fills the released block with
zero bytes the second `free` does not abort and the block is forwarded twice;
with the fill byte `0xa5` the second `free` aborts but the globals hold the
fill, not what the first `free` recorded. And when a later `malloc` of a
wrapping size gets the 16 bytes right below the block of `p`, its header
overwrites the free counter of `p` with `MAGIC2` and the first `free (p)`
aborts. -/
theorem double_free_undetected_cases :
    ((malloc demoHeap demoState 0x400100 7 0xFFFFFFEC).2 = 4152 ∧
      (free_fwd linkFree (malloc demoHeap demoState 0x400100 7 0xFFFFFFEC).1
        0x400200 7 4152).aborted = true ∧
      (free_fwd linkFree (malloc demoHeap demoState 0x400100 7 0xFFFFFFEC).1
        0x400200 7 4152).calls = [NextCall.malloc 76 4096]) ∧
    ((malloc demoHeap demoState 0x400100 7 0xFFFFF000).2 = 0 ∧
      (free_fwd linkFree (free_fwd linkFree (malloc demoHeap demoState 0x400100 7 0xFFFFF000).1
        0x400200 7 0) 0x400300 7 0).aborted = false ∧
      (free_fwd linkFree (free_fwd linkFree (malloc demoHeap demoState 0x400100 7 0xFFFFF000).1
        0x400200 7 0) 0x400300 7 0).calls
        = [NextCall.malloc 0xFFFFF060 0, NextCall.free 0, NextCall.free 0]) ∧
    ((malloc demoHeap demoState 0x400100 7 64).2 = 4152 ∧
      (free_fwd (fillFree 0) (free_fwd (fillFree 0) (malloc demoHeap demoState 0x400100 7 64).1
        0x400200 7 4152) 0x400300 8 4152).aborted = false ∧
      (free_fwd (fillFree 0) (free_fwd (fillFree 0) (malloc demoHeap demoState 0x400100 7 64).1
        0x400200 7 4152) 0x400300 8 4152).calls
        = [NextCall.malloc 160 4096, NextCall.free 4096, NextCall.free 4096]) ∧
    ((free_fwd (fillFree 0xa5) (free_fwd (fillFree 0xa5)
        (malloc demoHeap demoState 0x400100 7 64).1
        0x400200 7 4152) 0x400300 8 4152).aborted = true ∧
      (free_fwd (fillFree 0xa5) (free_fwd (fillFree 0xa5)
        (malloc demoHeap demoState 0x400100 7 64).1
        0x400200 7 4152) 0x400300 8 4152).gRaFree = 0xa5a5a5a5 ∧
      (free_fwd (fillFree 0xa5) (free_fwd (fillFree 0xa5)
        (malloc demoHeap demoState 0x400100 7 64).1
        0x400200 7 4152) 0x400300 8 4152).gTidTerminator = 0xa5a5a5a5) ∧
    ((malloc downHeap demoState 0x400100 7 64).2 = 1048472 ∧
      (malloc downHeap (malloc downHeap demoState 0x400100 7 64).1 0x400150 7 0xFFFFFFB0).2
        = 1048456 ∧
      loadWord (malloc downHeap (malloc downHeap demoState 0x400100 7 64).1
        0x400150 7 0xFFFFFFB0).1.mem (1048472 - sizeof_MallocInfo + off_freeCnt) = MAGIC2 ∧
      (free_fwd linkFree (malloc downHeap (malloc downHeap demoState 0x400100 7 64).1
        0x400150 7 0xFFFFFFB0).1 0x400200 7 1048472).aborted = true ∧
      (free_fwd linkFree (malloc downHeap (malloc downHeap demoState 0x400100 7 64).1
        0x400150 7 0xFFFFFFB0).1 0x400200 7 1048472).calls
        = [NextCall.malloc 160 1048416, NextCall.malloc 16 1048400]) := by
  refine ⟨⟨by decide, by decide, by decide⟩, ⟨by decide, by decide, by decide⟩,
    ⟨by decide, by decide, by decide⟩, ⟨by decide, by decide, by decide⟩,
    ⟨by decide, by decide, by decide, by decide, by decide⟩⟩

theorem double_free_aborts_witness :
    (malloc demoHeap demoState 0x400100 7 64).2 = 4152 ∧
    (free_fwd linkFree (free_fwd linkFree (malloc demoHeap demoState 0x400100 7 64).1
      0x400200 7 4152) 0x400300 8 4152).aborted = true ∧
    (free_fwd linkFree (free_fwd linkFree (malloc demoHeap demoState 0x400100 7 64).1
      0x400200 7 4152) 0x400300 8 4152).gRaFree = 0x400200 ∧
    (free_fwd linkFree (free_fwd linkFree (malloc demoHeap demoState 0x400100 7 64).1
      0x400200 7 4152) 0x400300 8 4152).gTidTerminator = 7 ∧
    (free_fwd linkFree (free_fwd linkFree (malloc demoHeap demoState 0x400100 7 64).1
      0x400200 7 4152) 0x400300 8 4152).calls =
      (malloc demoHeap demoState 0x400100 7 64).1.calls ++ [NextCall.free 4096] ∧
    loadWord (free_fwd linkFree (malloc demoHeap demoState 0x400100 7 64).1
      0x400200 7 4152).mem 4096 ≠ MAGIC1 := by
  have h := double_free_aborts demoHeap linkFree demoState 0x400100 7 64 0x400200 7 0x400300 8
    rfl (by decide) (by decide) (by decide) (by decide) (by decide)
    (fun calls m off hoff => linkFree_keeps calls m _ off (by decide) (by decide) hoff)
  have hp : (malloc demoHeap demoState 0x400100 7 64).2 = 4152 := by decide
  have h2 := h.2.2.2.2 (malloc demoHeap demoState 0x400100 7 64).1 h.2.1 h.2.2.2.1
  rw [hp] at h2
  exact ⟨hp, h2.2.2.2.2.2.1, h2.2.2.2.2.2.2.1, h2.2.2.2.2.2.2.2.1, h2.2.2.2.2.2.2.2.2,
    by decide⟩

/-- Claim C10 as stated fails: the pair `p = malloc (0xFFFFFFEC); free (p)` asks
the next layer for 76 bytes, not for header + size + trailer, and aborts in
its `free`, so no release is seen. -/
theorem paired_run_wrapped_size_aborts :
    paired 0 [] [Op.malloc 0xFFFFFFEC 0x400100, Op.free 0 0x400200] = true ∧
    (run demoHeap 7 demoState []
      [Op.malloc 0xFFFFFFEC 0x400100, Op.free 0 0x400200]).1.aborted = true ∧
    (run demoHeap 7 demoState []
      [Op.malloc 0xFFFFFFEC 0x400100, Op.free 0 0x400200]).1.calls
      = [NextCall.malloc 76 4096] ∧
    sizeof_MallocInfo + 0xFFFFFFEC + sizeof_MallocInfoBack ≠ 76 := by
  refine ⟨by decide, by decide, by decide, by decide⟩

theorem paired_run_forwards_once_witness :
    paired 0 []
      [Op.malloc 64 0x400100, Op.malloc 8 0x400200, Op.free 0 0x400300,
       Op.malloc 100 0x400400, Op.free 2 0x400500, Op.free 1 0x400600] = true ∧
    (run demoHeap 7 demoState []
      [Op.malloc 64 0x400100, Op.malloc 8 0x400200, Op.free 0 0x400300,
       Op.malloc 100 0x400400, Op.free 2 0x400500, Op.free 1 0x400600]).1.aborted = false ∧
    ∃ blocks : List Nat,
      blocks.length = (run demoHeap 7 demoState []
        [Op.malloc 64 0x400100, Op.malloc 8 0x400200, Op.free 0 0x400300,
         Op.malloc 100 0x400400, Op.free 2 0x400500, Op.free 1 0x400600]).2.length ∧
      (run demoHeap 7 demoState []
        [Op.malloc 64 0x400100, Op.malloc 8 0x400200, Op.free 0 0x400300,
         Op.malloc 100 0x400400, Op.free 2 0x400500, Op.free 1 0x400600]).1.calls =
        expectedCalls blocks 0
          [Op.malloc 64 0x400100, Op.malloc 8 0x400200, Op.free 0 0x400300,
           Op.malloc 100 0x400400, Op.free 2 0x400500, Op.free 1 0x400600] :=
  ⟨by decide, paired_run_forwards_once demoHeap 7 demoHeap_sane
    [Op.malloc 64 0x400100, Op.malloc 8 0x400200, Op.free 0 0x400300,
     Op.malloc 100 0x400400, Op.free 2 0x400500, Op.free 1 0x400600]
    (by decide)
    (fun size ra h => by
      simp only [List.mem_cons, Op.malloc.injEq, List.mem_singleton, reduceCtorEq, false_or,
        or_false, List.not_mem_nil] at h
      simp only [sizeof_MallocInfo, sizeof_MallocInfoBack, WORD]
      omega)
    demoState rfl rfl⟩

theorem mallocInfo_words (ra tid size i : Nat) (hra : ra < WORD) (htid : tid < WORD)
    (hsize : size < WORD) (hi : i < 14) :
    (mallocInfo ra tid size).getD i 0 % WORD = (mallocInfo ra tid size).getD i 0 := by
  apply Nat.mod_eq_of_lt
  have h : ∀ x ∈ mallocInfo ra tid size, x < WORD := by
    intro x hx
    simp only [mallocInfo, List.mem_cons, List.mem_singleton, List.not_mem_nil, or_false] at hx
    simp only [MAGIC1, MAGIC2, WORD] at *
    omega
  rw [List.getD_eq_getElem _ _ (by simpa [mallocInfo] using hi)]
  exact h _ (List.getElem_mem _)

theorem mallocInfoBack_words (tid size i : Nat) (htid : tid < WORD)
    (hsize : size < WORD) (hi : i < 10) :
    (mallocInfoBack tid size).getD i 0 % WORD = (mallocInfoBack tid size).getD i 0 := by
  apply Nat.mod_eq_of_lt
  have h : ∀ x ∈ mallocInfoBack tid size, x < WORD := by
    intro x hx
    simp only [mallocInfoBack, List.mem_cons, List.mem_singleton, List.not_mem_nil, or_false] at hx
    simp only [MAGIC3, MAGIC4, WORD] at *
    omega
  rw [List.getD_eq_getElem _ _ (by simpa [mallocInfoBack] using hi)]
  exact h _ (List.getElem_mem _)

/-- After `malloc` of a size whose block request does not wrap, in a block that
lies in the address space, the trailer word at offset `4 * i` behind the
payload is word `i` of the initial `MallocInfoBack`. -/
theorem malloc_trailer_word (m : Mem) (b ra tid size i : Nat)
    (hsize : sizeof_MallocInfo + size + sizeof_MallocInfoBack < WORD)
    (hfit : b + (sizeof_MallocInfo + size + sizeof_MallocInfoBack) ≤ WORD) (hi : i < 10) :
    loadWord (storeWords (storeWords m b (mallocInfo ra tid size))
        (padd (padd b sizeof_MallocInfo) size) (mallocInfoBack tid size))
        (b + sizeof_MallocInfo + size + 4 * i)
      = (mallocInfoBack tid size).getD i 0 % WORD := by
  have ht : padd (padd b sizeof_MallocInfo) size = b + sizeof_MallocInfo + size := by
    simp only [padd, WORD, sizeof_MallocInfo, sizeof_MallocInfoBack] at *
    omega
  have hp : b + sizeof_MallocInfo + size + 4 * i
      = padd (b + sizeof_MallocInfo + size) (4 * i) := by
    simp only [padd, WORD, sizeof_MallocInfo, sizeof_MallocInfoBack] at *
    omega
  rw [ht, hp]
  exact loadWord_storeWords_field _ _ _ i
    (by simp only [WORD, sizeof_MallocInfo, sizeof_MallocInfoBack] at *; omega)
    (by simpa [mallocInfoBack] using hi) (by simp [mallocInfoBack, WORD])

/-- A successful `malloc` whose request does not wrap changes no byte outside
its header and its trailer. -/
theorem malloc_frame_byte (m : Mem) (b ra tid size x : Nat)
    (hsize : sizeof_MallocInfo + size + sizeof_MallocInfoBack < WORD)
    (hfit : b + (sizeof_MallocInfo + size + sizeof_MallocInfoBack) ≤ WORD)
    (hx : x < WORD)
    (hout : x < b ∨ (b + sizeof_MallocInfo ≤ x ∧ x < b + sizeof_MallocInfo + size) ∨
      b + (sizeof_MallocInfo + size + sizeof_MallocInfoBack) ≤ x) :
    storeWords (storeWords m b (mallocInfo ra tid size))
        (padd (padd b sizeof_MallocInfo) size) (mallocInfoBack tid size) x = m x := by
  have ht : padd (padd b sizeof_MallocInfo) size = b + sizeof_MallocInfo + size := by
    simp only [padd, WORD, sizeof_MallocInfo, sizeof_MallocInfoBack] at *
    omega
  rw [ht, storeWords_outside, storeWords_outside]
  · simp only [mallocInfo, List.length_cons, List.length_nil, WORD, sizeof_MallocInfo,
      sizeof_MallocInfoBack] at *
    omega
  · simp only [mallocInfoBack, List.length_cons, List.length_nil, WORD, sizeof_MallocInfo,
      sizeof_MallocInfoBack] at *
    omega

theorem storeWord_outside (m : Mem) (a v x : Nat)
    (h : 4 ≤ (x + (WORD - a % WORD)) % WORD) : storeWord m a v x = m x := by
  unfold storeWord
  exact storeWords_outside m a [v] x (by simpa using h)

/-- The first `free` of a block at `b` changes no byte outside the free
counter and the two free fields of its header. -/
theorem free_frame_byte (st : State) (b ra tid x : Nat)
    (hlive : st.aborted = false) (hb : b + sizeof_MallocInfo < WORD)
    (hcnt : loadWord st.mem (padd b off_freeCnt) = 0) (hx : x < WORD)
    (hout : x < b + off_raFree ∨ (b + off_tidTerminator + 4 ≤ x ∧ x < b + off_freeCnt) ∨
      b + off_freeCnt + 4 ≤ x) :
    (free st ra tid (padd b sizeof_MallocInfo)).mem x = st.mem x := by
  have hbW : b < WORD := by omega
  have hp : padd b sizeof_MallocInfo ≠ 0 := by
    unfold padd; simp only [sizeof_MallocInfo, WORD] at *; omega
  have hmi : psub (padd b sizeof_MallocInfo) sizeof_MallocInfo = b := psub_padd b _ hbW
  have h1 := free_first st ra tid _ hlive hp (by rw [hmi]; exact hcnt)
  rw [hmi] at h1
  rw [h1]
  dsimp only
  rw [storeWord_outside, storeWord_outside, storeWord_outside]
  all_goals
    simp only [padd, WORD, off_raFree, off_tidTerminator, off_freeCnt, sizeof_MallocInfo] at *
    omega

/-- The first `free` of a block at `b` keeps every header word other than the
free counter and the two free fields. -/
theorem free_header_word (st : State) (b ra tid i : Nat)
    (hlive : st.aborted = false) (hb : b + sizeof_MallocInfo < WORD)
    (hcnt : loadWord st.mem (padd b off_freeCnt) = 0)
    (hi : i < 14) (h6 : i ≠ 6) (h7 : i ≠ 7) (h9 : i ≠ 9) :
    loadWord (free st ra tid (padd b sizeof_MallocInfo)).mem (padd b (4 * i))
      = loadWord st.mem (padd b (4 * i)) := by
  have hbW : b < WORD := by omega
  have hp : padd b sizeof_MallocInfo ≠ 0 := by
    unfold padd; simp only [sizeof_MallocInfo, WORD] at *; omega
  have hmi : psub (padd b sizeof_MallocInfo) sizeof_MallocInfo = b := psub_padd b _ hbW
  have h1 := free_first st ra tid _ hlive hp (by rw [hmi]; exact hcnt)
  rw [hmi] at h1
  rw [h1]
  dsimp only
  rw [loadWord_storeWord_field _ b _ _ _ (by simp [off_tidTerminator, WORD])
      (by simp only [WORD]; omega) (by simp only [off_tidTerminator]; omega),
    loadWord_storeWord_field _ b _ _ _ (by simp [off_raFree, WORD])
      (by simp only [WORD]; omega) (by simp only [off_raFree]; omega),
    loadWord_storeWord_field _ b _ _ _ (by simp [off_freeCnt, WORD])
      (by simp only [WORD]; omega) (by simp only [off_freeCnt]; omega)]

theorem memcpy_outside (m : Mem) (dst src n x : Nat)
    (h : n ≤ (x + (WORD - dst % WORD)) % WORD) : memcpy m dst src n x = m x := by
  unfold memcpy
  simp only
  rw [if_neg (by omega)]

theorem memcpy_inside (m : Mem) (dst src n d : Nat) (hd : d < n)
    (hn : n ≤ WORD) : memcpy m dst src n (padd dst d) = m (padd src d) := by
  unfold memcpy
  have hoff : (padd dst d + (WORD - dst % WORD)) % WORD = d := by
    simp only [padd, WORD] at *
    omega
  simp only [hoff]
  rw [if_pos hd]

/-- A word that does not overlap the copied range is unchanged (no wrap). -/
theorem loadWord_memcpy_disjoint (m : Mem) (dst src n x : Nat)
    (hdst : dst + n ≤ WORD) (hx : x + 4 ≤ WORD) (h : dst + n ≤ x ∨ x + 4 ≤ dst) :
    loadWord (memcpy m dst src n) x = loadWord m x := by
  unfold loadWord
  rw [memcpy_outside, memcpy_outside, memcpy_outside, memcpy_outside]
  all_goals
    simp only [padd, WORD] at *
    omega

/-- Layout after a successful `malloc` whose request does not wrap, in a block
that lies in the address space: the returned pointer, the call made, the words
of the header and of the trailer, and the bytes left as they were. -/
theorem malloc_layout (fn_malloc : List NextCall → Nat → Nat) (st : State)
    (ra tid size : Nat) (hlive : st.aborted = false)
    (hsize : sizeof_MallocInfo + size + sizeof_MallocInfoBack < WORD)
    (hb : fn_malloc st.calls (sizeof_MallocInfo + size + sizeof_MallocInfoBack) ≠ 0)
    (hfit : fn_malloc st.calls (sizeof_MallocInfo + size + sizeof_MallocInfoBack)
        + (sizeof_MallocInfo + size + sizeof_MallocInfoBack) ≤ WORD)
    (hra : ra < WORD) (htid : tid < WORD) :
    (malloc fn_malloc st ra tid size).2 =
      fn_malloc st.calls (sizeof_MallocInfo + size + sizeof_MallocInfoBack)
        + sizeof_MallocInfo ∧
    (∀ i, i < 14 →
      loadWord (malloc fn_malloc st ra tid size).1.mem
        (fn_malloc st.calls (sizeof_MallocInfo + size + sizeof_MallocInfoBack) + 4 * i)
      = (mallocInfo ra tid size).getD i 0) ∧
    (∀ i, i < 10 →
      loadWord (malloc fn_malloc st ra tid size).1.mem
        (fn_malloc st.calls (sizeof_MallocInfo + size + sizeof_MallocInfoBack)
          + sizeof_MallocInfo + size + 4 * i)
      = (mallocInfoBack tid size).getD i 0) ∧
    (∀ x, x < WORD →
      (x < fn_malloc st.calls (sizeof_MallocInfo + size + sizeof_MallocInfoBack) ∨
        (fn_malloc st.calls (sizeof_MallocInfo + size + sizeof_MallocInfoBack)
            + sizeof_MallocInfo ≤ x ∧
          x < fn_malloc st.calls (sizeof_MallocInfo + size + sizeof_MallocInfoBack)
            + sizeof_MallocInfo + size) ∨
        fn_malloc st.calls (sizeof_MallocInfo + size + sizeof_MallocInfoBack)
          + (sizeof_MallocInfo + size + sizeof_MallocInfoBack) ≤ x) →
      (malloc fn_malloc st ra tid size).1.mem x = st.mem x) := by
  have hn : (sizeof_MallocInfo + size + sizeof_MallocInfoBack) % WORD =
      sizeof_MallocInfo + size + sizeof_MallocInfoBack := Nat.mod_eq_of_lt hsize
  have hszW : size < WORD := by omega
  have hpadd : padd (fn_malloc st.calls (sizeof_MallocInfo + size + sizeof_MallocInfoBack))
      sizeof_MallocInfo
      = fn_malloc st.calls (sizeof_MallocInfo + size + sizeof_MallocInfoBack)
        + sizeof_MallocInfo := by
    simp only [padd, WORD, sizeof_MallocInfo, sizeof_MallocInfoBack] at *
    omega
  rw [malloc_block fn_malloc st ra tid size hlive (by rw [hn]; exact hb), hn]
  dsimp only
  refine ⟨hpadd, ?_, ?_, ?_⟩
  · intro i hi
    have hw := malloc_header_word st.mem _ ra tid size i hsize hfit hi
    rw [mallocInfo_words ra tid size i hra htid hszW hi] at hw
    have key : padd (fn_malloc st.calls (sizeof_MallocInfo + size + sizeof_MallocInfoBack))
        (4 * i)
        = fn_malloc st.calls (sizeof_MallocInfo + size + sizeof_MallocInfoBack) + 4 * i := by
      simp only [padd, WORD, sizeof_MallocInfo, sizeof_MallocInfoBack] at *
      omega
    rw [key] at hw
    exact hw
  · intro i hi
    have hw := malloc_trailer_word st.mem _ ra tid size i hsize hfit hi
    rw [mallocInfoBack_words tid size i htid hszW hi] at hw
    exact hw
  · intro x hx hout
    exact malloc_frame_byte st.mem _ ra tid size x hsize hfit hx hout

theorem realloc_unfold (fn_malloc : List NextCall → Nat → Nat) (st : State)
    (raNull raFreeZero raNew raFreeOld tid p m : Nat)
    (hlive : st.aborted = false) (hp : p ≠ 0) (hm : 0 < m)
    (hq : (malloc fn_malloc st raNew tid m).2 ≠ 0) :
    realloc fn_malloc st raNull raFreeZero raNew raFreeOld tid p m =
      (free { (malloc fn_malloc st raNew tid m).1 with
          mem := memcpy (malloc fn_malloc st raNew tid m).1.mem
            (malloc fn_malloc st raNew tid m).2 p
            (min (loadWord st.mem (padd (psub p sizeof_MallocInfo) off_size)) m) }
        raFreeOld tid p,
       (malloc fn_malloc st raNew tid m).2) := by
  unfold realloc
  simp only [hlive, Bool.false_eq_true, if_false]
  rw [if_neg hp, if_neg (by omega), if_pos hq]

/-- A `realloc` to a non-zero size of the payload of a live block at `b` holding
`old` bytes, when the new request does not wrap and the next layer returns a
block `nb` inside the address space that does not overlap the old one. -/
theorem realloc_moves_block (fn_malloc : List NextCall → Nat → Nat) (st : State)
    (raNull raFreeZero raNew raFreeOld tid b old m nb : Nat)
    (hlive : st.aborted = false)
    (hold : sizeof_MallocInfo + old + sizeof_MallocInfoBack < WORD)
    (hbfit : b + (sizeof_MallocInfo + old + sizeof_MallocInfoBack) ≤ WORD)
    (hsz : loadWord st.mem (padd b off_size) = old)
    (hcnt : loadWord st.mem (padd b off_freeCnt) = 0)
    (hm0 : 0 < m) (hm : sizeof_MallocInfo + m + sizeof_MallocInfoBack < WORD)
    (hnb : fn_malloc st.calls (sizeof_MallocInfo + m + sizeof_MallocInfoBack) = nb)
    (hnb0 : nb ≠ 0)
    (hnbfit : nb + (sizeof_MallocInfo + m + sizeof_MallocInfoBack) ≤ WORD)
    (hdisj : nb + (sizeof_MallocInfo + m + sizeof_MallocInfoBack) ≤ b ∨
      b + (sizeof_MallocInfo + old + sizeof_MallocInfoBack) ≤ nb)
    (hra : raNew < WORD) (htid : tid < WORD)
    (r : State × Nat)
    (hr : realloc fn_malloc st raNull raFreeZero raNew raFreeOld tid (b + sizeof_MallocInfo) m
      = r) :
    r.2 = nb + sizeof_MallocInfo ∧
    r.1.aborted = false ∧
    r.1.calls = st.calls ++
      [NextCall.malloc (sizeof_MallocInfo + m + sizeof_MallocInfoBack) nb, NextCall.free b] ∧
    (∀ i, i < 14 → loadWord r.1.mem (nb + 4 * i) = (mallocInfo raNew tid m).getD i 0) ∧
    (∀ i, i < 10 →
      loadWord r.1.mem (nb + sizeof_MallocInfo + m + 4 * i) = (mallocInfoBack tid m).getD i 0) ∧
    (∀ d, d < min old m →
      r.1.mem (nb + sizeof_MallocInfo + d) = st.mem (b + sizeof_MallocInfo + d)) ∧
    (∀ d, min old m ≤ d → d < m →
      r.1.mem (nb + sizeof_MallocInfo + d) = st.mem (nb + sizeof_MallocInfo + d)) ∧
    loadWord r.1.mem (b + off_freeCnt) = 1 ∧
    (∀ x, x < WORD →
      (x < nb ∨ nb + (sizeof_MallocInfo + m + sizeof_MallocInfoBack) ≤ x) →
      (x < b ∨ b + sizeof_MallocInfo ≤ x) → r.1.mem x = st.mem x) := by
  subst hnb
  have hn : (sizeof_MallocInfo + m + sizeof_MallocInfoBack) % WORD =
      sizeof_MallocInfo + m + sizeof_MallocInfoBack := Nat.mod_eq_of_lt hm
  -- the new block
  obtain ⟨ha, hc, _, _⟩ := malloc_counter_zero fn_malloc st raNew tid m hlive hm hnb0 hnbfit
  obtain ⟨hq, hhdr, htrl, hfr⟩ := malloc_layout fn_malloc st raNew tid m hlive hm hnb0 hnbfit
    hra htid
  have hwfr := malloc_frame fn_malloc st raNew tid m hlive hm hnb0 hnbfit
  have hb56 : b + sizeof_MallocInfo < WORD := by
    simp only [sizeof_MallocInfo, sizeof_MallocInfoBack] at *; omega
  have hp0 : b + sizeof_MallocInfo ≠ 0 := by simp only [sizeof_MallocInfo]; omega
  have hpadd : padd b sizeof_MallocInfo = b + sizeof_MallocInfo := by
    simp only [padd, WORD] at *
    omega
  have hmi : psub (b + sizeof_MallocInfo) sizeof_MallocInfo = b := by
    rw [← hpadd]; exact psub_padd b _ (by omega)
  have hoff : ∀ k, k < sizeof_MallocInfo → padd b k = b + k := by
    intro k hk
    simp only [padd, WORD, sizeof_MallocInfo] at *
    omega
  rw [realloc_unfold fn_malloc st raNull raFreeZero raNew raFreeOld tid _ m hlive hp0 hm0
    (by rw [hq]; simp only [sizeof_MallocInfo]; omega)] at hr
  rw [hmi, hsz, hq] at hr
  subst hr
  dsimp only
  generalize fn_malloc st.calls (sizeof_MallocInfo + m + sizeof_MallocInfoBack) = nb at *
  generalize malloc fn_malloc st raNew tid m = a at *
  have hk1 : min old m ≤ old := Nat.min_le_left _ _
  have hk2 : min old m ≤ m := Nat.min_le_right _ _
  generalize min old m = k at *
  -- the state in which the old payload is freed
  have hcnt3 : loadWord (memcpy a.1.mem (nb + sizeof_MallocInfo) (b + sizeof_MallocInfo) k)
      (padd b off_freeCnt) = 0 := by
    rw [hoff off_freeCnt (by decide)] at hcnt ⊢
    rw [loadWord_memcpy_disjoint _ _ _ _ _
        (by simp only [WORD, sizeof_MallocInfo, sizeof_MallocInfoBack] at *; omega)
        (by simp only [WORD, sizeof_MallocInfo, sizeof_MallocInfoBack, off_freeCnt] at *; omega)
        (by simp only [WORD, sizeof_MallocInfo, sizeof_MallocInfoBack, off_freeCnt] at *; omega),
      hwfr _
        (by simp only [WORD, sizeof_MallocInfo, sizeof_MallocInfoBack, off_freeCnt] at *; omega)
        (by simp only [WORD, sizeof_MallocInfo, sizeof_MallocInfoBack, off_freeCnt] at *; omega)]
    exact hcnt
  have hfl := free_live
    { a.1 with mem := memcpy a.1.mem (nb + sizeof_MallocInfo) (b + sizeof_MallocInfo) k }
    b raFreeOld tid ha hb56 hcnt3
  have hff := free_frame
    { a.1 with mem := memcpy a.1.mem (nb + sizeof_MallocInfo) (b + sizeof_MallocInfo) k }
    b raFreeOld tid ha hb56 hcnt3
  have hfb := free_frame_byte
    { a.1 with mem := memcpy a.1.mem (nb + sizeof_MallocInfo) (b + sizeof_MallocInfo) k }
    b raFreeOld tid
  rw [hpadd] at hfl hff hfb
  dsimp only at hfl hff hfb
  obtain ⟨h1, h2, h3, _, _⟩ := hfl
  refine ⟨rfl, h1, ?_, ?_, ?_, ?_, ?_, ?_, ?_⟩
  · rw [h2, hc]; simp
  · intro i hi
    rw [hff _ (by simp only [WORD, sizeof_MallocInfo, sizeof_MallocInfoBack] at *; omega)
        (by simp only [WORD, sizeof_MallocInfo, sizeof_MallocInfoBack] at *; omega),
      loadWord_memcpy_disjoint _ _ _ _ _
        (by simp only [WORD, sizeof_MallocInfo, sizeof_MallocInfoBack] at *; omega)
        (by simp only [WORD, sizeof_MallocInfo, sizeof_MallocInfoBack] at *; omega)
        (by simp only [WORD, sizeof_MallocInfo, sizeof_MallocInfoBack] at *; omega)]
    exact hhdr i hi
  · intro i hi
    rw [hff _ (by simp only [WORD, sizeof_MallocInfo, sizeof_MallocInfoBack] at *; omega)
        (by simp only [WORD, sizeof_MallocInfo, sizeof_MallocInfoBack] at *; omega),
      loadWord_memcpy_disjoint _ _ _ _ _
        (by simp only [WORD, sizeof_MallocInfo, sizeof_MallocInfoBack] at *; omega)
        (by simp only [WORD, sizeof_MallocInfo, sizeof_MallocInfoBack] at *; omega)
        (by simp only [WORD, sizeof_MallocInfo, sizeof_MallocInfoBack] at *; omega)]
    exact htrl i hi
  · intro d hd
    rw [hfb _ ha hb56 hcnt3
        (by simp only [WORD, sizeof_MallocInfo, sizeof_MallocInfoBack] at *; omega)
        (by simp only [WORD, sizeof_MallocInfo, sizeof_MallocInfoBack, off_raFree,
              off_tidTerminator, off_freeCnt] at *; omega)]
    have e1 : nb + sizeof_MallocInfo + d = padd (nb + sizeof_MallocInfo) d := by
      simp only [padd, WORD, sizeof_MallocInfo, sizeof_MallocInfoBack] at *; omega
    have e2 : padd (b + sizeof_MallocInfo) d = b + sizeof_MallocInfo + d := by
      simp only [padd, WORD, sizeof_MallocInfo, sizeof_MallocInfoBack] at *; omega
    rw [e1, memcpy_inside _ _ _ _ d hd
        (by simp only [WORD, sizeof_MallocInfo, sizeof_MallocInfoBack] at *; omega), e2]
    exact hfr _ (by simp only [WORD, sizeof_MallocInfo, sizeof_MallocInfoBack] at *; omega)
      (by simp only [WORD, sizeof_MallocInfo, sizeof_MallocInfoBack] at *; omega)
  · intro d hd1 hd2
    rw [hfb _ ha hb56 hcnt3
        (by simp only [WORD, sizeof_MallocInfo, sizeof_MallocInfoBack] at *; omega)
        (by simp only [WORD, sizeof_MallocInfo, sizeof_MallocInfoBack, off_raFree,
              off_tidTerminator, off_freeCnt] at *; omega),
      memcpy_outside _ _ _ _ _
        (by simp only [WORD, sizeof_MallocInfo, sizeof_MallocInfoBack] at *; omega)]
    exact hfr _ (by simp only [WORD, sizeof_MallocInfo, sizeof_MallocInfoBack] at *; omega)
      (Or.inr (Or.inl ⟨by omega, by omega⟩))
  · rw [hoff off_freeCnt (by decide)] at h3
    exact h3
  · intro x hx hx1 hx2
    rw [hfb _ ha hb56 hcnt3 hx
        (by simp only [WORD, sizeof_MallocInfo, sizeof_MallocInfoBack, off_raFree,
              off_tidTerminator, off_freeCnt] at *; omega),
      memcpy_outside _ _ _ _ _
        (by simp only [WORD, sizeof_MallocInfo, sizeof_MallocInfoBack] at *; omega)]
    exact hfr _ hx (by omega)

/-- After a successful `malloc` whose request does not wrap, the header records
the requested size. -/
theorem malloc_size_word (fn_malloc : List NextCall → Nat → Nat) (st : State)
    (ra tid size : Nat) (hlive : st.aborted = false)
    (hsize : sizeof_MallocInfo + size + sizeof_MallocInfoBack < WORD)
    (hb : fn_malloc st.calls (sizeof_MallocInfo + size + sizeof_MallocInfoBack) ≠ 0)
    (hfit : fn_malloc st.calls (sizeof_MallocInfo + size + sizeof_MallocInfoBack)
        + (sizeof_MallocInfo + size + sizeof_MallocInfoBack) ≤ WORD) :
    loadWord (malloc fn_malloc st ra tid size).1.mem
      (padd (fn_malloc st.calls (sizeof_MallocInfo + size + sizeof_MallocInfoBack)) off_size)
      = size := by
  have hn : (sizeof_MallocInfo + size + sizeof_MallocInfoBack) % WORD =
      sizeof_MallocInfo + size + sizeof_MallocInfoBack := Nat.mod_eq_of_lt hsize
  rw [malloc_block fn_malloc st ra tid size hlive (by rw [hn]; exact hb), hn]
  have hw := malloc_header_word st.mem _ ra tid size 8 hsize hfit (by omega)
  have hs : size % WORD = size := Nat.mod_eq_of_lt (by omega)
  simpa [mallocInfo, off_size, hs] using hw

/-- The result of `realloc` to a non-zero size when the next layer fails. -/
theorem realloc_null (fn_malloc : List NextCall → Nat → Nat) (st : State)
    (raNull raFreeZero raNew raFreeOld tid p m : Nat)
    (hlive : st.aborted = false) (hp : p ≠ 0) (hm : 0 < m)
    (hfail : fn_malloc st.calls ((sizeof_MallocInfo + m + sizeof_MallocInfoBack) % WORD) = 0) :
    realloc fn_malloc st raNull raFreeZero raNew raFreeOld tid p m =
      ({ st with calls := st.calls ++
          [NextCall.malloc ((sizeof_MallocInfo + m + sizeof_MallocInfoBack) % WORD) 0] }, 0) := by
  unfold realloc
  rw [malloc_null fn_malloc st raNew tid m hlive hfail]
  simp only [hlive, Bool.false_eq_true, if_false]
  rw [if_neg hp, if_neg (by omega)]
  simp

/-- Claim C12: when the next layer returns null for the request of `malloc (size)`,
`malloc` returns null and leaves memory, the two post-mortem globals and the
abort flag as they were: no header, no trailer, nothing is written. -/
theorem malloc_failure_propagates (fn_malloc : List NextCall → Nat → Nat) (st : State)
    (ra tid size : Nat)
    (hnull : fn_malloc st.calls ((sizeof_MallocInfo + size + sizeof_MallocInfoBack) % WORD) = 0) :
    (malloc fn_malloc st ra tid size).2 = 0 ∧
    (malloc fn_malloc st ra tid size).1.mem = st.mem ∧
    (malloc fn_malloc st ra tid size).1.gRaFree = st.gRaFree ∧
    (malloc fn_malloc st ra tid size).1.gTidTerminator = st.gTidTerminator ∧
    (malloc fn_malloc st ra tid size).1.aborted = st.aborted := by
  unfold malloc
  by_cases ha : st.aborted = true
  · simp [ha]
  · simp [ha, hnull]

/-- Claim C13: `free (NULL)` on a running process only forwards the null pointer
once to the next-layer `free` (memory, globals and abort flag are unchanged);
`realloc (NULL, n)` is the result and the state of its call `malloc (n)`; and
for a non-null `p`, `realloc (p, 0)` returns null with the state of its call
`free (p)`. -/
theorem null_and_zero_conventions (fn_malloc : List NextCall → Nat → Nat) (st : State)
    (ra raNull raFreeZero raNew raFreeOld tid n p : Nat) :
    (st.aborted = false →
      free st ra tid 0 = { st with calls := st.calls ++ [NextCall.free 0] }) ∧
    realloc fn_malloc st raNull raFreeZero raNew raFreeOld tid 0 n
      = malloc fn_malloc st raNull tid n ∧
    (p ≠ 0 →
      realloc fn_malloc st raNull raFreeZero raNew raFreeOld tid p 0
        = (free st raFreeZero tid p, 0)) := by
  refine ⟨?_, ?_, ?_⟩
  · intro h
    unfold free
    simp [h]
  · unfold realloc malloc
    by_cases ha : st.aborted = true
    · simp [ha]
    · simp [ha]
  · intro hp
    unfold realloc free
    by_cases ha : st.aborted = true
    · simp [ha]
    · simp [ha, hp]

/-- Claim C20: the size `malloc` asks the next layer for is header + size +
trailer modulo `2 ^ 32`; it equals the true sum, and is at least header +
trailer, exactly when `size ≤ 2 ^ 32 - 1 - header - trailer`; for a larger
size it is the sum minus `2 ^ 32`, less than the 96 bytes of header and
trailer that `malloc` stores when the request succeeds. -/
theorem request_size_wraps (fn_malloc : List NextCall → Nat → Nat) (st : State)
    (ra tid size : Nat) (hlive : st.aborted = false) (hword : size < WORD) :
    (malloc fn_malloc st ra tid size).1.calls = st.calls ++
      [NextCall.malloc ((sizeof_MallocInfo + size + sizeof_MallocInfoBack) % WORD)
        (fn_malloc st.calls ((sizeof_MallocInfo + size + sizeof_MallocInfoBack) % WORD))] ∧
    ((sizeof_MallocInfo + size + sizeof_MallocInfoBack) % WORD
        = sizeof_MallocInfo + size + sizeof_MallocInfoBack ↔
      size ≤ WORD - 1 - sizeof_MallocInfo - sizeof_MallocInfoBack) ∧
    (sizeof_MallocInfo + sizeof_MallocInfoBack
        ≤ (sizeof_MallocInfo + size + sizeof_MallocInfoBack) % WORD ↔
      size ≤ WORD - 1 - sizeof_MallocInfo - sizeof_MallocInfoBack) ∧
    (WORD - 1 - sizeof_MallocInfo - sizeof_MallocInfoBack < size →
      (sizeof_MallocInfo + size + sizeof_MallocInfoBack) % WORD
          = sizeof_MallocInfo + size + sizeof_MallocInfoBack - WORD ∧
      (sizeof_MallocInfo + size + sizeof_MallocInfoBack) % WORD
          < 4 * (mallocInfo ra tid size).length + 4 * (mallocInfoBack tid size).length ∧
      (fn_malloc st.calls ((sizeof_MallocInfo + size + sizeof_MallocInfoBack) % WORD) ≠ 0 →
        (malloc fn_malloc st ra tid size).1.mem =
          storeWords
            (storeWords st.mem
              (fn_malloc st.calls ((sizeof_MallocInfo + size + sizeof_MallocInfoBack) % WORD))
              (mallocInfo ra tid size))
            (padd (padd (fn_malloc st.calls
              ((sizeof_MallocInfo + size + sizeof_MallocInfoBack) % WORD)) sizeof_MallocInfo) size)
            (mallocInfoBack tid size))) := by
  refine ⟨?_, ?_, ?_, ?_⟩
  · by_cases hb : fn_malloc st.calls ((sizeof_MallocInfo + size + sizeof_MallocInfoBack) % WORD) = 0
    · rw [malloc_null fn_malloc st ra tid size hlive hb, hb]
    · rw [malloc_block fn_malloc st ra tid size hlive hb]
  · simp only [sizeof_MallocInfo, sizeof_MallocInfoBack, WORD] at *
    omega
  · simp only [sizeof_MallocInfo, sizeof_MallocInfoBack, WORD] at *
    omega
  · intro hbig
    refine ⟨?_, ?_, ?_⟩
    · simp only [sizeof_MallocInfo, sizeof_MallocInfoBack, WORD] at *
      omega
    · simp only [sizeof_MallocInfo, sizeof_MallocInfoBack, WORD, mallocInfo, mallocInfoBack,
        List.length_cons, List.length_nil] at *
      omega
    · intro hb
      rw [malloc_block fn_malloc st ra tid size hlive hb]

/-- Claim C15: for a live pointer `p` (non-null, free counter zero) and `m > 0`
for which the next layer fails, `realloc (p, m)` returns null and changes
nothing but the call log, to which it adds the failed allocation and no
release; the free counter is still zero and a following `free (p)` does not
abort and forwards the block. -/
theorem realloc_failure_keeps_block (fn_malloc : List NextCall → Nat → Nat) (st : State)
    (raNull raFreeZero raNew raFreeOld tid p m ra1 tid1 : Nat)
    (hlive : st.aborted = false) (hp : p ≠ 0)
    (hcnt : loadWord st.mem (padd (psub p sizeof_MallocInfo) off_freeCnt) = 0)
    (hm : 0 < m)
    (hfail : fn_malloc st.calls ((sizeof_MallocInfo + m + sizeof_MallocInfoBack) % WORD) = 0) :
    realloc fn_malloc st raNull raFreeZero raNew raFreeOld tid p m =
      ({ st with calls := st.calls ++
          [NextCall.malloc ((sizeof_MallocInfo + m + sizeof_MallocInfoBack) % WORD) 0] }, 0) ∧
    (realloc fn_malloc st raNull raFreeZero raNew raFreeOld tid p m).1.mem = st.mem ∧
    loadWord (realloc fn_malloc st raNull raFreeZero raNew raFreeOld tid p m).1.mem
      (padd (psub p sizeof_MallocInfo) off_freeCnt) = 0 ∧
    (∀ b, NextCall.free b ∈
        (realloc fn_malloc st raNull raFreeZero raNew raFreeOld tid p m).1.calls →
      NextCall.free b ∈ st.calls) ∧
    (free (realloc fn_malloc st raNull raFreeZero raNew raFreeOld tid p m).1 ra1 tid1 p).aborted
      = false ∧
    (free (realloc fn_malloc st raNull raFreeZero raNew raFreeOld tid p m).1 ra1 tid1 p).calls
      = st.calls ++
        [NextCall.malloc ((sizeof_MallocInfo + m + sizeof_MallocInfoBack) % WORD) 0,
         NextCall.free (psub p sizeof_MallocInfo)] := by
  have hr : realloc fn_malloc st raNull raFreeZero raNew raFreeOld tid p m =
      ({ st with calls := st.calls ++
          [NextCall.malloc ((sizeof_MallocInfo + m + sizeof_MallocInfoBack) % WORD) 0] }, 0) := by
    unfold realloc
    rw [malloc_null fn_malloc st raNew tid m hlive hfail]
    simp only [hlive, Bool.false_eq_true, if_false]
    rw [if_neg hp, if_neg (by omega)]
    simp
  rw [hr]
  refine ⟨rfl, rfl, hcnt, ?_, ?_, ?_⟩
  · intro b hb
    simp only [List.mem_append, List.mem_singleton] at hb
    rcases hb with hb | hb
    · exact hb
    · cases hb
  · have h := free_first { st with calls := st.calls ++
        [NextCall.malloc ((sizeof_MallocInfo + m + sizeof_MallocInfoBack) % WORD) 0] }
      ra1 tid1 p hlive hp hcnt
    dsimp only at h ⊢
    rw [h]
    exact hlive
  · have h := free_first { st with calls := st.calls ++
        [NextCall.malloc ((sizeof_MallocInfo + m + sizeof_MallocInfoBack) % WORD) 0] }
      ra1 tid1 p hlive hp hcnt
    dsimp only at h ⊢
    rw [h]
    simp

/-- Claim C18, amended: for a non-null `p` returned by `malloc` for a size whose
block request does not wrap, in a block inside the address space, the first
`free (p)` does not abort, changes the free counter from 0 to 1, records its
return address and thread id in the free fields and forwards
`p - sizeof (MallocInfo)`, the block; the other eleven header words, every
payload byte, the trailer words and the two globals are unchanged. -/
theorem first_free_records_and_forwards (fn_malloc : List NextCall → Nat → Nat) (st : State)
    (ra tid size ra1 tid1 : Nat) (hlive : st.aborted = false)
    (hsize : sizeof_MallocInfo + size + sizeof_MallocInfoBack < WORD)
    (hp : (malloc fn_malloc st ra tid size).2 ≠ 0)
    (hfit : fn_malloc st.calls (sizeof_MallocInfo + size + sizeof_MallocInfoBack)
        + (sizeof_MallocInfo + size + sizeof_MallocInfoBack) ≤ WORD)
    (hra : ra1 < WORD) (htid : tid1 < WORD) :
    (malloc fn_malloc st ra tid size).2 - sizeof_MallocInfo =
      fn_malloc st.calls (sizeof_MallocInfo + size + sizeof_MallocInfoBack) ∧
    sizeof_MallocInfo ≤ (malloc fn_malloc st ra tid size).2 ∧
    loadWord (malloc fn_malloc st ra tid size).1.mem
      ((malloc fn_malloc st ra tid size).2 - sizeof_MallocInfo + off_freeCnt) = 0 ∧
    (free (malloc fn_malloc st ra tid size).1 ra1 tid1
      (malloc fn_malloc st ra tid size).2).aborted = false ∧
    loadWord (free (malloc fn_malloc st ra tid size).1 ra1 tid1
        (malloc fn_malloc st ra tid size).2).mem
      ((malloc fn_malloc st ra tid size).2 - sizeof_MallocInfo + off_freeCnt) = 1 ∧
    loadWord (free (malloc fn_malloc st ra tid size).1 ra1 tid1
        (malloc fn_malloc st ra tid size).2).mem
      ((malloc fn_malloc st ra tid size).2 - sizeof_MallocInfo + off_raFree) = ra1 ∧
    loadWord (free (malloc fn_malloc st ra tid size).1 ra1 tid1
        (malloc fn_malloc st ra tid size).2).mem
      ((malloc fn_malloc st ra tid size).2 - sizeof_MallocInfo + off_tidTerminator) = tid1 ∧
    (free (malloc fn_malloc st ra tid size).1 ra1 tid1
      (malloc fn_malloc st ra tid size).2).calls =
      (malloc fn_malloc st ra tid size).1.calls ++
        [NextCall.free ((malloc fn_malloc st ra tid size).2 - sizeof_MallocInfo)] ∧
    (∀ i, i < 14 → i ≠ 6 → i ≠ 7 → i ≠ 9 →
      loadWord (free (malloc fn_malloc st ra tid size).1 ra1 tid1
          (malloc fn_malloc st ra tid size).2).mem
        ((malloc fn_malloc st ra tid size).2 - sizeof_MallocInfo + 4 * i)
      = loadWord (malloc fn_malloc st ra tid size).1.mem
        ((malloc fn_malloc st ra tid size).2 - sizeof_MallocInfo + 4 * i)) ∧
    (∀ x, (malloc fn_malloc st ra tid size).2 ≤ x →
      x < (malloc fn_malloc st ra tid size).2 + size →
      (free (malloc fn_malloc st ra tid size).1 ra1 tid1
        (malloc fn_malloc st ra tid size).2).mem x
      = (malloc fn_malloc st ra tid size).1.mem x) ∧
    (∀ i, i < 10 →
      loadWord (free (malloc fn_malloc st ra tid size).1 ra1 tid1
          (malloc fn_malloc st ra tid size).2).mem
        ((malloc fn_malloc st ra tid size).2 + size + 4 * i)
      = loadWord (malloc fn_malloc st ra tid size).1.mem
        ((malloc fn_malloc st ra tid size).2 + size + 4 * i)) ∧
    (free (malloc fn_malloc st ra tid size).1 ra1 tid1
      (malloc fn_malloc st ra tid size).2).gRaFree = st.gRaFree ∧
    (free (malloc fn_malloc st ra tid size).1 ra1 tid1
      (malloc fn_malloc st ra tid size).2).gTidTerminator = st.gTidTerminator := by
  have hn : (sizeof_MallocInfo + size + sizeof_MallocInfoBack) % WORD =
      sizeof_MallocInfo + size + sizeof_MallocInfoBack := Nat.mod_eq_of_lt hsize
  have hb : fn_malloc st.calls (sizeof_MallocInfo + size + sizeof_MallocInfoBack) ≠ 0 := by
    intro h0
    rw [malloc_null fn_malloc st ra tid size hlive (by rw [hn]; exact h0)] at hp
    exact hp rfl
  obtain ⟨ha, hc, hq, hz⟩ := malloc_counter_zero fn_malloc st ra tid size hlive hsize hb hfit
  have hglob : (malloc fn_malloc st ra tid size).1.gRaFree = st.gRaFree ∧
      (malloc fn_malloc st ra tid size).1.gTidTerminator = st.gTidTerminator := by
    rw [malloc_block fn_malloc st ra tid size hlive (by rw [hn]; exact hb)]
    exact ⟨rfl, rfl⟩
  generalize fn_malloc st.calls (sizeof_MallocInfo + size + sizeof_MallocInfoBack) = b at *
  generalize malloc fn_malloc st ra tid size = a at *
  have hb56 : b + sizeof_MallocInfo < WORD := by
    simp only [sizeof_MallocInfo, sizeof_MallocInfoBack] at *; omega
  have hpadd : padd b sizeof_MallocInfo = b + sizeof_MallocInfo := by
    simp only [padd, WORD] at *
    omega
  have hoff : ∀ k, k < sizeof_MallocInfo → padd b k = b + k := by
    intro k hk
    simp only [padd, WORD, sizeof_MallocInfo] at *
    omega
  have hsub : a.2 - sizeof_MallocInfo = b := by rw [hq, hpadd]; omega
  rw [hsub]
  rw [hoff off_freeCnt (by decide)] at hz
  obtain ⟨h1, h2, h3, h4, h5⟩ := free_live a.1 b ra1 tid1 ha hb56
    (by rw [hoff off_freeCnt (by decide)]; exact hz)
  rw [Nat.mod_eq_of_lt hra, hoff off_raFree (by decide)] at h4
  rw [Nat.mod_eq_of_lt htid, hoff off_tidTerminator (by decide)] at h5
  rw [hoff off_freeCnt (by decide)] at h3
  have hfree : free a.1 ra1 tid1 (padd b sizeof_MallocInfo)
      = { a.1 with
          mem := (free a.1 ra1 tid1 (padd b sizeof_MallocInfo)).mem
          calls := a.1.calls ++ [NextCall.free b] } := by
    have hp0 : padd b sizeof_MallocInfo ≠ 0 := by rw [hpadd]; omega
    have hmi : psub (padd b sizeof_MallocInfo) sizeof_MallocInfo = b :=
      psub_padd b _ (by omega)
    have := free_first a.1 ra1 tid1 _ ha hp0
      (by rw [hmi, hoff off_freeCnt (by decide)]; exact hz)
    rw [hmi] at this
    rw [this]
  rw [hq]
  refine ⟨rfl, by rw [hpadd]; omega, hz, h1, h3, h4, h5, h2, ?_, ?_, ?_, ?_, ?_⟩
  · intro i hi h6 h7 h9
    have := free_header_word a.1 b ra1 tid1 i ha hb56
      (by rw [hoff off_freeCnt (by decide)]; exact hz) hi h6 h7 h9
    rw [hoff (4 * i) (by simp only [sizeof_MallocInfo]; omega)] at this
    exact this
  · intro x hx1 hx2
    rw [hpadd] at hx1 hx2
    exact free_frame_byte a.1 b ra1 tid1 x ha hb56
      (by rw [hoff off_freeCnt (by decide)]; exact hz)
      (by simp only [WORD, sizeof_MallocInfo, sizeof_MallocInfoBack] at *; omega)
      (Or.inr (Or.inr (by simp only [off_freeCnt, sizeof_MallocInfo] at *; omega)))
  · intro i hi
    have e : padd b sizeof_MallocInfo + size + 4 * i = b + sizeof_MallocInfo + size + 4 * i := by
      rw [hpadd]
    rw [e]
    have hx : b + sizeof_MallocInfo + size + 4 * i + 4 ≤ WORD := by
      simp only [WORD, sizeof_MallocInfo, sizeof_MallocInfoBack] at *; omega
    have hout : b + sizeof_MallocInfo ≤ b + sizeof_MallocInfo + size + 4 * i ∨
        b + sizeof_MallocInfo + size + 4 * i + 4 ≤ b := Or.inl (by omega)
    exact free_frame a.1 b ra1 tid1 ha hb56
      (by rw [hoff off_freeCnt (by decide)]; exact hz)
      (b + sizeof_MallocInfo + size + 4 * i) hx hout
  · rw [hfree]; exact hglob.1
  · rw [hfree]; exact hglob.2

/-- Claim C14, amended: over a next layer that keeps its contract, for a non-null
`p` returned by `malloc (old)` and `m > 0`, both with requests that do not
wrap, when `realloc (p, m)` returns a non-null `q`: the header of `q` records
`m` (header and trailer are those of `malloc (m)`), the first `min old m`
bytes of `q` are those of `p`'s payload before the call, the other payload
bytes of `q` and every byte outside the new block and the old header are
unchanged, the free counter of `p` goes from 0 to 1, and the next layer sees
the allocation and then one release of `p`'s block. -/
theorem realloc_copies_and_frees (fn_malloc : List NextCall → Nat → Nat) (hsane : Sane fn_malloc)
    (st0 : State) (ra0 tid0 old raNull raFreeZero raNew raFreeOld tid m : Nat)
    (hlive : st0.aborted = false)
    (hold : sizeof_MallocInfo + old + sizeof_MallocInfoBack < WORD)
    (hm0 : 0 < m) (hm : sizeof_MallocInfo + m + sizeof_MallocInfoBack < WORD)
    (hra : raNew < WORD) (htid : tid < WORD)
    (st1 : State) (p : Nat) (hmal : malloc fn_malloc st0 ra0 tid0 old = (st1, p)) (hp : p ≠ 0)
    (r : State × Nat)
    (hr : realloc fn_malloc st1 raNull raFreeZero raNew raFreeOld tid p m = r)
    (hq : r.2 ≠ 0) :
    p = fn_malloc st0.calls (sizeof_MallocInfo + old + sizeof_MallocInfoBack)
      + sizeof_MallocInfo ∧
    loadWord st1.mem (p - sizeof_MallocInfo + off_size) = old ∧
    loadWord st1.mem (p - sizeof_MallocInfo + off_freeCnt) = 0 ∧
    r.2 = fn_malloc st1.calls (sizeof_MallocInfo + m + sizeof_MallocInfoBack)
      + sizeof_MallocInfo ∧
    loadWord r.1.mem (r.2 - sizeof_MallocInfo + off_size) = m ∧
    (∀ d, d < min old m → r.1.mem (r.2 + d) = st1.mem (p + d)) ∧
    (∀ d, min old m ≤ d → d < m → r.1.mem (r.2 + d) = st1.mem (r.2 + d)) ∧
    (∀ i, i < 14 →
      loadWord r.1.mem (r.2 - sizeof_MallocInfo + 4 * i) = (mallocInfo raNew tid m).getD i 0) ∧
    (∀ i, i < 10 → loadWord r.1.mem (r.2 + m + 4 * i) = (mallocInfoBack tid m).getD i 0) ∧
    (∀ x, x < WORD →
      (x < r.2 - sizeof_MallocInfo ∨
        r.2 - sizeof_MallocInfo + (sizeof_MallocInfo + m + sizeof_MallocInfoBack) ≤ x) →
      (x < p - sizeof_MallocInfo ∨ p ≤ x) → r.1.mem x = st1.mem x) ∧
    loadWord r.1.mem (p - sizeof_MallocInfo + off_freeCnt) = 1 ∧
    r.1.calls = st1.calls ++
      [NextCall.malloc (sizeof_MallocInfo + m + sizeof_MallocInfoBack) (r.2 - sizeof_MallocInfo),
       NextCall.free (p - sizeof_MallocInfo)] ∧
    r.1.aborted = false := by
  have hn : (sizeof_MallocInfo + old + sizeof_MallocInfoBack) % WORD =
      sizeof_MallocInfo + old + sizeof_MallocInfoBack := Nat.mod_eq_of_lt hold
  have hnm : (sizeof_MallocInfo + m + sizeof_MallocInfoBack) % WORD =
      sizeof_MallocInfo + m + sizeof_MallocInfoBack := Nat.mod_eq_of_lt hm
  have hst1 : st1 = (malloc fn_malloc st0 ra0 tid0 old).1 := by rw [hmal]
  have hpp : p = (malloc fn_malloc st0 ra0 tid0 old).2 := by rw [hmal]
  -- the old block
  have hb : fn_malloc st0.calls (sizeof_MallocInfo + old + sizeof_MallocInfoBack) ≠ 0 := by
    intro h0
    rw [malloc_null fn_malloc st0 ra0 tid0 old hlive (by rw [hn]; exact h0)] at hpp
    exact hp hpp
  obtain ⟨hfit, _⟩ := (hsane st0.calls _).resolve_left hb
  obtain ⟨ha, hc, hpq, hz⟩ := malloc_counter_zero fn_malloc st0 ra0 tid0 old hlive hold hb hfit
  have hsz := malloc_size_word fn_malloc st0 ra0 tid0 old hlive hold hb hfit
  rw [← hst1] at ha hc hz hsz
  rw [← hpp] at hpq
  generalize fn_malloc st0.calls (sizeof_MallocInfo + old + sizeof_MallocInfoBack) = b at *
  have hpadd : padd b sizeof_MallocInfo = b + sizeof_MallocInfo := by
    simp only [padd, WORD, sizeof_MallocInfo, sizeof_MallocInfoBack] at *
    omega
  rw [hpadd] at hpq
  have hlb : (b, sizeof_MallocInfo + old + sizeof_MallocInfoBack) ∈ liveBlocks st1.calls := by
    rw [hc, liveBlocks_malloc, if_neg hb]
    exact List.mem_append_right _ (List.mem_singleton_self _)
  -- the new block
  have hnb : fn_malloc st1.calls (sizeof_MallocInfo + m + sizeof_MallocInfoBack) ≠ 0 := by
    intro h0
    rw [realloc_null fn_malloc st1 raNull raFreeZero raNew raFreeOld tid p m ha hp hm0
      (by rw [hnm]; exact h0)] at hr
    rw [← hr] at hq
    exact hq rfl
  obtain ⟨hnbfit, hnbfree⟩ := (hsane st1.calls _).resolve_left hnb
  have hdisj := hnbfree _ hlb
  dsimp only at hdisj
  have hoff : ∀ k, k < sizeof_MallocInfo → padd b k = b + k := by
    intro k hk
    simp only [padd, WORD, sizeof_MallocInfo, sizeof_MallocInfoBack] at *
    omega
  rw [hoff off_size (by decide)] at hsz
  rw [hoff off_freeCnt (by decide)] at hz
  subst hpq
  obtain ⟨k1, k2, k3, k4, k5, k6, k7, k8, k9⟩ := realloc_moves_block fn_malloc st1
    raNull raFreeZero raNew raFreeOld tid b old m _ ha hold hfit
    (by rw [hoff off_size (by decide)]; exact hsz)
    (by rw [hoff off_freeCnt (by decide)]; exact hz)
    hm0 hm rfl hnb hnbfit hdisj hra htid r hr
  generalize fn_malloc st1.calls (sizeof_MallocInfo + m + sizeof_MallocInfoBack) = nb at *
  have e1 : b + sizeof_MallocInfo - sizeof_MallocInfo = b := by omega
  have e2 : r.2 - sizeof_MallocInfo = nb := by rw [k1]; omega
  rw [e1, e2, k1]
  refine ⟨rfl, hsz, hz, rfl, ?_, k6, k7, k4, k5, ?_, k8, k3, k2⟩
  · have := k4 8 (by omega)
    simpa [mallocInfo, off_size] using this
  · intro x hx hx1 hx2
    exact k9 x hx hx1 hx2

/-- Claim C11, amended: for a size whose block request does not wrap and a
non-null block `b` inside the address space, `malloc` returns
`b + sizeof (MallocInfo)`, the fourteen words at `b` are the header (four
`MAGIC1`, return address, thread id, two zero free fields, size, zero free
counter, four `MAGIC2`), the ten words at returned pointer + size are the
trailer (four `MAGIC3`, thread id, size, four `MAGIC4`), and no payload byte
is written. -/
theorem malloc_writes_header_and_trailer (fn_malloc : List NextCall → Nat → Nat) (st : State)
    (ra tid size : Nat) (hlive : st.aborted = false)
    (hsize : sizeof_MallocInfo + size + sizeof_MallocInfoBack < WORD)
    (hb : fn_malloc st.calls (sizeof_MallocInfo + size + sizeof_MallocInfoBack) ≠ 0)
    (hfit : fn_malloc st.calls (sizeof_MallocInfo + size + sizeof_MallocInfoBack)
        + (sizeof_MallocInfo + size + sizeof_MallocInfoBack) ≤ WORD)
    (hra : ra < WORD) (htid : tid < WORD) :
    (malloc fn_malloc st ra tid size).2 =
      fn_malloc st.calls (sizeof_MallocInfo + size + sizeof_MallocInfoBack)
        + sizeof_MallocInfo ∧
    (∀ i, i < 14 →
      loadWord (malloc fn_malloc st ra tid size).1.mem
        (fn_malloc st.calls (sizeof_MallocInfo + size + sizeof_MallocInfoBack) + 4 * i)
      = [MAGIC1, MAGIC1, MAGIC1, MAGIC1, ra, tid, 0, 0, size, 0,
          MAGIC2, MAGIC2, MAGIC2, MAGIC2].getD i 0) ∧
    (∀ i, i < 10 →
      loadWord (malloc fn_malloc st ra tid size).1.mem
        ((malloc fn_malloc st ra tid size).2 + size + 4 * i)
      = [MAGIC3, MAGIC3, MAGIC3, MAGIC3, tid, size, MAGIC4, MAGIC4, MAGIC4, MAGIC4].getD i 0) ∧
    (∀ x, (malloc fn_malloc st ra tid size).2 ≤ x →
      x < (malloc fn_malloc st ra tid size).2 + size →
      (malloc fn_malloc st ra tid size).1.mem x = st.mem x) := by
  obtain ⟨h1, h2, h3, h4⟩ := malloc_layout fn_malloc st ra tid size hlive hsize hb hfit hra htid
  refine ⟨h1, h2, ?_, ?_⟩
  · intro i hi
    rw [h1]
    exact h3 i hi
  · intro x hx1 hx2
    rw [h1] at hx1 hx2
    exact h4 x (by simp only [WORD, sizeof_MallocInfo, sizeof_MallocInfoBack] at *; omega)
      (Or.inr (Or.inl ⟨hx1, hx2⟩))

/-- Claim C11 as stated fails: for the size `0xFFFFFFEC` the next layer returns
the non-null block `4096` for a wrapped request of 76 bytes; the trailer,
written at returned pointer + size on the 32-bit machine, lands on the header:
the free counter holds `MAGIC3`, not zero, and the first payload byte is
written. -/
theorem malloc_wrapped_trailer_hits_header :
    demoHeap demoState.calls
      ((sizeof_MallocInfo + 0xFFFFFFEC + sizeof_MallocInfoBack) % WORD) = 4096 ∧
    (malloc demoHeap demoState 0x400100 7 0xFFFFFFEC).2 = 4096 + sizeof_MallocInfo ∧
    loadWord (malloc demoHeap demoState 0x400100 7 0xFFFFFFEC).1.mem (4096 + off_freeCnt)
      = MAGIC3 ∧
    MAGIC3 ≠ 0 ∧
    demoState.mem 4152 = 0 ∧
    (malloc demoHeap demoState 0x400100 7 0xFFFFFFEC).1.mem 4152 = 0xEC := by
  refine ⟨by decide, by decide, by decide, by decide, by decide, by decide⟩

theorem malloc_writes_header_and_trailer_witness :
    (malloc demoHeap demoState 0x400100 7 64).2 = 4096 + sizeof_MallocInfo ∧
    loadWord (malloc demoHeap demoState 0x400100 7 64).1.mem (4096 + 4 * 9) = 0 ∧
    loadWord (malloc demoHeap demoState 0x400100 7 64).1.mem
      ((malloc demoHeap demoState 0x400100 7 64).2 + 64 + 4 * 5) = 64 := by
  have h := malloc_writes_header_and_trailer demoHeap demoState 0x400100 7 64 rfl
    (by decide) (by decide) (by decide) (by decide) (by decide)
  exact ⟨h.1, h.2.1 9 (by decide), h.2.2.1 5 (by decide)⟩

theorem malloc_failure_propagates_witness :
    (malloc demoHeap demoState 0x400100 7 0xFFFFF000).2 = 0 ∧
    (malloc demoHeap demoState 0x400100 7 0xFFFFF000).1.mem = demoState.mem ∧
    (malloc demoHeap demoState 0x400100 7 0xFFFFF000).1.gRaFree = demoState.gRaFree ∧
    (malloc demoHeap demoState 0x400100 7 0xFFFFF000).1.gTidTerminator
      = demoState.gTidTerminator ∧
    (malloc demoHeap demoState 0x400100 7 0xFFFFF000).1.aborted = demoState.aborted :=
  malloc_failure_propagates demoHeap demoState 0x400100 7 0xFFFFF000 (by decide)

theorem null_and_zero_conventions_witness :
    free demoState 0x400100 7 0
      = { demoState with calls := demoState.calls ++ [NextCall.free 0] } ∧
    realloc demoHeap (malloc demoHeap demoState 0x400100 7 16).1
        0x400a00 0x400b00 0x400c00 0x400d00 7 4152 0
      = (free (malloc demoHeap demoState 0x400100 7 16).1 0x400b00 7 4152, 0) :=
  ⟨(null_and_zero_conventions demoHeap demoState 0x400100
      0x400a00 0x400b00 0x400c00 0x400d00 7 16 4152).1 rfl,
   (null_and_zero_conventions demoHeap (malloc demoHeap demoState 0x400100 7 16).1 0x400100
      0x400a00 0x400b00 0x400c00 0x400d00 7 16 4152).2.2 (by decide)⟩

/-- Claim C14 as stated fails: `p` is live with recorded size 16 and the new
allocation for `m = 0xFFFFFFE8` succeeds (its request wraps to 72 bytes), yet
the size field of the returned block's header holds `MAGIC3`, not `m`: the
trailer and the copy are written over the header. -/
theorem realloc_wrapped_size_loses_header :
    (malloc demoHeap demoState 0x400100 7 16).2 = 4152 ∧
    (realloc demoHeap (malloc demoHeap demoState 0x400100 7 16).1
      0x400a00 0x400b00 0x400c00 0x400d00 7 4152 0xFFFFFFE8).2 = 4264 ∧
    (realloc demoHeap (malloc demoHeap demoState 0x400100 7 16).1
      0x400a00 0x400b00 0x400c00 0x400d00 7 4152 0xFFFFFFE8).1.calls
      = [NextCall.malloc 112 4096, NextCall.malloc 72 4208, NextCall.free 4096] ∧
    loadWord (realloc demoHeap (malloc demoHeap demoState 0x400100 7 16).1
      0x400a00 0x400b00 0x400c00 0x400d00 7 4152 0xFFFFFFE8).1.mem
      (4264 - sizeof_MallocInfo + off_size) = MAGIC3 ∧
    MAGIC3 ≠ 0xFFFFFFE8 := by
  refine ⟨by decide, by decide, by decide, by decide, by decide⟩

theorem realloc_copies_and_frees_witness :
    (realloc demoHeap (malloc demoHeap demoState 0x400100 7 16).1
      0x400a00 0x400b00 0x400c00 0x400d00 7
      (malloc demoHeap demoState 0x400100 7 16).2 32).2 ≠ 0 ∧
    loadWord (realloc demoHeap (malloc demoHeap demoState 0x400100 7 16).1
        0x400a00 0x400b00 0x400c00 0x400d00 7
        (malloc demoHeap demoState 0x400100 7 16).2 32).1.mem
      ((realloc demoHeap (malloc demoHeap demoState 0x400100 7 16).1
        0x400a00 0x400b00 0x400c00 0x400d00 7
        (malloc demoHeap demoState 0x400100 7 16).2 32).2 - sizeof_MallocInfo + off_size)
      = 32 ∧
    loadWord (realloc demoHeap (malloc demoHeap demoState 0x400100 7 16).1
        0x400a00 0x400b00 0x400c00 0x400d00 7
        (malloc demoHeap demoState 0x400100 7 16).2 32).1.mem
      ((malloc demoHeap demoState 0x400100 7 16).2 - sizeof_MallocInfo + off_freeCnt) = 1 := by
  have hq : (realloc demoHeap (malloc demoHeap demoState 0x400100 7 16).1
      0x400a00 0x400b00 0x400c00 0x400d00 7
      (malloc demoHeap demoState 0x400100 7 16).2 32).2 ≠ 0 := by decide
  have h := realloc_copies_and_frees demoHeap demoHeap_sane demoState 0x400100 7 16
    0x400a00 0x400b00 0x400c00 0x400d00 7 32 rfl (by decide) (by decide) (by decide)
    (by decide) (by decide)
    (malloc demoHeap demoState 0x400100 7 16).1 (malloc demoHeap demoState 0x400100 7 16).2
    rfl (by decide) _ rfl hq
  exact ⟨hq, h.2.2.2.2.1, h.2.2.2.2.2.2.2.2.2.2.1⟩

theorem realloc_failure_keeps_block_witness :
    realloc demoHeap (malloc demoHeap demoState 0x400100 7 16).1
        0x400a00 0x400b00 0x400c00 0x400d00 7 4152 0xFFFFF000 =
      ({ (malloc demoHeap demoState 0x400100 7 16).1 with
          calls := (malloc demoHeap demoState 0x400100 7 16).1.calls ++
            [NextCall.malloc
              ((sizeof_MallocInfo + 0xFFFFF000 + sizeof_MallocInfoBack) % WORD) 0] }, 0) ∧
    (free (realloc demoHeap (malloc demoHeap demoState 0x400100 7 16).1
        0x400a00 0x400b00 0x400c00 0x400d00 7 4152 0xFFFFF000).1 0x400200 8 4152).aborted
      = false := by
  have h := realloc_failure_keeps_block demoHeap (malloc demoHeap demoState 0x400100 7 16).1
    0x400a00 0x400b00 0x400c00 0x400d00 7 4152 0xFFFFF000 0x400200 8
    rfl (by decide) (by decide) (by decide) (by decide)
  exact ⟨h.1, h.2.2.2.2.1⟩

/-- Claim C18 as stated fails: for the size `0xFFFFFFC0` the request wraps to 32
bytes and the trailer is written at returned pointer - 64, over the first
header words; the returned pointer is live (free counter 0) and the first
`free` forwards the block, but the free return address it records replaces
the last `MAGIC4` word of the trailer. -/
theorem first_free_wrapped_size_changes_trailer :
    (malloc demoHeap demoState 0x400100 7 0xFFFFFFC0).2 = 4152 ∧
    loadWord (malloc demoHeap demoState 0x400100 7 0xFFFFFFC0).1.mem
      (4152 - sizeof_MallocInfo + off_freeCnt) = 0 ∧
    (free (malloc demoHeap demoState 0x400100 7 0xFFFFFFC0).1 0x400200 8 4152).aborted
      = false ∧
    (free (malloc demoHeap demoState 0x400100 7 0xFFFFFFC0).1 0x400200 8 4152).calls
      = [NextCall.malloc 32 4096, NextCall.free 4096] ∧
    loadWord (malloc demoHeap demoState 0x400100 7 0xFFFFFFC0).1.mem
      (padd (padd 4152 0xFFFFFFC0) (4 * 8)) = MAGIC4 ∧
    loadWord (free (malloc demoHeap demoState 0x400100 7 0xFFFFFFC0).1 0x400200 8 4152).mem
      (padd (padd 4152 0xFFFFFFC0) (4 * 8)) = 0x400200 ∧
    MAGIC4 ≠ 0x400200 := by
  refine ⟨by decide, by decide, by decide, by decide, by decide, by decide, by decide⟩

theorem first_free_records_and_forwards_witness :
    (malloc demoHeap demoState 0x400100 7 64).2 ≠ 0 ∧
    (free (malloc demoHeap demoState 0x400100 7 64).1 0x400200 8
      (malloc demoHeap demoState 0x400100 7 64).2).aborted = false ∧
    loadWord (free (malloc demoHeap demoState 0x400100 7 64).1 0x400200 8
        (malloc demoHeap demoState 0x400100 7 64).2).mem
      ((malloc demoHeap demoState 0x400100 7 64).2 - sizeof_MallocInfo + off_freeCnt) = 1 ∧
    (free (malloc demoHeap demoState 0x400100 7 64).1 0x400200 8
      (malloc demoHeap demoState 0x400100 7 64).2).calls =
      (malloc demoHeap demoState 0x400100 7 64).1.calls ++
        [NextCall.free ((malloc demoHeap demoState 0x400100 7 64).2 - sizeof_MallocInfo)] := by
  have hp : (malloc demoHeap demoState 0x400100 7 64).2 ≠ 0 := by decide
  have h := first_free_records_and_forwards demoHeap demoState 0x400100 7 64 0x400200 8 rfl
    (by decide) hp (by decide) (by decide) (by decide)
  exact ⟨hp, h.2.2.2.1, h.2.2.2.2.1, h.2.2.2.2.2.2.2.1⟩

theorem request_size_wraps_witness :
    (malloc demoHeap demoState 0x400100 7 0xFFFFFFEC).1.calls = demoState.calls ++
      [NextCall.malloc ((sizeof_MallocInfo + 0xFFFFFFEC + sizeof_MallocInfoBack) % WORD)
        (demoHeap demoState.calls
          ((sizeof_MallocInfo + 0xFFFFFFEC + sizeof_MallocInfoBack) % WORD))] ∧
    (sizeof_MallocInfo + 0xFFFFFFEC + sizeof_MallocInfoBack) % WORD
      = sizeof_MallocInfo + 0xFFFFFFEC + sizeof_MallocInfoBack - WORD ∧
    (sizeof_MallocInfo + 0xFFFFFFEC + sizeof_MallocInfoBack) % WORD
      < 4 * (mallocInfo 0x400100 7 0xFFFFFFEC).length
        + 4 * (mallocInfoBack 7 0xFFFFFFEC).length := by
  have h := request_size_wraps demoHeap demoState 0x400100 7 0xFFFFFFEC rfl (by decide)
  have h2 := h.2.2.2 (by decide)
  exact ⟨h.1, h2.1, h2.2.1⟩

end KrisMalloc
